import Mathlib

/-!
Shallow embedding of the DatabaseCore ORM and schema migration engine of
the books repository (src/unnamed/part_000): schema data model, query
filter compilation, CRUD operations over collection and singleton
schemas, and the migration logic, together with theorems settling the
frozen claims about that code.

Conventions of the embedding:
* JavaScript scalar values (string, number, boolean, null) and nested
  child row lists are `FVal`; `undefined` is modelled as absence of the
  key from an association list.
* A database table is a list of rows (association lists from column
  name to value) plus its column and foreign key column names.
* Fallible operations return `Except DbErr`; statements the code would
  crash on (property access of undefined) are `DbErr.typeErr`, driver
  "no such table / schema not found" errors are `DbErr.notFound`,
  primary key violations are `DbErr.dupEntry`.
* Randomness (`getRandomString`) is modelled by a counter carried in
  the database state; wall clock strings are a fixed constant, neither
  is observed by any claim.
-/

namespace Books

/-- Raw values stored in database cells and carried in field value maps.
`vlist` holds nested child row lists, which appear only inside field
value maps for Table fields, never as a stored scalar cell. -/
inductive FVal where
  | vnull
  | vstr (s : String)
  | vint (n : Int)
  | vbool (b : Bool)
  | vlist (rows : List (List (String × FVal)))

/-- A database row or a field value map: association list from field
name to value. A missing key models JavaScript `undefined`. -/
abbrev Row := List (String × FVal)

abbrev FieldValueMap := Row

/-- Field types of the schema model. -/
inductive FieldType where
  | Data
  | Text
  | Int
  | Currency
  | Select
  | Link
  | Table
  | AttachImage
deriving DecidableEq

/-- One field of a schema (schemas/types.ts). `fdefault` is the declared
default, `target` the target schema name of Link and Table fields. -/
structure Field where
  fieldname : String
  fieldtype : FieldType
  required : Bool := false
  fdefault : Option FVal := none
  target : Option String := none

/-- One schema of the schema map. -/
structure Schema where
  name : String
  isSingle : Bool := false
  fields : List Field

/-- The schema map handed to `setSchemaMap`, as an association list. -/
abbrev SchemaMap := List (String × Schema)

/-- A physical table: column names, foreign key column names and rows. -/
structure Table where
  cols : List String
  fks : List String
  rows : List Row

/-- The database state: named tables plus the fresh name counter that
models `getRandomString`. -/
structure DB where
  tables : List (String × Table)
  counter : Nat := 0

/-- Error kinds surfaced by the embedded operations. -/
inductive DbErr where
  | notFound
  | valueErr
  | dupEntry
  | typeErr
deriving DecidableEq

/-! ## Row and table helpers -/

/-- Read a key of a row / field value map (`undefined` is `none`). -/
def rowGet (r : Row) (k : String) : Option FVal :=
  (r.find? (fun p => p.1 == k)).map (fun p => p.2)

def rowGetD (r : Row) (k : String) (d : FVal) : FVal :=
  (rowGet r k).getD d

/-- JavaScript property assignment `r[k] = v`: replace the value of the
key in place when it exists, append it otherwise. -/
def setEntry : Row → String → FVal → Row
  | [], k, v => [(k, v)]
  | p :: rest, k, v =>
    if p.1 == k then (k, v) :: rest else p :: setEntry rest k v

/-- JavaScript `delete r[k]`. -/
def rowDrop (r : Row) (k : String) : Row :=
  r.filter (fun p => !(p.1 == k))

/-- Apply every entry of `u` onto `r` (a SQL UPDATE of those columns). -/
def rowMerge (r : Row) (u : Row) : Row :=
  u.foldl (fun acc p => setEntry acc p.1 p.2) r

/-- SQL projection of a row onto a column list; missing columns read as
NULL. -/
def projectRow (flds : List String) (r : Row) : Row :=
  flds.map (fun f => (f, rowGetD r f .vnull))

def tget (db : DB) (n : String) : Option Table :=
  (db.tables.find? (fun p => p.1 == n)).map (fun p => p.2)

/-- Store a table under a name: replace in place or append. -/
def lset : List (String × Table) → String → Table → List (String × Table)
  | [], n, t => [(n, t)]
  | p :: rest, n, t =>
    if p.1 == n then (n, t) :: rest else p :: lset rest n t

def tset (db : DB) (n : String) (t : Table) : DB :=
  { db with tables := lset db.tables n t }

def tdrop (db : DB) (n : String) : DB :=
  { db with tables := db.tables.filter (fun p => !(p.1 == n)) }

/-- `ALTER TABLE old RENAME TO new` (the old name must exist). -/
def trename (db : DB) (old new : String) : Except DbErr DB :=
  match tget db old with
  | none => .error .notFound
  | some t => .ok (tset (tdrop db old) new t)

def lookupSchema (smap : SchemaMap) (n : String) : Option Schema :=
  (smap.find? (fun p => p.1 == n)).map (fun p => p.2)

/-! ## JavaScript value predicates -/

/-- JavaScript truthiness of a value. -/
def truthy : FVal → Bool
  | .vnull => false
  | .vstr s => !(s == "")
  | .vint n => !(n == 0)
  | .vbool b => b
  | .vlist _ => true

def truthyOpt : Option FVal → Bool
  | some v => truthy v
  | none => false

/-- Modelled from the spec: the helper `getIsNullOrUndef` from utils is
not under src; per its name and use it holds exactly when the value is
null or undefined. -/
def isNullish : Option FVal → Bool
  | none => true
  | some .vnull => true
  | some _ => false

def isVNull : FVal → Bool
  | .vnull => true
  | _ => false

/-- The value is a JavaScript string. -/
def isStrName : Option FVal → Bool
  | some (.vstr _) => true
  | _ => false

/-- The `name` value of a row as a string (empty for anything else). -/
def nameStrOf (r : Row) : String :=
  match rowGet r "name" with
  | some (.vstr s) => s
  | _ => ""

/-- `String.toLowerCase` over the character list (reduces
definitionally, unlike the byte-position based library function). -/
def lowerStr (s : String) : String :=
  String.mk (s.toList.map Char.toLower)

/-- `String.includes('%')`: the operand already contains a wildcard. -/
def containsPct (s : String) : Bool :=
  s.toList.any (fun c => c == '%')

/-! ## SQL value comparison -/

/-- SQL equality: NULL compares equal to nothing, otherwise values of
the same scalar shape compare structurally. Nested lists are not
storable scalars and never compare equal. -/
def sqlEqVal : FVal → FVal → Bool
  | .vnull, _ => false
  | _, .vnull => false
  | .vstr a, .vstr b => a == b
  | .vint a, .vint b => a == b
  | .vbool a, .vbool b => a == b
  | _, _ => false

/-- Type rank used for ordering heterogeneous cells (NULL first, then
booleans, numbers, text, as the backing engine orders storage classes). -/
def frank : FVal → Nat
  | .vnull => 0
  | .vbool _ => 1
  | .vint _ => 2
  | .vstr _ => 3
  | .vlist _ => 4

def fint : FVal → Int
  | .vint n => n
  | .vbool b => if b then 1 else 0
  | _ => 0

def fstr : FVal → String
  | .vstr s => s
  | _ => ""

/-- Lexicographic character list comparison by code point. -/
def charListLe : List Char → List Char → Bool
  | [], _ => true
  | _ :: _, [] => false
  | a :: as, b :: bs =>
    if a.toNat < b.toNat then true
    else if b.toNat < a.toNat then false
    else charListLe as bs

def strLeB (a b : String) : Bool :=
  charListLe a.toList b.toList

/-- Total ordering on cell values: by rank, then numeric value, then
string value. Drives ORDER BY. -/
def keyLe (a b : FVal) : Bool :=
  decide (frank a < frank b) ||
    (frank a == frank b &&
      (decide (fint a < fint b) ||
        (fint a == fint b && strLeB (fstr a) (fstr b))))

/-- Guard for SQL comparison predicates: NULL operands yield false. -/
def sqlNN (a b : FVal) (k : Bool) : Bool :=
  match a, b with
  | .vnull, _ => false
  | _, .vnull => false
  | _, _ => k

/-! ## LIKE matching (fuel-based so it reduces definitionally) -/

/-- One step bound is enough: fuel decreases on every recursive call. -/
def likeF : Nat → List Char → List Char → Bool
  | 0, _, _ => false
  | _ + 1, [], s => s.isEmpty
  | fuel + 1, p :: ps, s =>
    if p == '%' then
      likeF fuel ps s ||
        (match s with
          | [] => false
          | _ :: t => likeF fuel (p :: ps) t)
    else
      match s with
      | [] => false
      | c :: t =>
        if p == '_' then likeF fuel ps t
        else (p.toLower == c.toLower) && likeF fuel ps t

/-- SQL LIKE with `%` and `_` wildcards, ASCII case-insensitive as the
backing engine default collation. -/
def sqlLike (x pat : FVal) : Bool :=
  match x, pat with
  | .vstr s, .vstr p => likeF (p.length + s.length + 1) p.toList s.toList
  | _, _ => false

/-! ## Query filter compilation (#applyFiltersToBuilder) -/

/-- A filter map value: a literal (implying equality) or the array form
`[operator, value]` / `[operator, value, operator2, value2]`. -/
inductive QFilterVal where
  | lit (v : FVal)
  | arr (l : List FVal)

abbrev QueryFilter := List (String × QFilterVal)

/-- `(value[0] as string).toLowerCase()`; non-string heads are outside
the code's typed domain and compile to the empty operator. -/
def opOfHead : FVal → String
  | .vstr s => lowerStr s
  | _ => ""

/-- Wrap a substring-match operand with wildcards unless it already
contains one (non-string operands are passed through; the code would
crash on them). -/
def wrapLike : FVal → FVal
  | .vstr s => if containsPct s then .vstr s else .vstr ("%" ++ s ++ "%")
  | v => v

/-- Compile one filter map entry into predicate conditions
`(field, operator, operand)`, exactly as the loop body of
`#applyFiltersToBuilder` pushes them into `filtersArray`. Note that
only the first slot's operator is lowercased, rewritten from
`includes` to `like` and wildcard-wrapped; `value[2]`/`value[3]` are
pushed verbatim. -/
def compileEntry (f : String) (v : QFilterVal) : List (String × FVal × FVal) :=
  match v with
  | .lit x => [(f, FVal.vstr "=", x)]
  | .arr l =>
    let op0 := opOfHead (l.getD 0 .vnull)
    let op1 := if op0 == "includes" then "like" else op0
    let c0 := l.getD 1 .vnull
    let first := (f, FVal.vstr op1, if op1 == "like" then wrapLike c0 else c0)
    if l.length > 2 then
      [first, (f, l.getD 2 .vnull, l.getD 3 .vnull)]
    else
      [first]

def compileFilters (filters : QueryFilter) : List (String × FVal × FVal) :=
  filters.flatMap (fun p => compileEntry p.1 p.2)

/-- Truth of one compiled condition on a row: how the final
`builder.where(field, operator, value)` chain evaluates it. -/
def condHolds (r : Row) : String × FVal × FVal → Bool
  | (f, op, cv) =>
    let x := rowGetD r f .vnull
    match op with
    | .vstr o =>
      if o == "=" then sqlEqVal x cv
      else if o == "like" then sqlLike x cv
      else if o == ">=" then sqlNN x cv (keyLe cv x)
      else if o == "<=" then sqlNN x cv (keyLe x cv)
      else if o == ">" then sqlNN x cv (!keyLe x cv)
      else if o == "<" then sqlNN x cv (!keyLe cv x)
      else if o == "!=" then sqlNN x cv (!sqlEqVal x cv)
      else false
    | _ => false

/-- The compiled predicate: the conjunction of every pushed condition
(successive `builder.where` calls AND together). -/
def rowPasses (filters : QueryFilter) (r : Row) : Bool :=
  (compileFilters filters).all (fun c => condHolds r c)

/-! ## Sorting (ORDER BY) -/

def insBy (le : α → α → Bool) (a : α) : List α → List α
  | [] => [a]
  | b :: l => if le a b then a :: b :: l else b :: insBy le a l

def insSortBy (le : α → α → Bool) : List α → List α
  | [] => []
  | a :: l => insBy le a (insSortBy le l)

/-- Row comparison for ORDER BY on one column. -/
def rowLe (col : String) (ord : String) (r s : Row) : Bool :=
  if ord == "asc" then keyLe (rowGetD r col .vnull) (rowGetD s col .vnull)
  else keyLe (rowGetD s col .vnull) (rowGetD r col .vnull)

/-! ## Constants modelled from outside src -/

/-- Modelled from the spec: `getRandomString` from utils is not under
src; it returns a fresh random row name. The model draws distinct names
from the database counter. -/
def getRandomString (n : Nat) : String :=
  "__rand__" ++ toString n

/-- Modelled from the spec: the `SYSTEM` audit sentinel from
backend/helpers is not under src. -/
def SYSTEMSTR : String := "SYSTEM"

/-- Fixed wall clock stand-in for `new Date().toISOString()`. -/
def NOWSTR : String := "2020-01-01T00:00:00.000Z"

/-- Modelled from the spec: `getDefaultMetaFieldValueMap` from
backend/helpers is not under src; it supplies the audit meta values
created / modified / createdBy / modifiedBy. -/
def metaRow : Row :=
  [("createdBy", .vstr SYSTEMSTR), ("modifiedBy", .vstr SYSTEMSTR),
   ("created", .vstr NOWSTR), ("modified", .vstr NOWSTR)]

/-- Modelled from the spec: `sqliteTypeMap` from backend/helpers is not
under src; it has a native column type for every field type except
Table. -/
def hasDbType (t : FieldType) : Bool :=
  !(t == FieldType.Table)

def getTableFields (sc : Schema) : List Field :=
  sc.fields.filter (fun f => f.fieldtype == FieldType.Table)

def getTableFieldNames (sc : Schema) : List String :=
  (getTableFields sc).map (fun f => f.fieldname)

/-! ## exists -/

/-- `#singleExists`: count SingleValue rows with the given parent (the
read fails if the SingleValue table is absent, there is no catch). -/
def singleExists (db : DB) (s : String) : Except DbErr Bool :=
  match tget db "SingleValue" with
  | none => .error .notFound
  | some t =>
    .ok (t.rows.any (fun r => sqlEqVal (rowGetD r "parent" .vnull) (.vstr s)))

/-- `exists(schemaName, name?)`. For collection schemas a missing table
is caught (NotFoundError) and reads as no rows. -/
def existsRow (smap : SchemaMap) (db : DB) (s : String) (nm : Option FVal) :
    Except DbErr Bool :=
  match lookupSchema smap s with
  | none => .error .typeErr
  | some sc =>
    if sc.isSingle then singleExists db s
    else
      let rows := match tget db s with
        | some t => t.rows
        | none => []
      let rows := match nm with
        | none => rows
        | some v => rows.filter (fun r => sqlEqVal (rowGetD r "name" .vnull) v)
      .ok (!rows.isEmpty)

/-! ## getAll / get -/

/-- Options of `getAll`. `offset`/`limit` zero model the absent (falsy)
case; `groupBy` is not exercised by any claim and is omitted. -/
structure GetAllOptions where
  fields : List String := ["name"]
  filters : QueryFilter := []
  offset : Nat := 0
  limit : Nat := 0
  orderBy : Option String := none
  order : String := "desc"

/-- `getAll(schemaName, options)`: filter, order, slice and project the
rows of one table. -/
def getAll (smap : SchemaMap) (db : DB) (s : String) (opts : GetAllOptions) :
    Except DbErr (List Row) :=
  match lookupSchema smap s with
  | none => .error .notFound
  | some sc =>
    match tget db s with
    | none => .error .notFound
    | some t =>
      let hasCreated := sc.fields.any (fun f => f.fieldname == "created")
      let ob := match opts.orderBy with
        | some c => some c
        | none => if hasCreated then some "created" else none
      let r1 := t.rows.filter (rowPasses opts.filters)
      let r2 := match ob with
        | none => r1
        | some col => insSortBy (rowLe col opts.order) r1
      let r3 := if opts.offset == 0 then r2 else r2.drop opts.offset
      let r4 := if opts.limit == 0 then r3 else r3.take opts.limit
      if opts.fields.contains "*" then .ok r4
      else .ok (r4.map (projectRow opts.fields))

/-- `#getOne`: single row lookup by primary key, projected onto the
requested fields (`.first()` may be undefined). -/
def getOne (db : DB) (s nm : String) (flds : List String) :
    Except DbErr (Option Row) :=
  match tget db s with
  | none => .error .notFound
  | some t =>
    .ok ((t.rows.find? (fun r => sqlEqVal (rowGetD r "name" .vnull) (.vstr nm))).map
      (projectRow flds))

/-- The `(parent, fieldname)` key of the JavaScript object built by
`getValueMapFromList` (object keys are strings). -/
def keyStr : FVal → String
  | .vstr s => s
  | .vint n => toString n
  | .vbool b => if b then "true" else "false"
  | .vnull => "null"
  | .vlist _ => ""

/-- Modelled from the spec: `getValueMapFromList` from utils is not
under src; it folds a list of rows into a map keyed by one field's
value holding another field's value. -/
def getValueMapFromList (values : List Row) (keyField valField : String) : Row :=
  values.foldl
    (fun acc r => setEntry acc (keyStr (rowGetD r keyField .vnull)) (rowGetD r valField .vnull))
    []

/-- `#getSingle`: read the whole singleton document out of SingleValue. -/
def getSingle (smap : SchemaMap) (db : DB) (s : String) : Except DbErr FieldValueMap :=
  match getAll smap db "SingleValue"
      { fields := ["fieldname", "value"],
        filters := [("parent", .lit (.vstr s))],
        orderBy := some "fieldname", order := "asc" } with
  | .error e => .error e
  | .ok values => .ok (getValueMapFromList values "fieldname" "value")

/-- `#loadChildren`: one child table query per requested Table field,
ordered by ascending idx, attached as a nested list value. -/
def loadChildren (smap : SchemaMap) (db : DB) (nm : String) :
    FieldValueMap → List Field → Except DbErr FieldValueMap
  | base, [] => .ok base
  | base, f :: fs =>
    match getAll smap db (f.target.getD "")
        { fields := ["*"], filters := [("parent", .lit (.vstr nm))],
          orderBy := some "idx", order := "asc" } with
    | .error e => .error e
    | .ok rows => loadChildren smap db nm (setEntry base f.fieldname (.vlist rows)) fs

/-- `get(schemaName, name = '', fields?)`. -/
def get (smap : SchemaMap) (db : DB) (s : String) (nm : String := "")
    (fields : Option (List String) := none) : Except DbErr FieldValueMap :=
  match lookupSchema smap s with
  | none => .error .typeErr
  | some sc =>
    if !sc.isSingle && nm == "" then .error .valueErr
    else if sc.isSingle then getSingle smap db s
    else
      let fs := fields.getD (sc.fields.map (fun f => f.fieldname))
      let allT := getTableFields sc
      let allTN := allT.map (fun f => f.fieldname)
      let tfs := allT.filter (fun f => fs.contains f.fieldname)
      let ntn := fs.filter (fun f => !(allTN.contains f))
      match
        (if ntn.isEmpty then Except.ok ([] : Row)
         else
           match getOne db s nm ntn with
           | .error e => .error e
           | .ok o => .ok (o.getD [])) with
      | .error e => .error e
      | .ok base => if tfs.isEmpty then .ok base else loadChildren smap db nm base tfs

/-! ## Single value writes -/

/-- `#updateSingleValue`: update the row for `(parent, fieldname)` when
it exists, insert a fresh one otherwise. -/
def updateSingleValue (db : DB) (s fn : String) (v : FVal) : Except DbErr DB :=
  match tget db "SingleValue" with
  | none => .error .notFound
  | some t =>
    if t.rows.any (fun r =>
        sqlEqVal (rowGetD r "parent" .vnull) (.vstr s) &&
          sqlEqVal (rowGetD r "fieldname" .vnull) (.vstr fn)) then
      .ok (tset db "SingleValue"
        { t with
          rows := t.rows.map (fun r =>
            if sqlEqVal (rowGetD r "parent" .vnull) (.vstr s) &&
                sqlEqVal (rowGetD r "fieldname" .vnull) (.vstr fn) then
              rowMerge r
                [("value", v), ("modifiedBy", .vstr SYSTEMSTR), ("modified", .vstr NOWSTR)]
            else r) })
    else
      let row := metaRow ++
        [("parent", .vstr s), ("fieldname", .vstr fn), ("value", v),
         ("name", .vstr (getRandomString db.counter))]
      .ok { tset db "SingleValue" { t with rows := t.rows ++ [row] } with
            counter := db.counter + 1 }

def svFieldsLoop (db : DB) (s : String) (fvm : FieldValueMap) :
    List Field → Except DbErr DB := fun flds =>
  match flds with
  | [] => .ok db
  | f :: fs =>
    match rowGet fvm f.fieldname with
    | none => svFieldsLoop db s fvm fs
    | some v =>
      match updateSingleValue db s f.fieldname v with
      | .error e => .error e
      | .ok db1 => svFieldsLoop db1 s fvm fs

/-- `#updateSingleValues`: upsert each schema field whose value in the
map is defined (null counts as defined). -/
def updateSingleValues (smap : SchemaMap) (db : DB) (s : String)
    (fvm : FieldValueMap) : Except DbErr DB :=
  match lookupSchema smap s with
  | none => .error .typeErr
  | some sc => svFieldsLoop db s fvm sc.fields

/-! ## insert / update of collection rows -/

/-- `#insertOne`: assign a random name when the current one is falsy,
project the map onto the schema's non-Table fields and insert the row.
Returns the (possibly name-assigned) map, as the code mutates it. -/
def insertOne (smap : SchemaMap) (db : DB) (s : String) (fvm : FieldValueMap) :
    Except DbErr (FieldValueMap × DB) :=
  match lookupSchema smap s with
  | none => .error .typeErr
  | some sc =>
    let p :=
      if truthyOpt (rowGet fvm "name") then (fvm, db)
      else (setEntry fvm "name" (.vstr (getRandomString db.counter)),
        { db with counter := db.counter + 1 })
    match tget p.2 s with
    | none => .error .notFound
    | some t =>
      let nmv := rowGetD p.1 "name" .vnull
      if t.rows.any (fun r => sqlEqVal (rowGetD r "name" .vnull) nmv) then
        .error .dupEntry
      else
        let flds := sc.fields.filter (fun f => !(f.fieldtype == FieldType.Table))
        let validMap := flds.map (fun f => (f.fieldname, rowGetD p.1 f.fieldname .vnull))
        .ok (p.1, tset p.2 s { t with rows := t.rows ++ [validMap] })

/-- `#updateOne`: update all non-Table, non-name keys of the row whose
name matches; a resulting empty update set is a no-op. -/
def updateOne (smap : SchemaMap) (db : DB) (s : String) (fvm : FieldValueMap) :
    Except DbErr DB :=
  match lookupSchema smap s with
  | none => .error .typeErr
  | some sc =>
    let updateMap :=
      (rowDrop fvm "name").filter (fun p => !((getTableFieldNames sc).contains p.1))
    if updateMap.isEmpty then .ok db
    else
      match tget db s with
      | none => .error .notFound
      | some t =>
        let nmv := rowGetD fvm "name" .vnull
        .ok (tset db s
          { t with
            rows := t.rows.map (fun r =>
              if sqlEqVal (rowGetD r "name" .vnull) nmv then rowMerge r updateMap
              else r) })

/-- `#prepareChild`: name the child when its name is nullish (a falsy
but non-nullish name such as the empty string is kept, the `??=`
quirk), then stamp parent linkage and default the positional index. -/
def prepareChild (s : String) (parentName : FVal) (c : FieldValueMap)
    (f : Field) (idx : Nat) (db : DB) : FieldValueMap × DB :=
  let p :=
    if truthyOpt (rowGet c "name") then (c, db)
    else if isNullish (rowGet c "name") then
      (setEntry c "name" (.vstr (getRandomString db.counter)),
        { db with counter := db.counter + 1 })
    else (c, db)
  let c1 := setEntry p.1 "parent" parentName
  let c2 := setEntry c1 "parentSchemaName" (.vstr s)
  let c3 := setEntry c2 "parentFieldname" (.vstr f.fieldname)
  let c4 := if isNullish (rowGet c3 "idx") then setEntry c3 "idx" (.vint idx) else c3
  (c4, p.2)

/-- `#runDeleteOtherChildren`: delete rows of the target table whose
parent matches and whose name is NOT IN the added list (SQL three-valued
NOT IN: a NULL name or a NULL in the list never selects the row). -/
def notInB (v : FVal) (lst : List FVal) : Bool :=
  match v with
  | .vnull => false
  | _ =>
    if lst.any (fun a => sqlEqVal v a) then false
    else !(lst.any (fun a => isVNull a))

def runDeleteOtherChildren (f : Field) (parentName : FVal) (added : List FVal)
    (db : DB) : Except DbErr DB :=
  match tget db (f.target.getD "") with
  | none => .error .notFound
  | some t =>
    .ok (tset db (f.target.getD "")
      { t with
        rows := t.rows.filter (fun r =>
          !(sqlEqVal (rowGetD r "parent" .vnull) parentName &&
            notInB (rowGetD r "name" .vnull) added)) })

/-- The per-child upsert loop of `#insertOrUpdateChildren`, threading
the list of added names (pushed after the insert, which may itself
assign the name). -/
def childLoop (smap : SchemaMap) (s : String) (parentName : FVal) (f : Field)
    (isUpdate : Bool) :
    List FieldValueMap → List FVal → DB → Except DbErr (List FVal × DB)
  | [], added, db => .ok (added, db)
  | c :: cs, added, db =>
    let pc := prepareChild s parentName c f added.length db
    let tgt := f.target.getD ""
    match existsRow smap pc.2 tgt (rowGet pc.1 "name") with
    | .error e => .error e
    | .ok hit =>
      match
        (if isUpdate && hit then
          match updateOne smap pc.2 tgt pc.1 with
          | .error e => .error e
          | .ok d => .ok (pc.1, d)
        else insertOne smap pc.2 tgt pc.1) with
      | .error e => .error e
      | .ok (c2, db2) =>
        childLoop smap s parentName f isUpdate cs
          (added ++ [rowGetD c2 "name" .vnull]) db2

/-- The per-Table-field loop of `#insertOrUpdateChildren`: nullish
values are skipped entirely; a non-list value is iterated by the code
and crashes. -/
def tableFieldLoop (smap : SchemaMap) (s : String) (parentName : FVal)
    (fvm : FieldValueMap) (isUpdate : Bool) :
    List Field → DB → Except DbErr DB
  | [], db => .ok db
  | f :: fs, db =>
    let tv := rowGet fvm f.fieldname
    if isNullish tv then tableFieldLoop smap s parentName fvm isUpdate fs db
    else
      match tv with
      | some (.vlist cs) =>
        (match childLoop smap s parentName f isUpdate cs [] db with
        | .error e => .error e
        | .ok (added, db1) =>
          match
            (if isUpdate then runDeleteOtherChildren f parentName added db1
             else .ok db1) with
          | .error e => .error e
          | .ok db2 => tableFieldLoop smap s parentName fvm isUpdate fs db2)
      | _ => .error .typeErr

/-- `#insertOrUpdateChildren`. -/
def insertOrUpdateChildren (smap : SchemaMap) (db : DB) (s : String)
    (fvm : FieldValueMap) (isUpdate : Bool) : Except DbErr DB :=
  match lookupSchema smap s with
  | none => .error .typeErr
  | some sc =>
    tableFieldLoop smap s (rowGetD fvm "name" .vnull) fvm isUpdate
      (getTableFields sc) db

/-- `insert(schemaName, fieldValueMap)`: write the parent (single or
collection), then insert the children; returns the mutated map. -/
def insert (smap : SchemaMap) (db : DB) (s : String) (fvm : FieldValueMap) :
    Except DbErr (FieldValueMap × DB) :=
  match lookupSchema smap s with
  | none => .error .typeErr
  | some sc =>
    match
      (if sc.isSingle then
        match updateSingleValues smap db s fvm with
        | .error e => .error e
        | .ok d => .ok (fvm, d)
      else insertOne smap db s fvm) with
    | .error e => .error e
    | .ok (fvm1, db1) =>
      match insertOrUpdateChildren smap db1 s fvm1 false with
      | .error e => .error e
      | .ok db2 => .ok (fvm1, db2)

/-- `update(schemaName, fieldValueMap)`: update the parent, then
reconcile the children (upsert provided, delete the rest). -/
def update (smap : SchemaMap) (db : DB) (s : String) (fvm : FieldValueMap) :
    Except DbErr DB :=
  match lookupSchema smap s with
  | none => .error .typeErr
  | some sc =>
    match
      (if sc.isSingle then updateSingleValues smap db s fvm
       else updateOne smap db s fvm) with
    | .error e => .error e
    | .ok db1 => insertOrUpdateChildren smap db1 s fvm true

/-! ## delete -/

/-- `#deleteOne`. -/
def deleteOne (db : DB) (s nm : String) : Except DbErr DB :=
  match tget db s with
  | none => .error .notFound
  | some t =>
    .ok (tset db s
      { t with
        rows := t.rows.filter (fun r =>
          !(sqlEqVal (rowGetD r "name" .vnull) (.vstr nm))) })

/-- `#deleteSingle`: remove the SingleValue row keyed by
`(parent = schemaName, fieldname = name)`. -/
def deleteSingle (db : DB) (s fn : String) : Except DbErr DB :=
  match tget db "SingleValue" with
  | none => .error .notFound
  | some t =>
    .ok (tset db "SingleValue"
      { t with
        rows := t.rows.filter (fun r =>
          !(sqlEqVal (rowGetD r "parent" .vnull) (.vstr s) &&
            sqlEqVal (rowGetD r "fieldname" .vnull) (.vstr fn))) })

/-- `#deleteChildren` for one Table field. -/
def deleteChildren (db : DB) (s nm : String) : Except DbErr DB :=
  match tget db s with
  | none => .error .notFound
  | some t =>
    .ok (tset db s
      { t with
        rows := t.rows.filter (fun r =>
          !(sqlEqVal (rowGetD r "parent" .vnull) (.vstr nm))) })

def deleteChildrenLoop (nm : String) :
    List Field → DB → Except DbErr DB
  | [], db => .ok db
  | f :: fs, db =>
    match deleteChildren db (f.target.getD "") nm with
    | .error e => .error e
    | .ok db1 => deleteChildrenLoop nm fs db1

/-- `delete(schemaName, name)`. -/
def deleteRow (smap : SchemaMap) (db : DB) (s nm : String) : Except DbErr DB :=
  match lookupSchema smap s with
  | none => .error .typeErr
  | some sc =>
    if sc.isSingle then deleteSingle db s nm
    else
      match deleteOne db s nm with
      | .error e => .error e
      | .ok db1 => deleteChildrenLoop nm (getTableFields sc) db1

/-! ## Migration -/

/-- `#getColumnDiff`'s result. -/
structure ColumnDiff where
  added : List Field
  removed : List String

/-- `#getColumnDiff`: fields with a native column type missing from the
table are added; table columns matching no field at all are removed. -/
def columnDiff (sc : Schema) (cols : List String) : ColumnDiff :=
  { added := sc.fields.filter (fun f =>
      hasDbType f.fieldtype && !(cols.contains f.fieldname)),
    removed := cols.filter (fun c =>
      !((sc.fields.map (fun f => f.fieldname)).contains c)) }

/-- `#getNewForeignKeys`: Link fields whose column is not yet registered
as a foreign key (note: no check that the field has a target). -/
def newFKfields (sc : Schema) (fks : List String) : List Field :=
  sc.fields.filter (fun f =>
    f.fieldtype == FieldType.Link && !(fks.contains f.fieldname))

def truthyTarget : Option String → Bool
  | some s => !(s == "")
  | none => false

/-- Columns produced by `#buildColumnForTable` over the schema fields:
Table fields produce none, every other field type has a column type. -/
def buildCols (sc : Schema) : List String :=
  sc.fields.filterMap (fun f =>
    if f.fieldtype == FieldType.Table then none
    else if hasDbType f.fieldtype then some f.fieldname
    else none)

/-- Foreign keys produced by `#buildColumnForTable`: one per Link field
with a truthy target. -/
def buildFks (sc : Schema) : List String :=
  sc.fields.filterMap (fun f =>
    if f.fieldtype == FieldType.Link && truthyTarget f.target then some f.fieldname
    else none)

/-- `#createTable` / `#runCreateTableQuery`: build a fresh empty table
for the schema under `tname`. Creating over an existing table fails;
a Link field referencing an unregistered target schema crashes
(`schema.name` of undefined). -/
def createTableE (smap : SchemaMap) (s tname : String) (db : DB) :
    Except DbErr DB :=
  match lookupSchema smap s with
  | none => .error .typeErr
  | some sc =>
    if (tget db tname).isSome then .error .dupEntry
    else if sc.fields.all (fun f =>
        if f.fieldtype == FieldType.Link && truthyTarget f.target then
          (lookupSchema smap (f.target.getD "")).isSome
        else true) then
      .ok (tset db tname { cols := buildCols sc, fks := buildFks sc, rows := [] })
    else .error .typeErr

/-- JavaScript `Array.slice(start, stop)` clamped at both ends. -/
def jsSlice (l : List Row) (start stop : Nat) : List Row :=
  (l.drop start).take (stop - start)

/-- The batched copy loop of `prestigeTheTable`, including the slice
bound written as `i + 1 * max` in the source (which JavaScript parses
as `i + 200`, not `(i + 1) * 200`). `fuel` is `fi + 1`, the number of
loop iterations; the loop breaks on an empty slice. -/
def batchLoop (rows : List Row) : Nat → Nat → List Row
  | _, 0 => []
  | i, fuel + 1 =>
    let slice := jsSlice rows (i * 200) (i + 200)
    if slice.isEmpty then []
    else slice ++ batchLoop rows (i + 1) fuel

/-- The rows `prestigeTheTable` copies into the rebuilt table: a single
batch insert for at most 200 rows, the batched loop otherwise. -/
def prestigeCopy (rows : List Row) : List Row :=
  if rows.length > 200 then batchLoop rows 0 (rows.length / 200 + 1)
  else rows

/-- `prestigeTheTable`: drop a stale sibling, create the sibling from
the schema, bulk-copy the given rows, drop the old table and rename the
sibling into place. -/
def prestigeTheTable (smap : SchemaMap) (s : String) (tableRows : List Row)
    (db : DB) : Except DbErr DB :=
  let tmp := "__" ++ s
  let db1 := tdrop db tmp
  match createTableE smap s tmp db1 with
  | .error e => .error e
  | .ok db2 =>
    match tget db2 tmp with
    | none => .error .notFound
    | some tt =>
      let db3 := tset db2 tmp { tt with rows := tt.rows ++ prestigeCopy tableRows }
      trename (tdrop db3 s) tmp s

/-- `#removeColumns`: snapshot the rows projected onto the non-Table
fields, then rebuild the table (the removed column list is unused by
the code as well). -/
def removeColumnsM (smap : SchemaMap) (s : String) (targetColumns : List String)
    (db : DB) : Except DbErr DB :=
  match lookupSchema smap s with
  | none => .error .typeErr
  | some sc =>
    let _ := targetColumns
    let flds := (sc.fields.filter (fun f =>
      !(f.fieldtype == FieldType.Table))).map (fun f => f.fieldname)
    match getAll smap db s { fields := flds } with
    | .error e => .error e
    | .ok rows => prestigeTheTable smap s rows db

/-- `#addForeignKeys`: recreate the table under a TEMP name with the
full column and foreign key set, copy all rows across in one statement,
drop and rename. Foreign key enforcement is not modelled, so the copy
always succeeds and the prestige fallback of the catch block is never
taken. -/
def addForeignKeysM (smap : SchemaMap) (s : String) (db : DB) :
    Except DbErr DB :=
  let tmp := "TEMP" ++ s
  match createTableE smap s tmp db with
  | .error e => .error e
  | .ok db1 =>
    match tget db1 s, tget db1 tmp with
    | some told, some tt =>
      let db2 := tset db1 tmp { tt with rows := tt.rows ++ told.rows }
      trename (tdrop db2 s) tmp s
    | _, _ => .error .notFound

/-- `#alterTable`: compute the diff and the new foreign keys up front,
apply in-place column additions, rebuild when columns were removed, and
run the foreign key rebuild when new foreign keys were detected. The
returned count is the number of table rebuilds performed. -/
def alterTable (smap : SchemaMap) (s : String) (db : DB) :
    Except DbErr (DB × Nat) :=
  match lookupSchema smap s with
  | none => .error .typeErr
  | some sc =>
    match tget db s with
    | none => .error .notFound
    | some t =>
      let diff := columnDiff sc t.cols
      let fksNew := newFKfields sc t.fks
      let db1 :=
        if diff.added.isEmpty then db
        else tset db s { t with cols := t.cols ++ diff.added.map (fun f => f.fieldname) }
      match
        (if diff.removed.isEmpty then Except.ok db1
         else removeColumnsM smap s diff.removed db1) with
      | .error e => .error e
      | .ok db2 =>
        let n1 := if diff.removed.isEmpty then 0 else 1
        match
          (if fksNew.isEmpty then Except.ok db2
           else addForeignKeysM smap s db2) with
        | .error e => .error e
        | .ok db3 => .ok (db3, n1 + (if fksNew.isEmpty then 0 else 1))

/-- One collection schema step of `migrate`: alter an existing table,
create an absent one. -/
def processCollectionSchema (smap : SchemaMap) (s : String) (db : DB) :
    Except DbErr (DB × Nat) :=
  if (tget db s).isSome then alterTable smap s db
  else
    match createTableE smap s s db with
    | .error e => .error e
    | .ok d => .ok (d, 0)

/-- The main loop of `migrate` over the schema map keys, skipping
singleton schemas, summing the rebuild counts. -/
def tableLoop (smap : SchemaMap) :
    List (String × Schema) → DB → Except DbErr (DB × Nat)
  | [], db => .ok (db, 0)
  | (k, _) :: rest, db =>
    match lookupSchema smap k with
    | none => .error .typeErr
    | some sc =>
      if sc.isSingle then tableLoop smap rest db
      else
        match processCollectionSchema smap k db with
        | .error e => .error e
        | .ok (db1, m) =>
          match tableLoop smap rest db1 with
          | .error e => .error e
          | .ok (db2, n) => .ok (db2, m + n)

def svWriteLoop (db : DB) (s : String) :
    List (String × FVal) → Except DbErr DB
  | [] => .ok db
  | (fn, v) :: rest =>
    match updateSingleValue db s fn v with
    | .error e => .error e
    | .ok db1 => svWriteLoop db1 s rest

/-- `#updateNonExtantSingleValues` with `#getNonExtantSingleValues`
inlined: write the declared default of every singleton field that has
no stored value row yet. -/
def updateNonExtant (smap : SchemaMap) (db : DB) (s : String) :
    Except DbErr DB :=
  match lookupSchema smap s, tget db "SingleValue" with
  | some sc, some t =>
    let existing := t.rows.filterMap (fun r =>
      if sqlEqVal (rowGetD r "parent" .vnull) (.vstr s) then
        match rowGet r "fieldname" with
        | some (.vstr fn) => some fn
        | _ => none
      else none)
    let nonExtant := sc.fields.filterMap (fun f =>
      match f.fdefault with
      | some v => if existing.contains f.fieldname then none else some (f.fieldname, v)
      | none => none)
    svWriteLoop db s nonExtant
  | none, _ => .error .typeErr
  | _, none => .error .notFound

/-- `#initializeSingles`: for each singleton schema, backfill missing
defaults when values exist, or write all defaults on first run (skipped
entirely when no field has a default). -/
def singleLoop (smap : SchemaMap) :
    List (String × Schema) → DB → Except DbErr DB
  | [], db => .ok db
  | (k, _) :: rest, db =>
    match lookupSchema smap k with
    | none => .error .typeErr
    | some sc =>
      if !sc.isSingle then singleLoop smap rest db
      else
        match singleExists db k with
        | .error e => .error e
        | .ok true =>
          match updateNonExtant smap db k with
          | .error e => .error e
          | .ok db1 => singleLoop smap rest db1
        | .ok false =>
          if sc.fields.all (fun f => f.fdefault.isNone) then singleLoop smap rest db
          else
            let defaults := sc.fields.foldl (fun acc f =>
              match f.fdefault with
              | some v => setEntry acc f.fieldname v
              | none => acc) ([] : Row)
            match updateSingleValues smap db k defaults with
            | .error e => .error e
            | .ok db1 => singleLoop smap rest db1

/-- `migrate()`: reconcile every collection table, then the singleton
defaults. The second component counts table rebuilds (prestige and
foreign-key recreations). -/
def migrate (smap : SchemaMap) (db : DB) : Except DbErr (DB × Nat) :=
  match tableLoop smap smap db with
  | .error e => .error e
  | .ok (db1, n) =>
    match singleLoop smap smap db1 with
    | .error e => .error e
    | .ok db2 => .ok (db2, n)

/-! ## Concrete fixtures used by witnesses and counterexamples -/

def fData (n : String) : Field := { fieldname := n, fieldtype := .Data }

def itemSchema : Schema :=
  { name := "Item", fields := [fData "name", fData "status"] }

def childSchema : Schema :=
  { name := "Child",
    fields := [fData "name", fData "parent", fData "parentSchemaName",
      fData "parentFieldname", { fieldname := "idx", fieldtype := .Int },
      fData "val"] }

def kidsField : Field :=
  { fieldname := "kids", fieldtype := .Table, target := some "Child" }

def parentSchema : Schema :=
  { name := "Parent", fields := [fData "name", fData "title", kidsField] }

def svSchema : Schema :=
  { name := "SingleValue",
    fields := [fData "name", fData "parent", fData "fieldname", fData "value",
      fData "created", fData "createdBy", fData "modified", fData "modifiedBy"] }

def settingsSchema : Schema :=
  { name := "Settings", isSingle := true,
    fields := [fData "companyName", fData "country"] }

def fixMap : SchemaMap :=
  [("Item", itemSchema), ("Parent", parentSchema), ("Child", childSchema),
   ("SingleValue", svSchema), ("Settings", settingsSchema)]

def itemTable : Table :=
  { cols := ["name", "status"], fks := [],
    rows := [[("name", .vstr "i1"), ("status", .vstr "Open")]] }

def childCols : List String :=
  ["name", "parent", "parentSchemaName", "parentFieldname", "idx", "val"]

def svCols : List String :=
  ["name", "parent", "fieldname", "value", "created", "createdBy",
   "modified", "modifiedBy"]

def fixParentTable : Table :=
  { cols := ["name", "title"], fks := [],
    rows := [[("name", .vstr "p1"), ("title", .vstr "hello")]] }

def fixChildRow : Row :=
  [("name", .vstr "olda"), ("parent", .vstr "p1"),
   ("parentFieldname", .vstr "kids"), ("idx", .vint 0), ("val", .vstr "va")]

def fixChildTable : Table :=
  { cols := childCols, fks := [], rows := [fixChildRow] }

def fixSvRow : Row :=
  [("name", .vstr "sv0"), ("parent", .vstr "Settings"),
   ("fieldname", .vstr "country"), ("value", .vstr "IN")]

def fixSvTable : Table :=
  { cols := svCols, fks := [], rows := [fixSvRow] }

def fixDb : DB :=
  { tables :=
      [("Item", itemTable), ("Parent", fixParentTable),
       ("Child", fixChildTable), ("SingleValue", fixSvTable)] }

def emptyItemDb : DB :=
  { tables := [("Item", { cols := ["name", "status"], fks := [], rows := [] })] }

/-- Fixture for the C10 counterexample: two Table fields sharing one
target child table. -/
def sharedParentSchema : Schema :=
  { name := "Shared",
    fields := [fData "name",
      { fieldname := "f1", fieldtype := .Table, target := some "Child" },
      { fieldname := "f2", fieldtype := .Table, target := some "Child" }] }

def sharedMap : SchemaMap :=
  [("Shared", sharedParentSchema), ("Child", childSchema)]

def sharedParentTable : Table :=
  { cols := ["name"], fks := [], rows := [[("name", .vstr "p1")]] }

def sharedChildRow : Row :=
  [("name", .vstr "a"), ("parent", .vstr "p1"),
   ("parentFieldname", .vstr "f1"), ("idx", .vint 0)]

def sharedChildTable : Table :=
  { cols := childCols, fks := [], rows := [sharedChildRow] }

def sharedDb : DB :=
  { tables := [("Shared", sharedParentTable), ("Child", sharedChildTable)] }

/-- The child map as `#prepareChild` leaves it when the provided name
is truthy and its index is absent: parent linkage stamped and the
positional index set (used to state the reconciliation lemmas). -/
def stampChild (s : String) (pn : FVal) (f : Field) (i : Nat)
    (c : FieldValueMap) : FieldValueMap :=
  setEntry (setEntry (setEntry (setEntry c "parent" pn)
    "parentSchemaName" (.vstr s)) "parentFieldname" (.vstr f.fieldname))
    "idx" (.vint i)

/-- C5 witness fixtures: the update map, the database after the update
and the child list a subsequent get returns. -/
def c5fvm : FieldValueMap :=
  [("name", .vstr "p1"), ("kids", .vlist [[("name", FVal.vstr "b")]])]

def c5dbF : DB := (update fixMap fixDb "Parent" c5fvm).toOption.getD fixDb

def c5kidsList : List Row :=
  insSortBy (rowLe "idx" "asc")
    (((tget c5dbF "Child").getD { cols := [], fks := [], rows := [] }).rows.filter
      (fun r => sqlEqVal (rowGetD r "parent" FVal.vnull) (.vstr "p1")))

/-- A stored table is in sync with its schema: the column diff is
empty and no new foreign keys are detected (migrate performs no work on
it). -/
def tableOK (sc : Schema) (t : Table) : Prop :=
  columnDiff sc t.cols = ⟨[], []⟩ ∧ newFKfields sc t.fks = []

/-! ## Specification views (used only to state properties) -/

/-- The row belongs to the singleton document of schema `s`. -/
def svParentPred (s : String) (r : Row) : Bool :=
  sqlEqVal (rowGetD r "parent" .vnull) (.vstr s)

/-- The row is the value row of `(parent = s, fieldname = fn)`. -/
def svKeyPred (s fn : String) (r : Row) : Bool :=
  svParentPred s r && sqlEqVal (rowGetD r "fieldname" .vnull) (.vstr fn)

/-- The stored value of one singleton field, if any. -/
def svValue (t : Table) (s fn : String) : Option FVal :=
  (t.rows.find? (svKeyPred s fn)).map (fun r => rowGetD r "value" .vnull)

/-- Well-formedness of the SingleValue table with respect to one
singleton schema: every row of its document carries a string fieldname,
and no fieldname is stored twice (the spec invariant that a singleton
never has more than one value row per `(parent, fieldname)`). -/
def svWf (t : Table) (s : String) : Prop :=
  (∀ r ∈ t.rows, svParentPred s r = true → isStrName (rowGet r "fieldname") = true) ∧
  ((t.rows.filter (svParentPred s)).map
    (fun r => keyStr (rowGetD r "fieldname" .vnull))).Nodup

/-- A single-value write step only rewrites SingleValue rows: every
other table is untouched and the SingleValue table keeps its columns
and foreign keys. -/
def svShape (db db' : DB) : Prop :=
  (∀ tb, tb ≠ "SingleValue" → tget db' tb = tget db tb) ∧
  (∀ t, tget db "SingleValue" = some t →
    ∃ rows1, tget db' "SingleValue" = some
      { cols := t.cols, fks := t.fks, rows := rows1 })

/-- The SingleValue document of parent `k` is unchanged between two
database states. -/
def svDocEq (k : String) (db db' : DB) : Prop :=
  ∀ t t', tget db "SingleValue" = some t → tget db' "SingleValue" = some t' →
    t'.rows.filter (svParentPred k) = t.rows.filter (svParentPred k)

/-- The singleton document of schema `sc` under parent `k` is stable:
either it exists and every defaulted field has a stored value row, or
it is absent and the schema declares no defaults, so `initializeSingles`
writes nothing either way. -/
def svStable (t : Table) (k : String) (sc : Schema) : Prop :=
  (t.rows.any (svParentPred k) = true ∧
    ∀ f ∈ sc.fields, f.fdefault.isSome = true →
      (svValue t k f.fieldname).isSome = true) ∨
  (t.rows.any (svParentPred k) = false ∧
    sc.fields.all (fun f => f.fdefault.isNone) = true)

/-- All effects of a single-value write with parent `s`: only
SingleValue rows change and every other parent's document is kept. -/
def svWrites (s : String) (db db' : DB) : Prop :=
  svShape db db' ∧ ∀ k, k ≠ s → svDocEq k db db'

/-- C9 witness fixture: the state and rebuild count after the first
migrate run on the fixture database. -/
def c9pair : DB × Nat := (migrate fixMap fixDb).toOption.getD (fixDb, 0)

/-! # Infrastructure lemmas -/

theorem filter_not_isEmpty (p : α → Bool) (l : List α) :
    (!(l.filter p).isEmpty) = l.any p := by
  induction l with
  | nil => rfl
  | cons a t ih =>
    by_cases h : p a
    · simp [List.filter_cons, h, List.any_cons]
    · simp [List.filter_cons, h, List.any_cons, ih]

theorem find?_lset (l : List (String × Table)) (n : String) (t : Table)
    (m : String) :
    (lset l n t).find? (fun p => p.1 == m) =
      if n = m then some (n, t) else l.find? (fun p => p.1 == m) := by
  induction l with
  | nil =>
    by_cases h : n = m
    · simp [lset, List.find?, h]
    · have hnm : (n == m) = false := by simp [h]
      simp [lset, List.find?, hnm, h]
  | cons a l ih =>
    by_cases ha : a.1 = n
    · have ha' : (a.1 == n) = true := by simp [ha]
      by_cases h : n = m
      · subst h
        simp [lset, ha', List.find?]
      · have hnm : (n == m) = false := by simp [h]
        have ham : (a.1 == m) = false := by simp [ha, h]
        simp [lset, ha', List.find?, hnm, ham, h]
    · have ha' : (a.1 == n) = false := by simp [ha]
      by_cases ham : a.1 = m
      · have h2 : ¬n = m := fun hh => ha (by rw [ham, hh])
        have ham' : (a.1 == m) = true := by simp [ham]
        simp [lset, ha', List.find?, ham', h2]
      · have ham' : (a.1 == m) = false := by simp [ham]
        simp [lset, ha', List.find?, ham', ih]

theorem find?_key_filter (l : List (String × Table)) (n m : String) :
    (l.filter (fun p => !(p.1 == n))).find? (fun p => p.1 == m) =
      if n = m then none else l.find? (fun p => p.1 == m) := by
  induction l with
  | nil => by_cases h : n = m <;> simp [h]
  | cons a l ih =>
    by_cases han : a.1 = n
    · have han' : (!(a.1 == n)) = false := by simp [han]
      by_cases h : n = m
      · subst h
        rw [List.filter_cons, han', if_neg (by simp), ih]
        simp
      · have ham : (a.1 == m) = false := by simp [han, h]
        rw [List.filter_cons, han', if_neg (by simp), ih, if_neg h, if_neg h]
        simp [List.find?, ham]
    · have han' : (a.1 == n) = false := by simp [han]
      by_cases ham : a.1 = m
      · have h2 : ¬n = m := fun hh => han (by rw [ham, hh])
        have ham' : (a.1 == m) = true := by simp [ham]
        simp [List.filter_cons, han', List.find?, ham', h2]
      · have ham' : (a.1 == m) = false := by simp [ham]
        simp only [List.filter_cons, han', Bool.not_false, if_true,
          List.find?, ham']
        exact ih

theorem tget_tset (db : DB) (n : String) (t : Table) (m : String) :
    tget (tset db n t) m = if n = m then some t else tget db m := by
  unfold tget tset
  simp only [find?_lset]
  by_cases h : n = m <;> simp [h]

theorem tget_tdrop (db : DB) (n m : String) :
    tget (tdrop db n) m = if n = m then none else tget db m := by
  unfold tget tdrop
  simp only [find?_key_filter]
  by_cases h : n = m <;> simp [h]

theorem counter_tset (db : DB) (n : String) (t : Table) :
    (tset db n t).counter = db.counter := rfl

theorem counter_tdrop (db : DB) (n : String) :
    (tdrop db n).counter = db.counter := rfl

theorem trename_spec (db : DB) (old new : String) (t : Table)
    (h : tget db old = some t) :
    trename db old new = .ok (tset (tdrop db old) new t) := by
  unfold trename
  rw [h]

theorem insBy_perm (le : α → α → Bool) (a : α) (l : List α) :
    (insBy le a l).Perm (a :: l) := by
  induction l with
  | nil => simp [insBy]
  | cons b t ih =>
    simp only [insBy]
    split
    · exact List.Perm.refl _
    · exact (ih.cons b).trans (List.Perm.swap a b t)

theorem insSortBy_perm (le : α → α → Bool) (l : List α) :
    (insSortBy le l).Perm l := by
  induction l with
  | nil => simp [insSortBy]
  | cons a t ih => exact (insBy_perm le a _).trans (ih.cons a)

theorem insSortBy_length (le : α → α → Bool) (l : List α) :
    (insSortBy le l).length = l.length :=
  (insSortBy_perm le l).length_eq

theorem insSortBy_mem (le : α → α → Bool) (l : List α) (x : α) :
    x ∈ insSortBy le l ↔ x ∈ l :=
  (insSortBy_perm le l).mem_iff

theorem pairwise_insBy (le : α → α → Bool)
    (htot : ∀ a b, le a b = true ∨ le b a = true)
    (htr : ∀ a b c, le a b = true → le b c = true → le a c = true)
    (a : α) (l : List α) (h : l.Pairwise (fun x y => le x y = true)) :
    (insBy le a l).Pairwise (fun x y => le x y = true) := by
  induction l with
  | nil => simp [insBy]
  | cons b t ih =>
    rcases List.pairwise_cons.mp h with ⟨hb, ht⟩
    simp only [insBy]
    split
    case isTrue hab =>
      refine List.pairwise_cons.mpr ⟨?_, h⟩
      intro x hx
      rcases List.mem_cons.mp hx with rfl | hx
      · exact hab
      · exact htr a b x hab (hb x hx)
    case isFalse hab =>
      have hba : le b a = true := by
        rcases htot a b with h1 | h1
        · exact absurd h1 hab
        · exact h1
      refine List.pairwise_cons.mpr ⟨?_, ih ht⟩
      intro x hx
      rcases List.mem_cons.mp ((insBy_perm le a t).mem_iff.mp hx) with rfl | hxt
      · exact hba
      · exact hb x hxt

theorem pairwise_insSortBy (le : α → α → Bool)
    (htot : ∀ a b, le a b = true ∨ le b a = true)
    (htr : ∀ a b c, le a b = true → le b c = true → le a c = true)
    (l : List α) :
    (insSortBy le l).Pairwise (fun x y => le x y = true) := by
  induction l with
  | nil => simp [insSortBy]
  | cons a t ih => exact pairwise_insBy le htot htr a _ ih

theorem charListLe_total (a b : List Char) :
    charListLe a b = true ∨ charListLe b a = true := by
  induction a generalizing b with
  | nil => exact Or.inl rfl
  | cons x xs ih =>
    cases b with
    | nil => exact Or.inr rfl
    | cons y ys =>
      by_cases h1 : x.toNat < y.toNat
      · left
        simp [charListLe, h1]
      · by_cases h2 : y.toNat < x.toNat
        · right
          simp [charListLe, h2]
        · rcases ih ys with h | h
          · left
            simp [charListLe, h1, h2, h]
          · right
            simp [charListLe, h1, h2, h]

theorem charListLe_trans (a b c : List Char) (h1 : charListLe a b = true)
    (h2 : charListLe b c = true) : charListLe a c = true := by
  induction a generalizing b c with
  | nil => rfl
  | cons x xs ih =>
    cases b with
    | nil => exact absurd h1 (by simp [charListLe])
    | cons y ys =>
      cases c with
      | nil => exact absurd h2 (by simp [charListLe])
      | cons z zs =>
        simp only [charListLe] at h1 h2 ⊢
        by_cases hxy : x.toNat < y.toNat
        · by_cases hyz : y.toNat < z.toNat
          · have : x.toNat < z.toNat := hxy.trans hyz
            simp [this]
          · by_cases hzy : z.toNat < y.toNat
            · simp [hyz, hzy] at h2
            · have he : y.toNat = z.toNat := by omega
              have : x.toNat < z.toNat := by omega
              simp [this]
        · by_cases hyx : y.toNat < x.toNat
          · simp [hxy, hyx] at h1
          · have hexy : x.toNat = y.toNat := by omega
            by_cases hyz : y.toNat < z.toNat
            · have : x.toNat < z.toNat := by omega
              simp [this]
            · by_cases hzy : z.toNat < y.toNat
              · simp [hyz, hzy] at h2
              · have h1' : charListLe xs ys = true := by
                  simpa [hxy, hyx] using h1
                have h2' : charListLe ys zs = true := by
                  simpa [hyz, hzy] using h2
                have hxz : ¬x.toNat < z.toNat := by omega
                have hzx : ¬z.toNat < x.toNat := by omega
                simp [hxz, hzx, ih ys zs h1' h2']

theorem strLeB_total (a b : String) : strLeB a b = true ∨ strLeB b a = true :=
  charListLe_total a.toList b.toList

theorem strLeB_trans (a b c : String) (h1 : strLeB a b = true)
    (h2 : strLeB b c = true) : strLeB a c = true :=
  charListLe_trans a.toList b.toList c.toList h1 h2

theorem keyLe_total (a b : FVal) : keyLe a b = true ∨ keyLe b a = true := by
  unfold keyLe
  simp only [Bool.or_eq_true, Bool.and_eq_true, decide_eq_true_eq, beq_iff_eq]
  by_cases h1 : frank a < frank b
  · exact Or.inl (Or.inl h1)
  by_cases h2 : frank b < frank a
  · exact Or.inr (Or.inl h2)
  have he : frank a = frank b := Nat.le_antisymm (Nat.not_lt.mp h2) (Nat.not_lt.mp h1)
  by_cases h3 : fint a < fint b
  · exact Or.inl (Or.inr ⟨he, Or.inl h3⟩)
  by_cases h4 : fint b < fint a
  · exact Or.inr (Or.inr ⟨he.symm, Or.inl h4⟩)
  have hie : fint a = fint b := le_antisymm (not_lt.mp h4) (not_lt.mp h3)
  rcases strLeB_total (fstr a) (fstr b) with h5 | h5
  · exact Or.inl (Or.inr ⟨he, Or.inr ⟨hie, h5⟩⟩)
  · exact Or.inr (Or.inr ⟨he.symm, Or.inr ⟨hie.symm, h5⟩⟩)

theorem keyLe_trans (a b c : FVal) (h1 : keyLe a b = true)
    (h2 : keyLe b c = true) : keyLe a c = true := by
  unfold keyLe at h1 h2 ⊢
  simp only [Bool.or_eq_true, Bool.and_eq_true, decide_eq_true_eq,
    beq_iff_eq] at h1 h2 ⊢
  rcases h1 with h1 | ⟨e1, h1⟩
  · rcases h2 with h2 | ⟨e2, h2⟩
    · exact Or.inl (h1.trans h2)
    · exact Or.inl (e2 ▸ h1)
  · rcases h2 with h2 | ⟨e2, h2⟩
    · exact Or.inl (by rw [e1]; exact h2)
    · refine Or.inr ⟨e1.trans e2, ?_⟩
      rcases h1 with h1 | ⟨i1, h1⟩
      · rcases h2 with h2 | ⟨i2, h2⟩
        · exact Or.inl (h1.trans h2)
        · exact Or.inl (i2 ▸ h1)
      · rcases h2 with h2 | ⟨i2, h2⟩
        · exact Or.inl (by rw [i1]; exact h2)
        · exact Or.inr ⟨i1.trans i2, strLeB_trans _ _ _ h1 h2⟩

theorem rowLe_asc_total (col : String) (r s : Row) :
    rowLe col "asc" r s = true ∨ rowLe col "asc" s r = true := by
  simp only [rowLe, if_pos rfl]
  exact keyLe_total _ _

theorem rowLe_asc_trans (col : String) (r s u : Row)
    (h1 : rowLe col "asc" r s = true) (h2 : rowLe col "asc" s u = true) :
    rowLe col "asc" r u = true := by
  simp only [rowLe, if_pos rfl] at h1 h2 ⊢
  exact keyLe_trans _ _ _ h1 h2

/-! # Claim theorems -/

set_option maxRecDepth 20000 in
/-- C1: the claim states that the table rebuild performed when a column
is removed preserves every surviving row regardless of the row count.
The batched copy loop computes its slice bound as `i + 1 * max`, which
JavaScript parses as `i + 200`, so a rebuild of a table with 202 rows
copies only the first 201 rows into the rebuilt table and drops the
rest: the code contradicts the documented (and spec-tested) intent of
the rebuild. This theorem evaluates the copy at the failing input. -/
theorem c1_rebuild_drops_rows_at_202 :
    ((List.range 202).map (fun i => [("name", FVal.vint i)])).length = 202 ∧
    prestigeCopy ((List.range 202).map (fun i => [("name", FVal.vint i)])) =
      ((List.range 202).map (fun i => [("name", FVal.vint i)])).take 201 :=
  ⟨rfl, rfl⟩

/-- C2 counterexample: the claim states that `exists` requires `name`
for collection schemas. The code accepts an omitted name and answers
the "table inhabited" question instead: on a table with one row it
returns `true`, on an empty table `false`, with no validation error. -/
theorem c2_counterexample :
    existsRow fixMap fixDb "Item" none = Except.ok true ∧
    existsRow fixMap emptyItemDb "Item" none = Except.ok false :=
  ⟨rfl, rfl⟩

/-- C2 as amended: for singleton schemas `exists` is true iff some
SingleValue row has the schema name as parent; for collection schemas
with a provided name it is true iff a row with that primary key exists,
and with the name omitted it is true iff the table has any row. -/
theorem c2_exists_characterization (smap : SchemaMap) (db : DB) (s : String)
    (sc : Schema) (h : lookupSchema smap s = some sc) :
    (sc.isSingle = true →
      ∀ t, tget db "SingleValue" = some t →
        ∀ nm, existsRow smap db s nm =
          .ok (t.rows.any (fun r => sqlEqVal (rowGetD r "parent" .vnull) (.vstr s)))) ∧
    (sc.isSingle = false →
      ∀ t, tget db s = some t →
        (∀ n, existsRow smap db s (some (.vstr n)) =
          .ok (t.rows.any (fun r => sqlEqVal (rowGetD r "name" .vnull) (.vstr n)))) ∧
        existsRow smap db s none = .ok (!t.rows.isEmpty)) := by
  constructor
  · intro hs t ht nm
    simp [existsRow, h, hs, singleExists, ht]
  · intro hs t ht
    constructor
    · intro n
      simp only [existsRow, h, hs, ht, Bool.false_eq_true, if_false]
      rw [filter_not_isEmpty]
    · simp [existsRow, h, hs, ht]

/-- C2 witness: the amended characterization evaluated on the fixture
database for the Settings singleton and the Item collection schema. -/
theorem c2_witness :
    lookupSchema fixMap "Settings" = some settingsSchema ∧
    lookupSchema fixMap "Item" = some itemSchema ∧
    existsRow fixMap fixDb "Settings" none =
      .ok (fixSvTable.rows.any (fun r => sqlEqVal (rowGetD r "parent" .vnull) (.vstr "Settings"))) ∧
    existsRow fixMap fixDb "Item" (some (.vstr "i1")) =
      .ok (itemTable.rows.any (fun r => sqlEqVal (rowGetD r "name" .vnull) (.vstr "i1"))) :=
  ⟨rfl, rfl,
    (c2_exists_characterization fixMap fixDb "Settings" settingsSchema rfl).1
      rfl fixSvTable rfl none,
    ((c2_exists_characterization fixMap fixDb "Item" itemSchema rfl).2
      rfl itemTable rfl).1 "i1"⟩

/-- C3 counterexample: the claim states that the operator `includes` is
rewritten to the substring-match operator wherever it appears. In the
second slot of an `[op, v, op2, v2]` entry the operator and operand are
pushed verbatim: `includes` is not rewritten to `like` and the operand
is not wildcard-wrapped, so a row whose name contains the substring
does not match the compiled predicate. -/
theorem c3_counterexample :
    compileFilters
        [("name", .arr [.vstr ">=", .vstr "a", .vstr "includes", .vstr "apple"])] =
      [("name", FVal.vstr ">=", FVal.vstr "a"),
       ("name", FVal.vstr "includes", FVal.vstr "apple")] ∧
    rowPasses
        [("name", .arr [.vstr ">=", .vstr "a", .vstr "includes", .vstr "apple"])]
        [("name", FVal.vstr "xappley")] = false :=
  ⟨rfl, rfl⟩

/-- C3 as amended: a literal compiles to an equality condition; an
`[op, v, op2, v2]` entry compiles to two conjoined conditions on the
same field with inclusive range semantics for the comparison operators;
the rewriting of `includes` to the substring-match operator and the
wildcard auto-wrap apply to the operator in the first slot only (the
second slot is passed through verbatim); all conditions are conjoined. -/
theorem c3_filter_compilation (f : String) :
    (∀ v, compileFilters [(f, .lit v)] = [(f, FVal.vstr "=", v)]) ∧
    (∀ a b, compileFilters [(f, .arr [.vstr ">=", a, .vstr "<=", b])] =
      [(f, FVal.vstr ">=", a), (f, FVal.vstr "<=", b)]) ∧
    (∀ s, containsPct s = false →
      compileFilters [(f, .arr [.vstr "includes", .vstr s])] =
        [(f, FVal.vstr "like", FVal.vstr ("%" ++ s ++ "%"))]) ∧
    (∀ s, containsPct s = true →
      compileFilters [(f, .arr [.vstr "includes", .vstr s])] =
        [(f, FVal.vstr "like", FVal.vstr s)]) ∧
    (∀ filters r, rowPasses filters r =
      (compileFilters filters).all (fun c => condHolds r c)) ∧
    (∀ (v : FVal) rest (r : Row), rowPasses ((f, QFilterVal.lit v) :: rest) r =
      (sqlEqVal (rowGetD r f .vnull) v && rowPasses rest r)) ∧
    (∀ (x a b : Int) (r : Row), rowGet r f = some (.vint x) →
      (rowPasses [(f, .arr [.vstr ">=", .vint a, .vstr "<=", .vint b])] r = true ↔
        a ≤ x ∧ x ≤ b)) := by
  refine ⟨fun v => rfl, fun a b => rfl, ?_, ?_, fun filters r => rfl, ?_, ?_⟩
  · intro s hs
    rw [show compileFilters [(f, .arr [.vstr "includes", .vstr s])] =
      [(f, FVal.vstr "like", wrapLike (.vstr s))] from rfl]
    simp [wrapLike, hs]
  · intro s hs
    rw [show compileFilters [(f, .arr [.vstr "includes", .vstr s])] =
      [(f, FVal.vstr "like", wrapLike (.vstr s))] from rfl]
    simp [wrapLike, hs]
  · intro v rest r
    simp [rowPasses, compileFilters, compileEntry, List.all_append, condHolds]
  · intro x a b r h
    have hx : rowGetD r f .vnull = .vint x := by simp [rowGetD, h]
    have hc : compileFilters
        [(f, QFilterVal.arr [.vstr ">=", .vint a, .vstr "<=", .vint b])] =
        [(f, FVal.vstr ">=", FVal.vint a), (f, FVal.vstr "<=", FVal.vint b)] := rfl
    have h1 : condHolds r (f, FVal.vstr ">=", FVal.vint a) =
        keyLe (FVal.vint a) (FVal.vint x) := by
      rw [show condHolds r (f, FVal.vstr ">=", FVal.vint a) =
        sqlNN (rowGetD r f .vnull) (FVal.vint a)
          (keyLe (FVal.vint a) (rowGetD r f .vnull)) from rfl, hx]
      rfl
    have h2 : condHolds r (f, FVal.vstr "<=", FVal.vint b) =
        keyLe (FVal.vint x) (FVal.vint b) := by
      rw [show condHolds r (f, FVal.vstr "<=", FVal.vint b) =
        sqlNN (rowGetD r f .vnull) (FVal.vint b)
          (keyLe (rowGetD r f .vnull) (FVal.vint b)) from rfl, hx]
      rfl
    have hk : ∀ u v : Int, (keyLe (FVal.vint u) (FVal.vint v) = true) ↔ u ≤ v := by
      intro u v
      rw [show keyLe (FVal.vint u) (FVal.vint v) =
        (decide (u < v) || (u == v && true)) from rfl]
      simp only [Bool.and_true, Bool.or_eq_true, decide_eq_true_eq, beq_iff_eq]
      omega
    simp only [rowPasses, hc, List.all_cons, List.all_nil, Bool.and_true,
      Bool.and_eq_true, h1, h2, hk]

/-- C3 witness: the amended compilation rules evaluated at concrete
inputs, including both wildcard-wrap cases and the inclusive range. -/
theorem c3_witness :
    compileFilters [("status", .lit (.vstr "Open"))] =
      [("status", FVal.vstr "=", FVal.vstr "Open")] ∧
    (containsPct "apple" = false ∧
      compileFilters [("status", .arr [.vstr "includes", .vstr "apple"])] =
        [("status", FVal.vstr "like", FVal.vstr "%apple%")]) ∧
    (containsPct "ap%le" = true ∧
      compileFilters [("status", .arr [.vstr "includes", .vstr "ap%le"])] =
        [("status", FVal.vstr "like", FVal.vstr "ap%le")]) ∧
    (rowGet [("status", FVal.vint 5)] "status" = some (.vint 5) ∧
      (rowPasses [("status", .arr [.vstr ">=", .vint 3, .vstr "<=", .vint 7])]
        [("status", FVal.vint 5)] = true ↔ (3 : Int) ≤ 5 ∧ (5 : Int) ≤ 7)) :=
  ⟨(c3_filter_compilation "status").1 (.vstr "Open"),
    ⟨rfl, (c3_filter_compilation "status").2.2.1 "apple" rfl⟩,
    ⟨rfl, (c3_filter_compilation "status").2.2.2.1 "ap%le" rfl⟩,
    ⟨rfl, (c3_filter_compilation "status").2.2.2.2.2.2 5 3 7
      [("status", FVal.vint 5)] rfl⟩⟩

/-- C7: `get` with the name omitted (the empty default) on a registered
non-singleton schema fails with the validation error before touching
any table; the embedded `get` is a pure read, so no state is written on
the failing path by construction. For singleton schemas both the name
and the fields argument are ignored and the whole document is read. -/
theorem c7_get_name_validation (smap : SchemaMap) (db : DB) (s : String)
    (sc : Schema) (fields : Option (List String))
    (h : lookupSchema smap s = some sc) :
    (sc.isSingle = false → get smap db s "" fields = .error .valueErr) ∧
    (sc.isSingle = true → ∀ nm, get smap db s nm fields = getSingle smap db s) := by
  constructor
  · intro hs
    simp [get, h, hs]
  · intro hs nm
    simp [get, h, hs]

/-- C7 witness: evaluated on the fixtures for the Item collection
schema and the Settings singleton. -/
theorem c7_witness :
    lookupSchema fixMap "Item" = some itemSchema ∧
    lookupSchema fixMap "Settings" = some settingsSchema ∧
    get fixMap fixDb "Item" "" none = .error .valueErr ∧
    get fixMap fixDb "Settings" "ignored" (some ["x"]) =
      getSingle fixMap fixDb "Settings" :=
  ⟨rfl, rfl,
    (c7_get_name_validation fixMap fixDb "Item" itemSchema none rfl).1 rfl,
    (c7_get_name_validation fixMap fixDb "Settings" settingsSchema
      (some ["x"]) rfl).2 rfl "ignored"⟩

theorem deleteChildrenLoop_spec (nm : String) (fs : List Field) (db : DB)
    (hts : ∀ f ∈ fs, (tget db (f.target.getD "")).isSome) :
    ∃ db', deleteChildrenLoop nm fs db = .ok db' ∧ db'.counter = db.counter ∧
      ∀ tb, tget db' tb = (tget db tb).map (fun t =>
        { t with rows := t.rows.filter (fun r =>
            !((fs.any (fun f => f.target.getD "" == tb)) &&
              sqlEqVal (rowGetD r "parent" .vnull) (.vstr nm))) }) := by
  induction fs generalizing db with
  | nil =>
    refine ⟨db, rfl, rfl, fun tb => ?_⟩
    cases htb : tget db tb <;> simp [htb]
  | cons f fs ih =>
    have hf : (tget db (f.target.getD "")).isSome := hts f (List.mem_cons_self f fs)
    rcases Option.isSome_iff_exists.mp hf with ⟨t0, ht0⟩
    have hstep : deleteChildren db (f.target.getD "") nm = .ok (tset db (f.target.getD "")
        { t0 with rows := t0.rows.filter (fun r =>
            !(sqlEqVal (rowGetD r "parent" .vnull) (.vstr nm))) }) := by
      unfold deleteChildren
      rw [ht0]
    set db1 := tset db (f.target.getD "")
      { t0 with rows := t0.rows.filter (fun r =>
          !(sqlEqVal (rowGetD r "parent" .vnull) (.vstr nm))) } with hdb1
    have hts1 : ∀ g ∈ fs, (tget db1 (g.target.getD "")).isSome := by
      intro g hg
      rw [hdb1, tget_tset]
      by_cases hgt : f.target.getD "" = g.target.getD ""
      · simp [hgt]
      · simp only [hgt, if_false]
        exact hts g (List.mem_cons_of_mem f hg)
    rcases ih db1 hts1 with ⟨db', hloop, hctr, hchar⟩
    refine ⟨db', ?_, ?_, ?_⟩
    · unfold deleteChildrenLoop
      rw [hstep]
      exact hloop
    · rw [hctr, hdb1, counter_tset]
    · intro tb
      rw [hchar tb, hdb1, tget_tset]
      by_cases htb : f.target.getD "" = tb
      · have ht0' : tget db tb = some t0 := htb ▸ ht0
        rw [if_pos htb, ht0']
        simp only [Option.map_some']
        congr 1
        rw [List.filter_filter]
        congr 1
        refine List.filter_congr ?_
        intro r _
        have hfb : (f.target.getD "" == tb) = true := by simp [htb]
        simp only [List.any_cons, hfb, Bool.true_or]
        cases hpm : sqlEqVal (rowGetD r "parent" .vnull) (.vstr nm) <;> simp
      · rw [if_neg htb]
        cases htb2 : tget db tb
        · simp
        · simp only [Option.map_some']
          congr 2
          refine List.filter_congr ?_
          intro r _
          have hfb : (f.target.getD "" == tb) = false := by simp [htb]
          simp only [List.any_cons, hfb, Bool.false_or]
  
/-- C6: for a registered collection schema, `delete` removes the row
with the given primary key from the schema table and removes, for every
Table field of the schema, all rows of the target child table whose
parent equals that name, leaving all other tables and rows untouched;
for a singleton schema it removes the SingleValue row whose parent is
the schema name and whose fieldname is the given name. -/
theorem c6_delete_characterization (smap : SchemaMap) (db : DB) (s nm : String)
    (sc : Schema) (h : lookupSchema smap s = some sc) :
    (sc.isSingle = true → ∀ t, tget db "SingleValue" = some t →
      deleteRow smap db s nm = .ok (tset db "SingleValue"
        { t with rows := t.rows.filter (fun r =>
            !(sqlEqVal (rowGetD r "parent" .vnull) (.vstr s) &&
              sqlEqVal (rowGetD r "fieldname" .vnull) (.vstr nm))) })) ∧
    (sc.isSingle = false →
      ∀ t0, tget db s = some t0 →
      (∀ f ∈ getTableFields sc, (tget db (f.target.getD "")).isSome) →
      ∃ db', deleteRow smap db s nm = .ok db' ∧ db'.counter = db.counter ∧
        ∀ tb, tget db' tb = (tget db tb).map (fun t =>
          { t with rows := t.rows.filter (fun r =>
              !(((tb == s) && sqlEqVal (rowGetD r "name" .vnull) (.vstr nm)) ||
                ((getTableFields sc).any (fun f => f.target.getD "" == tb) &&
                  sqlEqVal (rowGetD r "parent" .vnull) (.vstr nm)))) })) := by
  constructor
  · intro hs t ht
    simp [deleteRow, h, hs, deleteSingle, ht]
  · intro hs t0 ht0 hts
    have hstep : deleteOne db s nm = .ok (tset db s
        { t0 with rows := t0.rows.filter (fun r =>
            !(sqlEqVal (rowGetD r "name" .vnull) (.vstr nm))) }) := by
      unfold deleteOne
      rw [ht0]
    set db1 := tset db s
      { t0 with rows := t0.rows.filter (fun r =>
          !(sqlEqVal (rowGetD r "name" .vnull) (.vstr nm))) } with hdb1
    have hts1 : ∀ f ∈ getTableFields sc, (tget db1 (f.target.getD "")).isSome := by
      intro f hf
      rw [hdb1, tget_tset]
      by_cases hft : s = f.target.getD ""
      · simp [hft]
      · simp only [hft, if_false]
        exact hts f hf
    rcases deleteChildrenLoop_spec nm (getTableFields sc) db1 hts1 with
      ⟨db', hloop, hctr, hchar⟩
    refine ⟨db', ?_, ?_, ?_⟩
    · simp only [deleteRow, h, hs, Bool.false_eq_true, if_false]
      rw [hstep]
      exact hloop
    · rw [hctr, hdb1, counter_tset]
    · intro tb
      rw [hchar tb, hdb1, tget_tset]
      by_cases htb : s = tb
      · have ht0' : tget db tb = some t0 := htb ▸ ht0
        rw [if_pos htb, ht0']
        simp only [Option.map_some']
        congr 1
        rw [List.filter_filter]
        congr 1
        refine List.filter_congr ?_
        intro r _
        have hbs : (tb == s) = true := by simp [htb.symm]
        simp only [hbs, Bool.true_and]
        cases hnm : sqlEqVal (rowGetD r "name" .vnull) (.vstr nm) <;>
          cases hpm : sqlEqVal (rowGetD r "parent" .vnull) (.vstr nm) <;>
            cases hany : (getTableFields sc).any (fun f => f.target.getD "" == tb) <;>
              simp [hnm, hpm, hany]
      · rw [if_neg htb]
        cases htb2 : tget db tb
        · simp
        · simp only [Option.map_some']
          congr 2
          refine List.filter_congr ?_
          intro r _
          have hbs : (tb == s) = false := by
            simp
            exact fun hh => htb hh.symm
          simp only [hbs, Bool.false_and, Bool.false_or]

/-- C6 witness: deleting the Parent row p1 from the fixture database
removes it and its Child rows whose parent is p1. -/
theorem c6_witness :
    lookupSchema fixMap "Parent" = some parentSchema ∧
    (∃ db', deleteRow fixMap fixDb "Parent" "p1" = .ok db' ∧
      db'.counter = fixDb.counter ∧
      ∀ tb, tget db' tb = (tget fixDb tb).map (fun t =>
        { t with rows := t.rows.filter (fun r =>
            !(((tb == "Parent") && sqlEqVal (rowGetD r "name" .vnull) (.vstr "p1")) ||
              ((getTableFields parentSchema).any (fun f => f.target.getD "" == tb) &&
                sqlEqVal (rowGetD r "parent" .vnull) (.vstr "p1")))) })) :=
  ⟨rfl,
    (c6_delete_characterization fixMap fixDb "Parent" "p1" parentSchema rfl).2
      rfl fixParentTable rfl (by decide)⟩

/-! ## Row and find? lemmas -/

theorem rowGet_setEntry (r : Row) (k : String) (v : FVal) (k2 : String) :
    rowGet (setEntry r k v) k2 = if k = k2 then some v else rowGet r k2 := by
  induction r with
  | nil =>
    by_cases h : k = k2
    · simp [setEntry, rowGet, h]
    · have : (k == k2) = false := by simp [h]
      simp [setEntry, rowGet, List.find?, this, h]
  | cons a l ih =>
    by_cases ha : a.1 = k
    · have ha' : (a.1 == k) = true := by simp [ha]
      by_cases h : k = k2
      · subst h
        simp [setEntry, ha', rowGet, List.find?]
      · have hk2 : (k == k2) = false := by simp [h]
        have ha2 : (a.1 == k2) = false := by simp [ha, h]
        simp [setEntry, ha', rowGet, List.find?, hk2, ha2, h]
    · have ha' : (a.1 == k) = false := by simp [ha]
      by_cases ha2 : a.1 = k2
      · have h2 : ¬k = k2 := fun hh => ha (by rw [ha2, hh])
        have ha2' : (a.1 == k2) = true := by simp [ha2]
        simp [setEntry, ha', rowGet, List.find?, ha2', h2]
      · have ha2' : (a.1 == k2) = false := by simp [ha2]
        simp only [setEntry, ha', Bool.false_eq_true, if_false]
        by_cases h : k = k2
        · simpa [rowGet, List.find?, ha2'] using ih
        · simpa [rowGet, List.find?, ha2'] using ih

theorem find?_congr_mem (l : List α) (p q : α → Bool)
    (h : ∀ a ∈ l, p a = q a) : l.find? p = l.find? q := by
  induction l with
  | nil => rfl
  | cons a t ih =>
    have ha := h a (List.mem_cons_self a t)
    simp only [List.find?, ha]
    cases hq : q a
    · exact ih (fun x hx => h x (List.mem_cons_of_mem a hx))
    · rfl

theorem find?_filter_and (l : List α) (p q : α → Bool) :
    (l.filter p).find? q = l.find? (fun a => p a && q a) := by
  induction l with
  | nil => rfl
  | cons a t ih =>
    cases hp : p a
    · simp [List.filter_cons, hp, List.find?, ih]
    · cases hq : q a
      · simp [List.filter_cons, hp, List.find?, hq, ih]
      · simp [List.filter_cons, hp, List.find?, hq]

theorem find?_eq_head_filter (l : List α) (p : α → Bool) :
    l.find? p = (l.filter p).head? := by
  induction l with
  | nil => rfl
  | cons a t ih =>
    cases hp : p a
    · rw [List.find?_cons_of_neg _ (by simp [hp]), List.filter_cons]
      simp only [hp, Bool.false_eq_true, if_false]
      exact ih
    · rw [List.find?_cons_of_pos _ hp, List.filter_cons]
      simp [hp]

theorem nodup_const_len_le_one (l : List α) (f : α → String) (c : String)
    (hnd : (l.map f).Nodup) (hall : ∀ a ∈ l, f a = c) : l.length ≤ 1 := by
  match l with
  | [] => simp
  | [a] => simp
  | a :: b :: t =>
    exfalso
    have h1 : f a = c := hall a (by simp)
    have h2 : f b = c := hall b (by simp)
    have : f a ≠ f b := by
      have := List.nodup_cons.mp hnd
      exact fun hh => this.1 (by simp [hh])
    exact this (h1.trans h2.symm)

theorem eq_of_perm_len_le_one (l l2 : List α) (h : l.Perm l2)
    (hl : l.length ≤ 1) : l = l2 := by
  cases l with
  | nil => exact h.nil_eq
  | cons a t =>
    cases t with
    | nil => exact (List.perm_singleton.mp h.symm).symm
    | cons b u => simp at hl

theorem find?_perm_nodup_keys (l l2 : List α) (keyf : α → String)
    (hperm : l.Perm l2) (hnd : (l.map keyf).Nodup) (fn : String) :
    l.find? (fun a => keyf a == fn) = l2.find? (fun a => keyf a == fn) := by
  rw [find?_eq_head_filter, find?_eq_head_filter]
  have hp : (l.filter (fun a => keyf a == fn)).Perm
      (l2.filter (fun a => keyf a == fn)) := hperm.filter _
  have hsub : (l.filter (fun a => keyf a == fn)).Sublist l := List.filter_sublist l
  have hnd2 : ((l.filter (fun a => keyf a == fn)).map keyf).Nodup :=
    List.Nodup.sublist (List.Sublist.map keyf hsub) hnd
  have hlen : (l.filter (fun a => keyf a == fn)).length ≤ 1 := by
    refine nodup_const_len_le_one _ keyf fn hnd2 ?_
    intro a ha
    have := List.mem_filter.mp ha
    exact eq_of_beq this.2
  rw [eq_of_perm_len_le_one _ _ hp hlen]

theorem rowGet_fold_set (keyf : Row → String) (valf : Row → FVal)
    (vs : List Row) (acc : Row) (fn : String)
    (hnd : (vs.map keyf).Nodup) :
    rowGet (vs.foldl (fun a r => setEntry a (keyf r) (valf r)) acc) fn =
      match vs.find? (fun r => keyf r == fn) with
      | some r => some (valf r)
      | none => rowGet acc fn := by
  induction vs generalizing acc with
  | nil => rfl
  | cons r rest ih =>
    have hndc : keyf r ∉ rest.map keyf ∧ (rest.map keyf).Nodup := by
      rw [List.map_cons] at hnd
      exact List.nodup_cons.mp hnd
    simp only [List.foldl_cons]
    rw [ih _ hndc.2]
    by_cases hk : keyf r = fn
    · have hk' : (keyf r == fn) = true := by simp [hk]
      have hrest : rest.find? (fun x => keyf x == fn) = none := by
        rw [List.find?_eq_none]
        intro x hx hbx
        have hxy : keyf x = keyf r := (eq_of_beq hbx).trans hk.symm
        exact hndc.1 (hxy ▸ List.mem_map_of_mem keyf hx)
      simp only [List.find?, hk', hrest]
      rw [rowGet_setEntry]
      simp [hk]
    · have hk' : (keyf r == fn) = false := by simp [hk]
      simp only [List.find?, hk']
      cases hrf : rest.find? (fun x => keyf x == fn)
      · simp only []
        rw [rowGet_setEntry, if_neg hk]
      · rfl

theorem sqlEq_vstr_inj (u : FVal) (a b : String)
    (h1 : sqlEqVal u (.vstr a) = true) (h2 : sqlEqVal u (.vstr b) = true) :
    a = b := by
  cases u <;> simp [sqlEqVal] at h1 h2
  exact h1.symm.trans h2

theorem rowGet_merge_upd (r : Row) (v : FVal) (k : String) :
    rowGet (rowMerge r
      [("value", v), ("modifiedBy", .vstr SYSTEMSTR), ("modified", .vstr NOWSTR)]) k =
      if k = "value" then some v
      else if k = "modifiedBy" then some (.vstr SYSTEMSTR)
      else if k = "modified" then some (.vstr NOWSTR)
      else rowGet r k := by
  show rowGet (setEntry (setEntry (setEntry r "value" v) "modifiedBy"
    (.vstr SYSTEMSTR)) "modified" (.vstr NOWSTR)) k = _
  rw [rowGet_setEntry, rowGet_setEntry, rowGet_setEntry]
  by_cases h1 : k = "value"
  · subst h1
    simp
  · by_cases h2 : k = "modifiedBy"
    · subst h2
      simp
    · by_cases h3 : k = "modified"
      · subst h3
        simp
      · have h1' : ¬("value" = k) := fun hh => h1 hh.symm
        have h2' : ¬("modifiedBy" = k) := fun hh => h2 hh.symm
        have h3' : ¬("modified" = k) := fun hh => h3 hh.symm
        simp [h1, h2, h3, h1', h2', h3']

/-- The merge of a single value update touches only value and audit
columns, so the parent / fieldname keys are unchanged. -/
theorem svKeyPred_merge_upd (s2 fn2 : String) (v : FVal) (r : Row) :
    svKeyPred s2 fn2 (rowMerge r
      [("value", v), ("modifiedBy", .vstr SYSTEMSTR), ("modified", .vstr NOWSTR)]) =
      svKeyPred s2 fn2 r := by
  unfold svKeyPred svParentPred rowGetD
  rw [rowGet_merge_upd, rowGet_merge_upd]
  simp

theorem svParentPred_merge_upd (s2 : String) (v : FVal) (r : Row) :
    svParentPred s2 (rowMerge r
      [("value", v), ("modifiedBy", .vstr SYSTEMSTR), ("modified", .vstr NOWSTR)]) =
      svParentPred s2 r := by
  unfold svParentPred rowGetD
  rw [rowGet_merge_upd]
  simp

theorem fieldKey_merge_upd (v : FVal) (r : Row) :
    keyStr (rowGetD (rowMerge r
      [("value", v), ("modifiedBy", .vstr SYSTEMSTR), ("modified", .vstr NOWSTR)])
        "fieldname" .vnull) = keyStr (rowGetD r "fieldname" .vnull) := by
  unfold rowGetD
  rw [rowGet_merge_upd]
  simp

theorem fieldname_merge_upd (v : FVal) (r : Row) :
    rowGet (rowMerge r
      [("value", v), ("modifiedBy", .vstr SYSTEMSTR), ("modified", .vstr NOWSTR)])
        "fieldname" = rowGet r "fieldname" := by
  rw [rowGet_merge_upd]
  simp

theorem filtermap_keys_eq (g : Row → Row) (pp : Row → Bool) (kk : Row → String)
    (rows : List Row) (hp : ∀ r ∈ rows, pp (g r) = pp r)
    (hk : ∀ r ∈ rows, kk (g r) = kk r) :
    ((rows.map g).filter pp).map kk = (rows.filter pp).map kk := by
  induction rows with
  | nil => rfl
  | cons r rest ih =>
    have hpr := hp r (List.mem_cons_self r rest)
    have hkr := hk r (List.mem_cons_self r rest)
    have ih' := ih (fun x hx => hp x (List.mem_cons_of_mem r hx))
      (fun x hx => hk x (List.mem_cons_of_mem r hx))
    simp only [List.map_cons, List.filter_cons, hpr]
    cases hc : pp r
    · simp only [Bool.false_eq_true, if_false]
      exact ih'
    · simp only [if_true, List.map_cons, hkr]
      rw [ih']

theorem updateSingleValue_spec (db : DB) (s fn : String) (v : FVal) (t : Table)
    (ht : tget db "SingleValue" = some t) :
    ∃ db' t', updateSingleValue db s fn v = .ok db' ∧
      tget db' "SingleValue" = some t' ∧
      (∀ tb, tb ≠ "SingleValue" → tget db' tb = tget db tb) ∧
      svValue t' s fn = some v ∧
      (∀ s2 fn2, ¬(s2 = s ∧ fn2 = fn) → svValue t' s2 fn2 = svValue t s2 fn2) ∧
      (svWf t s → svWf t' s) := by
  unfold updateSingleValue
  simp only [ht]
  by_cases hany : (t.rows.any (fun r =>
      sqlEqVal (rowGetD r "parent" .vnull) (.vstr s) &&
        sqlEqVal (rowGetD r "fieldname" .vnull) (.vstr fn))) = true
  · rw [if_pos hany]
    refine ⟨_, { t with rows := t.rows.map (fun r =>
      if (sqlEqVal (rowGetD r "parent" .vnull) (.vstr s) &&
          sqlEqVal (rowGetD r "fieldname" .vnull) (.vstr fn)) = true then
        rowMerge r [("value", v), ("modifiedBy", .vstr SYSTEMSTR),
          ("modified", .vstr NOWSTR)]
      else r) }, rfl, ?_, ?_, ?_, ?_, ?_⟩
    · rw [tget_tset]
      simp
    · intro tb htb
      rw [tget_tset, if_neg (fun hh => htb hh.symm)]
    · unfold svValue
      rw [List.find?_map]
      rw [find?_congr_mem _ _ (svKeyPred s fn) (fun r _ => by
        show svKeyPred s fn
          (if (sqlEqVal (rowGetD r "parent" .vnull) (.vstr s) &&
              sqlEqVal (rowGetD r "fieldname" .vnull) (.vstr fn)) = true then
            rowMerge r [("value", v), ("modifiedBy", .vstr SYSTEMSTR),
              ("modified", .vstr NOWSTR)]
          else r) = svKeyPred s fn r
        by_cases hr : svKeyPred s fn r = true
        · rw [if_pos (show (sqlEqVal (rowGetD r "parent" .vnull) (.vstr s) &&
            sqlEqVal (rowGetD r "fieldname" .vnull) (.vstr fn)) = true from hr)]
          exact svKeyPred_merge_upd s fn v r
        · rw [if_neg (show ¬(sqlEqVal (rowGetD r "parent" .vnull) (.vstr s) &&
            sqlEqVal (rowGetD r "fieldname" .vnull) (.vstr fn)) = true from hr)])]
      rcases List.any_eq_true.mp (by exact hany) with ⟨r0, hr0m, hr0⟩
      have hsome : (t.rows.find? (svKeyPred s fn)).isSome := by
        rw [List.find?_isSome]
        exact ⟨r0, hr0m, hr0⟩
      rcases Option.isSome_iff_exists.mp hsome with ⟨r1, hr1⟩
      have hp1 : svKeyPred s fn r1 = true := List.find?_some hr1
      rw [hr1]
      simp only [Option.map_some']
      rw [if_pos (show (sqlEqVal (rowGetD r1 "parent" .vnull) (.vstr s) &&
        sqlEqVal (rowGetD r1 "fieldname" .vnull) (.vstr fn)) = true from hp1)]
      unfold rowGetD
      rw [rowGet_merge_upd]
      simp
    · intro s2 fn2 hne
      unfold svValue
      rw [List.find?_map]
      rw [find?_congr_mem _ _ (svKeyPred s2 fn2) (fun r _ => by
        show svKeyPred s2 fn2
          (if (sqlEqVal (rowGetD r "parent" .vnull) (.vstr s) &&
              sqlEqVal (rowGetD r "fieldname" .vnull) (.vstr fn)) = true then
            rowMerge r [("value", v), ("modifiedBy", .vstr SYSTEMSTR),
              ("modified", .vstr NOWSTR)]
          else r) = svKeyPred s2 fn2 r
        by_cases hr : svKeyPred s fn r = true
        · rw [if_pos (show (sqlEqVal (rowGetD r "parent" .vnull) (.vstr s) &&
            sqlEqVal (rowGetD r "fieldname" .vnull) (.vstr fn)) = true from hr)]
          exact svKeyPred_merge_upd s2 fn2 v r
        · rw [if_neg (show ¬(sqlEqVal (rowGetD r "parent" .vnull) (.vstr s) &&
            sqlEqVal (rowGetD r "fieldname" .vnull) (.vstr fn)) = true from hr)])]
      cases hfd : t.rows.find? (svKeyPred s2 fn2) with
      | none => simp
      | some r1 =>
        have hp1 : svKeyPred s2 fn2 r1 = true := List.find?_some hfd
        have hnotp : ¬(sqlEqVal (rowGetD r1 "parent" .vnull) (.vstr s) &&
            sqlEqVal (rowGetD r1 "fieldname" .vnull) (.vstr fn)) = true := by
          intro hc
          simp only [Bool.and_eq_true] at hc
          unfold svKeyPred svParentPred at hp1
          simp only [Bool.and_eq_true] at hp1
          exact hne ⟨sqlEq_vstr_inj _ _ _ hp1.1 hc.1,
            sqlEq_vstr_inj _ _ _ hp1.2 hc.2⟩
        simp only [Option.map_some']
        rw [if_neg hnotp]
    · intro hwf
      constructor
      · intro r' hr'm hpp
        rcases List.mem_map.mp hr'm with ⟨r, hrm, hreq⟩
        subst hreq
        by_cases hr : svKeyPred s fn r = true
        · rw [if_pos (show (sqlEqVal (rowGetD r "parent" .vnull) (.vstr s) &&
            sqlEqVal (rowGetD r "fieldname" .vnull) (.vstr fn)) = true from hr)] at hpp ⊢
          rw [fieldname_merge_upd]
          rw [svParentPred_merge_upd] at hpp
          exact hwf.1 r hrm hpp
        · rw [if_neg (show ¬(sqlEqVal (rowGetD r "parent" .vnull) (.vstr s) &&
            sqlEqVal (rowGetD r "fieldname" .vnull) (.vstr fn)) = true from hr)] at hpp ⊢
          exact hwf.1 r hrm hpp
      · rw [filtermap_keys_eq _ (svParentPred s)
          (fun r => keyStr (rowGetD r "fieldname" .vnull)) t.rows
          (fun r _ => by
            show svParentPred s
              (if (sqlEqVal (rowGetD r "parent" .vnull) (.vstr s) &&
                  sqlEqVal (rowGetD r "fieldname" .vnull) (.vstr fn)) = true then
                rowMerge r [("value", v), ("modifiedBy", .vstr SYSTEMSTR),
                  ("modified", .vstr NOWSTR)]
              else r) = svParentPred s r
            by_cases hr : (sqlEqVal (rowGetD r "parent" .vnull) (.vstr s) &&
                sqlEqVal (rowGetD r "fieldname" .vnull) (.vstr fn)) = true
            · rw [if_pos hr]
              exact svParentPred_merge_upd s v r
            · rw [if_neg hr])
          (fun r _ => by
            show keyStr (rowGetD
              (if (sqlEqVal (rowGetD r "parent" .vnull) (.vstr s) &&
                  sqlEqVal (rowGetD r "fieldname" .vnull) (.vstr fn)) = true then
                rowMerge r [("value", v), ("modifiedBy", .vstr SYSTEMSTR),
                  ("modified", .vstr NOWSTR)]
              else r) "fieldname" .vnull) = keyStr (rowGetD r "fieldname" .vnull)
            by_cases hr : (sqlEqVal (rowGetD r "parent" .vnull) (.vstr s) &&
                sqlEqVal (rowGetD r "fieldname" .vnull) (.vstr fn)) = true
            · rw [if_pos hr]
              exact fieldKey_merge_upd v r
            · rw [if_neg hr])]
        exact hwf.2
  · rw [if_neg hany]
    have hany' : (t.rows.any (fun r =>
        sqlEqVal (rowGetD r "parent" .vnull) (.vstr s) &&
          sqlEqVal (rowGetD r "fieldname" .vnull) (.vstr fn))) = false :=
      Bool.of_not_eq_true hany
    have hparent : rowGet (metaRow ++
        [("parent", .vstr s), ("fieldname", .vstr fn), ("value", v),
         ("name", .vstr (getRandomString db.counter))]) "parent" =
        some (.vstr s) := rfl
    have hfield : rowGet (metaRow ++
        [("parent", .vstr s), ("fieldname", .vstr fn), ("value", v),
         ("name", .vstr (getRandomString db.counter))]) "fieldname" =
        some (.vstr fn) := rfl
    have hvalue : rowGet (metaRow ++
        [("parent", .vstr s), ("fieldname", .vstr fn), ("value", v),
         ("name", .vstr (getRandomString db.counter))]) "value" = some v := rfl
    have hnone : t.rows.find? (svKeyPred s fn) = none := by
      rw [List.find?_eq_none]
      intro r hrm hp
      have hne := List.any_eq_true.not.mp (by rw [hany']; simp)
      exact hne ⟨r, hrm, hp⟩
    refine ⟨_, { t with rows := t.rows ++ [metaRow ++
      [("parent", .vstr s), ("fieldname", .vstr fn), ("value", v),
       ("name", .vstr (getRandomString db.counter))]] }, rfl, ?_, ?_, ?_, ?_, ?_⟩
    · show tget (tset db "SingleValue" _) "SingleValue" = _
      rw [tget_tset]
      simp
    · intro tb htb
      show tget (tset db "SingleValue" _) tb = _
      rw [tget_tset, if_neg (fun hh => htb hh.symm)]
    · unfold svValue
      rw [List.find?_append, hnone]
      have hpnew : svKeyPred s fn (metaRow ++
          [("parent", .vstr s), ("fieldname", .vstr fn), ("value", v),
           ("name", .vstr (getRandomString db.counter))]) = true := by
        unfold svKeyPred svParentPred rowGetD
        rw [hparent, hfield]
        simp [sqlEqVal]
      rw [List.find?_cons_of_pos _ hpnew]
      show ((Option.none.or (some _)).map _) = _
      simp only [Option.none_or, Option.map_some']
      unfold rowGetD
      rw [hvalue]
      rfl
    · intro s2 fn2 hne
      unfold svValue
      rw [List.find?_append]
      have hpnew2 : svKeyPred s2 fn2 (metaRow ++
          [("parent", .vstr s), ("fieldname", .vstr fn), ("value", v),
           ("name", .vstr (getRandomString db.counter))]) = false := by
        unfold svKeyPred svParentPred rowGetD
        rw [hparent, hfield]
        by_cases hs2 : s2 = s
        · have hf2 : ¬fn2 = fn := fun hh => hne ⟨hs2, hh⟩
          have hf2' : ¬(fn = fn2) := fun hh => hf2 hh.symm
          simp [sqlEqVal, hf2']
        · have hs2' : ¬(s = s2) := fun hh => hs2 hh.symm
          simp [sqlEqVal, hs2']
      have hsingle : ([(metaRow ++
          [("parent", .vstr s), ("fieldname", .vstr fn), ("value", v),
           ("name", .vstr (getRandomString db.counter))])].find?
            (svKeyPred s2 fn2)) = none := by
        rw [List.find?_eq_none]
        intro x hx
        rw [List.mem_singleton.mp hx, hpnew2]
        simp
      rw [hsingle]
      cases hfd : t.rows.find? (svKeyPred s2 fn2) <;> simp
    · intro hwf
      constructor
      · intro r' hr'm hpp
        rcases List.mem_append.mp hr'm with hin | hin
        · exact hwf.1 r' hin hpp
        · rw [List.mem_singleton.mp hin, hfield]
          rfl
      · rw [List.filter_append]
        have hpnewp : svParentPred s (metaRow ++
            [("parent", .vstr s), ("fieldname", .vstr fn), ("value", v),
             ("name", .vstr (getRandomString db.counter))]) = true := by
          unfold svParentPred rowGetD
          rw [hparent]
          simp [sqlEqVal]
        rw [show (([(metaRow ++
            [("parent", .vstr s), ("fieldname", .vstr fn), ("value", v),
             ("name", .vstr (getRandomString db.counter))])].filter
              (svParentPred s))) = [(metaRow ++
            [("parent", .vstr s), ("fieldname", .vstr fn), ("value", v),
             ("name", .vstr (getRandomString db.counter))])] by
          simp [List.filter_cons, hpnewp]]
        rw [List.map_append]
        refine List.Nodup.append hwf.2 (by simp) ?_
        intro x hx1 hx2
        rcases List.mem_map.mp hx1 with ⟨r, hrm, hreq⟩
        rcases List.mem_map.mp hx2 with ⟨r2, hr2m, hr2eq⟩
        rw [List.mem_singleton.mp hr2m] at hr2eq
        have hr2k : x = fn := by
          rw [← hr2eq]
          unfold rowGetD
          rw [hfield]
          rfl
        have hrf := List.mem_filter.mp hrm
        have hstr := hwf.1 r hrf.1 hrf.2
        cases hrg : rowGet r "fieldname" with
        | none => rw [hrg] at hstr; simp [isStrName] at hstr
        | some fv =>
          cases fv with
          | vstr w =>
            have hw : x = w := by
              rw [← hreq]
              unfold rowGetD
              rw [hrg]
              rfl
            have hkey : svKeyPred s fn r = true := by
              unfold svKeyPred
              rw [hrf.2]
              unfold rowGetD
              rw [hrg]
              have hwfn : w = fn := by rw [← hw, hr2k]
              simp [sqlEqVal, hwfn]
            rw [List.find?_eq_none] at hnone
            exact hnone r hrf.1 hkey
          | vnull => rw [hrg] at hstr; simp [isStrName] at hstr
          | vint n => rw [hrg] at hstr; simp [isStrName] at hstr
          | vbool b => rw [hrg] at hstr; simp [isStrName] at hstr
          | vlist rs => rw [hrg] at hstr; simp [isStrName] at hstr

theorem svFieldsLoop_spec (s : String) (fvm : FieldValueMap) (flds : List Field)
    (db : DB) (t : Table) (ht : tget db "SingleValue" = some t)
    (hnd : (flds.map (fun f => f.fieldname)).Nodup) :
    ∃ db' t', svFieldsLoop db s fvm flds = .ok db' ∧
      tget db' "SingleValue" = some t' ∧
      (∀ tb, tb ≠ "SingleValue" → tget db' tb = tget db tb) ∧
      (∀ f ∈ flds, ∀ v, rowGet fvm f.fieldname = some v →
        svValue t' s f.fieldname = some v) ∧
      (∀ fn, (∀ f ∈ flds, f.fieldname = fn → rowGet fvm fn = none) →
        svValue t' s fn = svValue t s fn) ∧
      (svWf t s → svWf t' s) := by
  induction flds generalizing db t with
  | nil =>
    exact ⟨db, t, rfl, ht, fun tb _ => rfl, fun f hf => absurd hf (by simp),
      fun fn _ => rfl, fun h => h⟩
  | cons f fs ih =>
    have hndc : f.fieldname ∉ fs.map Field.fieldname ∧
        (fs.map Field.fieldname).Nodup := by
      rw [List.map_cons] at hnd
      exact List.nodup_cons.mp hnd
    unfold svFieldsLoop
    cases hv : rowGet fvm f.fieldname with
    | none =>
      rcases ih db t ht hndc.2 with ⟨db', t', hloop, ht', hfr, hw, hu, hwf⟩
      refine ⟨db', t', hloop, ht', hfr, ?_, ?_, hwf⟩
      · intro g hg v hgv
        rcases List.mem_cons.mp hg with rfl | hg2
        · rw [hv] at hgv
          exact absurd hgv (by simp)
        · exact hw g hg2 v hgv
      · intro fn hfn
        exact hu fn (fun g hg => hfn g (List.mem_cons_of_mem f hg))
    | some v =>
      rcases updateSingleValue_spec db s f.fieldname v t ht with
        ⟨db1, t1, hupd, ht1, hfr1, hval1, hother1, hwf1⟩
      rcases ih db1 t1 ht1 hndc.2 with ⟨db', t', hloop, ht', hfr, hw, hu, hwf⟩
      refine ⟨db', t', ?_, ht', ?_, ?_, ?_, ?_⟩
      · simp only [hupd]
        exact hloop
      · intro tb htb
        rw [hfr tb htb, hfr1 tb htb]
      · intro g hg v2 hgv
        rcases List.mem_cons.mp hg with rfl | hg2
        · have hv2 : v2 = v := by
            rw [hv] at hgv
            exact (Option.some_inj.mp hgv).symm
          subst hv2
          have hvac : ∀ g2 ∈ fs, g2.fieldname = g.fieldname →
              rowGet fvm g.fieldname = none := by
            intro g2 hg2 heq
            exact absurd (heq ▸ List.mem_map_of_mem Field.fieldname hg2) hndc.1
          rw [hu g.fieldname hvac]
          exact hval1
        · exact hw g hg2 v2 hgv
      · intro fn hfn
        have hneq : f.fieldname ≠ fn := by
          intro heq
          have := hfn f (List.mem_cons_self f fs) heq
          rw [heq] at hv
          rw [this] at hv
          exact absurd hv (by simp)
        rw [hu fn (fun g hg => hfn g (List.mem_cons_of_mem f hg))]
        exact hother1 s fn (fun hh => hneq hh.2.symm)
      · intro h0
        exact hwf (hwf1 h0)

theorem rowPasses_parent_lit (s : String) (r : Row) :
    rowPasses [("parent", QFilterVal.lit (.vstr s))] r = svParentPred s r := by
  show (sqlEqVal (rowGetD r "parent" .vnull) (.vstr s) && true) = svParentPred s r
  rw [Bool.and_true]
  rfl

theorem getAll_single_eval (smap : SchemaMap) (db : DB) (s : String)
    (svsc : Schema) (t : Table)
    (hsv : lookupSchema smap "SingleValue" = some svsc)
    (ht : tget db "SingleValue" = some t) :
    getAll smap db "SingleValue"
      { fields := ["fieldname", "value"],
        filters := [("parent", .lit (.vstr s))],
        orderBy := some "fieldname", order := "asc" } =
      .ok ((insSortBy (rowLe "fieldname" "asc")
        (t.rows.filter (svParentPred s))).map
          (projectRow ["fieldname", "value"])) := by
  unfold getAll
  simp only [hsv, ht]
  show Except.ok ((insSortBy (rowLe "fieldname" "asc")
      (t.rows.filter (rowPasses [("parent", QFilterVal.lit (.vstr s))]))).map
        (projectRow ["fieldname", "value"])) = _
  rw [show t.rows.filter (rowPasses [("parent", QFilterVal.lit (.vstr s))]) =
    t.rows.filter (svParentPred s) from
      List.filter_congr (fun r _ => rowPasses_parent_lit s r)]

theorem getSingle_spec (smap : SchemaMap) (db : DB) (s : String)
    (svsc : Schema) (t : Table)
    (hsv : lookupSchema smap "SingleValue" = some svsc)
    (ht : tget db "SingleValue" = some t)
    (hwf : svWf t s) :
    ∃ m, getSingle smap db s = .ok m ∧ ∀ fn, rowGet m fn = svValue t s fn := by
  unfold getSingle
  rw [getAll_single_eval smap db s svsc t hsv ht]
  refine ⟨_, rfl, ?_⟩
  intro fn
  unfold getValueMapFromList
  rw [List.foldl_map]
  have hperm : (insSortBy (rowLe "fieldname" "asc")
      (t.rows.filter (svParentPred s))).Perm
      (t.rows.filter (svParentPred s)) :=
    insSortBy_perm _ _
  have hnds : ((insSortBy (rowLe "fieldname" "asc")
      (t.rows.filter (svParentPred s))).map
        (fun r => keyStr (rowGetD r "fieldname" .vnull))).Nodup :=
    ((hperm.map (fun r => keyStr (rowGetD r "fieldname" .vnull))).nodup_iff).mpr
      hwf.2
  rw [rowGet_fold_set
    (fun r => keyStr (rowGetD (projectRow ["fieldname", "value"] r) "fieldname" .vnull))
    (fun r => rowGetD (projectRow ["fieldname", "value"] r) "value" .vnull)
    _ [] fn hnds]
  rw [find?_perm_nodup_keys _ _
    (fun r => keyStr (rowGetD (projectRow ["fieldname", "value"] r) "fieldname" .vnull))
    hperm hnds fn]
  rw [find?_filter_and]
  rw [find?_congr_mem _ _ (svKeyPred s fn) (fun r hr => by
    show (svParentPred s r && (keyStr (rowGetD r "fieldname" .vnull) == fn)) =
      svKeyPred s fn r
    unfold svKeyPred
    cases hpp : svParentPred s r
    · simp
    · have hstr := hwf.1 r hr hpp
      cases hrg : rowGet r "fieldname" with
      | none => rw [hrg] at hstr; simp [isStrName] at hstr
      | some fv =>
        cases fv with
        | vstr w =>
          show (true && ((keyStr (rowGetD (projectRow ["fieldname", "value"] r)
            "fieldname" .vnull)) == fn)) = (true &&
              sqlEqVal (rowGetD r "fieldname" .vnull) (.vstr fn))
          rw [Bool.true_and, Bool.true_and]
          show ((keyStr (rowGetD r "fieldname" .vnull)) == fn) = _
          unfold rowGetD
          rw [hrg]
          rfl
        | vnull => rw [hrg] at hstr; simp [isStrName] at hstr
        | vint n => rw [hrg] at hstr; simp [isStrName] at hstr
        | vbool b => rw [hrg] at hstr; simp [isStrName] at hstr
        | vlist rs => rw [hrg] at hstr; simp [isStrName] at hstr)]
  unfold svValue
  cases hfd : t.rows.find? (svKeyPred s fn) with
  | none => rfl
  | some r => rfl

/-- C8: for a singleton schema, `update` upserts exactly the provided
(defined) schema fields as SingleValue rows, and a subsequent `get`
returns a map holding every written field with its written value
together with the previously stored values of all unwritten fields;
a field with no stored value row is absent from the map (`rowGet`
yields `none`), not present as null. -/
theorem c8_singleton_round_trip (smap : SchemaMap) (db : DB) (s : String)
    (sc svsc : Schema) (t : Table) (fvm : FieldValueMap)
    (h : lookupSchema smap s = some sc)
    (hs : sc.isSingle = true)
    (hnt : getTableFields sc = [])
    (hsv : lookupSchema smap "SingleValue" = some svsc)
    (ht : tget db "SingleValue" = some t)
    (hnd : (sc.fields.map (fun f => f.fieldname)).Nodup)
    (hwf : svWf t s) :
    ∃ db' t' m, update smap db s fvm = .ok db' ∧
      tget db' "SingleValue" = some t' ∧
      get smap db' s "" none = .ok m ∧
      (∀ f ∈ sc.fields, ∀ v, rowGet fvm f.fieldname = some v →
        rowGet m f.fieldname = some v) ∧
      (∀ f ∈ sc.fields, rowGet fvm f.fieldname = none →
        rowGet m f.fieldname = svValue t s f.fieldname) := by
  rcases svFieldsLoop_spec s fvm sc.fields db t ht hnd with
    ⟨db1, t1, hloop, ht1, hfr1, hw, hu, hwfp⟩
  have hwf1 : svWf t1 s := hwfp hwf
  rcases getSingle_spec smap db1 s svsc t1 hsv ht1 hwf1 with ⟨m, hgs, hm⟩
  refine ⟨db1, t1, m, ?_, ht1, ?_, ?_, ?_⟩
  · unfold update updateSingleValues insertOrUpdateChildren
    simp only [h, hs, if_true, hloop, hnt]
    rfl
  · unfold get
    simp only [h, hs]
    simp only [Bool.not_true, Bool.false_and, Bool.false_eq_true, if_false,
      if_true]
    exact hgs
  · intro f hf v hv
    rw [hm f.fieldname]
    exact hw f hf v hv
  · intro f hf hv
    rw [hm f.fieldname]
    exact hu f.fieldname (fun g hg heq => hv)

/-- C8 witness: writing companyName on the Settings singleton of the
fixture database and reading the document back. -/
theorem c8_witness :
    (lookupSchema fixMap "Settings" = some settingsSchema ∧
     settingsSchema.isSingle = true ∧
     getTableFields settingsSchema = [] ∧
     lookupSchema fixMap "SingleValue" = some svSchema ∧
     tget fixDb "SingleValue" = some fixSvTable ∧
     (settingsSchema.fields.map (fun f => f.fieldname)).Nodup ∧
     svWf fixSvTable "Settings") ∧
    (∃ db' t' m,
      update fixMap fixDb "Settings" [("companyName", .vstr "Acme")] = .ok db' ∧
      tget db' "SingleValue" = some t' ∧
      get fixMap db' "Settings" "" none = .ok m ∧
      (∀ f ∈ settingsSchema.fields, ∀ v,
        rowGet [("companyName", FVal.vstr "Acme")] f.fieldname = some v →
          rowGet m f.fieldname = some v) ∧
      (∀ f ∈ settingsSchema.fields,
        rowGet [("companyName", FVal.vstr "Acme")] f.fieldname = none →
          rowGet m f.fieldname = svValue fixSvTable "Settings" f.fieldname)) :=
  ⟨⟨rfl, rfl, rfl, rfl, rfl, by decide, ⟨by decide, by decide⟩⟩,
    c8_singleton_round_trip fixMap fixDb "Settings" settingsSchema svSchema
      fixSvTable [("companyName", .vstr "Acme")] rfl rfl rfl rfl rfl
      (by decide) ⟨by decide, by decide⟩⟩

/-! ## Write-frame lemmas: each operation writes only its own table -/

theorem tget_counter (db : DB) (n : Nat) (tb : String) :
    tget { db with counter := n } tb = tget db tb := rfl

theorem insertOne_frame (smap : SchemaMap) (db : DB) (S : String)
    (c : FieldValueMap) (res : FieldValueMap × DB)
    (h : insertOne smap db S c = .ok res) :
    ∀ tb, tb ≠ S → tget res.2 tb = tget db tb := by
  intro tb htb
  unfold insertOne at h
  split at h
  · exact absurd h (by simp)
  · split at h
    · simp only [] at h
      cases htg : tget db S with
      | none =>
        simp only [htg] at h
        exact absurd h (by simp)
      | some t =>
        simp only [htg] at h
        split at h
        · exact absurd h (by simp)
        · rw [← (Except.ok.injEq _ _).mp h]
          show tget (tset _ S _) tb = tget db tb
          rw [tget_tset, if_neg (fun hh => htb hh.symm)]
    · simp only [] at h
      rw [tget_counter] at h
      cases htg : tget db S with
      | none =>
        simp only [htg] at h
        exact absurd h (by simp)
      | some t =>
        simp only [htg] at h
        split at h
        · exact absurd h (by simp)
        · rw [← (Except.ok.injEq _ _).mp h]
          show tget (tset _ S _) tb = tget db tb
          rw [tget_tset, if_neg (fun hh => htb hh.symm)]
          rfl

theorem updateOne_frame (smap : SchemaMap) (db : DB) (S : String)
    (c : FieldValueMap) (db' : DB)
    (h : updateOne smap db S c = .ok db') :
    ∀ tb, tb ≠ S → tget db' tb = tget db tb := by
  intro tb htb
  unfold updateOne at h
  split at h
  · exact absurd h (by simp)
  · simp only [] at h
    split at h
    · rw [← (Except.ok.injEq _ _).mp h]
    · cases htg : tget db S with
      | none =>
        simp only [htg] at h
        exact absurd h (by simp)
      | some t =>
        simp only [htg] at h
        rw [← (Except.ok.injEq _ _).mp h]
        show tget (tset db S _) tb = tget db tb
        rw [tget_tset, if_neg (fun hh => htb hh.symm)]

theorem deleteOthers_frame (f : Field) (pn : FVal) (added : List FVal)
    (db db' : DB) (h : runDeleteOtherChildren f pn added db = .ok db') :
    ∀ tb, tb ≠ f.target.getD "" → tget db' tb = tget db tb := by
  intro tb htb
  unfold runDeleteOtherChildren at h
  split at h
  · exact absurd h (by simp)
  · rw [← (Except.ok.injEq _ _).mp h]
    show tget (tset db (f.target.getD "") _) tb = tget db tb
    rw [tget_tset, if_neg (fun hh => htb hh.symm)]

theorem prepareChild_frame (S : String) (pn : FVal) (c : FieldValueMap)
    (f : Field) (idx : Nat) (db : DB) (tb : String) :
    tget (prepareChild S pn c f idx db).2 tb = tget db tb := by
  unfold prepareChild
  by_cases htr : truthyOpt (rowGet c "name") = true
  · rw [if_pos htr]
  · rw [if_neg htr]
    by_cases hnl : isNullish (rowGet c "name") = true
    · rw [if_pos hnl]
      rfl
    · rw [if_neg hnl]

theorem childLoop_frame (smap : SchemaMap) (S : String) (pn : FVal) (f : Field)
    (isU : Bool) (cs : List FieldValueMap) (added : List FVal) (db : DB)
    (res : List FVal × DB)
    (h : childLoop smap S pn f isU cs added db = .ok res) :
    ∀ tb, tb ≠ f.target.getD "" → tget res.2 tb = tget db tb := by
  induction cs generalizing added db with
  | nil =>
    intro tb htb
    unfold childLoop at h
    rw [← (Except.ok.injEq _ _).mp h]
  | cons c cs ih =>
    intro tb htb
    unfold childLoop at h
    simp only [] at h
    cases hex : existsRow smap (prepareChild S pn c f added.length db).2
        (f.target.getD "") (rowGet (prepareChild S pn c f added.length db).1 "name") with
    | error e =>
      simp only [hex] at h
      exact absurd h (by simp)
    | ok hit =>
      simp only [hex] at h
      cases hstep : (if isU && hit then
          match updateOne smap (prepareChild S pn c f added.length db).2
              (f.target.getD "") (prepareChild S pn c f added.length db).1 with
          | .error e => .error e
          | .ok d => .ok ((prepareChild S pn c f added.length db).1, d)
        else insertOne smap (prepareChild S pn c f added.length db).2
          (f.target.getD "") (prepareChild S pn c f added.length db).1) with
      | error e =>
        simp only [hstep] at h
        exact absurd h (by simp)
      | ok c2db2 =>
        obtain ⟨c2, db2⟩ := c2db2
        simp only [hstep] at h
        have hmid : tget db2 tb =
            tget (prepareChild S pn c f added.length db).2 tb := by
          by_cases hu : (isU && hit) = true
          · rw [if_pos hu] at hstep
            cases hup : updateOne smap (prepareChild S pn c f added.length db).2
                (f.target.getD "") (prepareChild S pn c f added.length db).1 with
            | error e =>
              rw [hup] at hstep
              exact absurd hstep (by simp)
            | ok d =>
              rw [hup] at hstep
              have hd : d = db2 :=
                congrArg Prod.snd ((Except.ok.injEq _ _).mp hstep)
              rw [← hd]
              exact updateOne_frame _ _ _ _ d hup tb htb
          · rw [if_neg hu] at hstep
            exact insertOne_frame _ _ _ _ (c2, db2) hstep tb htb
        rw [ih _ _ h tb htb, hmid, prepareChild_frame]

theorem tableFieldLoop_frame (smap : SchemaMap) (S : String) (pn : FVal)
    (fvm : FieldValueMap) (isU : Bool) (fs : List Field) (db db' : DB)
    (T : String)
    (hT : ∀ g ∈ fs, isNullish (rowGet fvm g.fieldname) = false →
      g.target.getD "" ≠ T)
    (h : tableFieldLoop smap S pn fvm isU fs db = .ok db') :
    tget db' T = tget db T := by
  induction fs generalizing db with
  | nil =>
    unfold tableFieldLoop at h
    rw [← (Except.ok.injEq _ _).mp h]
  | cons g gs ih =>
    unfold tableFieldLoop at h
    simp only [] at h
    by_cases hnl : isNullish (rowGet fvm g.fieldname) = true
    · rw [if_pos hnl] at h
      exact ih db (fun x hx => hT x (List.mem_cons_of_mem g hx)) h
    · rw [if_neg hnl] at h
      have hgT : T ≠ g.target.getD "" :=
        fun hh => hT g (List.mem_cons_self g gs) (Bool.of_not_eq_true hnl) hh.symm
      cases hv : rowGet fvm g.fieldname with
      | none =>
        simp only [hv] at h
        exact absurd h (by simp)
      | some v =>
        simp only [hv] at h
        cases v with
        | vlist cs =>
          cases hcl : childLoop smap S pn g isU cs [] db with
          | error e =>
            simp only [hcl] at h
            exact absurd h (by simp)
          | ok addeddb1 =>
            obtain ⟨added1, db1⟩ := addeddb1
            simp only [hcl] at h
            cases hdel : (if isU then
                runDeleteOtherChildren g pn added1 db1
              else .ok db1) with
            | error e =>
              simp only [hdel] at h
              exact absurd h (by simp)
            | ok db2 =>
              simp only [hdel] at h
              have h1 : tget db1 T = tget db T :=
                childLoop_frame smap S pn g isU cs [] db (added1, db1) hcl T hgT
              have h2 : tget db2 T = tget db1 T := by
                by_cases hu : isU = true
                · rw [if_pos hu] at hdel
                  exact deleteOthers_frame g pn added1 db1 db2 hdel T hgT
                · rw [if_neg hu] at hdel
                  rw [← (Except.ok.injEq _ _).mp hdel]
              rw [ih db2 (fun x hx => hT x (List.mem_cons_of_mem g hx)) h, h2, h1]
        | vnull =>
          simp only at h
          exact absurd h (by simp)
        | vstr s2 =>
          simp only at h
          exact absurd h (by simp)
        | vint n =>
          simp only at h
          exact absurd h (by simp)
        | vbool b =>
          simp only at h
          exact absurd h (by simp)

/-- C10 counterexample: updating document p1 of schema Shared with only
Table field f2 provided (f1 is absent from the map) nonetheless deletes
the existing f1 child row a of the shared target table: afterwards the
Child table holds exactly the single f2 child b. The delete issued per
provided Table field filters children only by parent, never by
parentFieldname, so it removes the other field's children too. -/
theorem c10_counterexample :
    rowGet [("name", FVal.vstr "p1"),
      ("f2", FVal.vlist [[("name", FVal.vstr "b")]])] "f1" = none ∧
    (update sharedMap sharedDb "Shared"
        [("name", FVal.vstr "p1"),
         ("f2", FVal.vlist [[("name", FVal.vstr "b")]])]).map
      (fun db => (tget db "Child").map (fun t => t.rows.map nameStrOf)) =
    Except.ok (some ["b"]) := ⟨rfl, rfl⟩

/-- C10 (amended): if every Table field of the schema whose value in the
map is non-nullish targets some table other than T (in particular, if
the map provides no Table field at all, or none whose target is T), and
T is not the parent table itself, then a successful update leaves table
T - and with it every stored child row - entirely unchanged. The
original per-field statement fails only when a second Table field
sharing the same target table is provided in the map. -/
theorem c10_child_frame (smap : SchemaMap) (db : DB) (P : String)
    (sc : Schema) (fvm : FieldValueMap) (db' : DB) (T : String)
    (hsc : lookupSchema smap P = some sc)
    (hsingle : sc.isSingle = false)
    (hT : ∀ g ∈ getTableFields sc,
      isNullish (rowGet fvm g.fieldname) = false → g.target.getD "" ≠ T)
    (hP : T ≠ P)
    (h : update smap db P fvm = .ok db') :
    tget db' T = tget db T := by
  unfold update at h
  simp only [hsc] at h
  rw [if_neg (by simp [hsingle])] at h
  cases hup : updateOne smap db P fvm with
  | error e =>
    simp only [hup] at h
    exact absurd h (by simp)
  | ok db1 =>
    simp only [hup] at h
    unfold insertOrUpdateChildren at h
    simp only [hsc] at h
    have h2 := tableFieldLoop_frame smap P (rowGetD fvm "name" .vnull) fvm
      true (getTableFields sc) db1 db' T hT h
    have h1 := updateOne_frame smap db P fvm db1 hup T hP
    rw [h2, h1]

/-- C10 witness: a concrete update of Parent p1 that touches only the
scalar field title (the Table field kids is absent from the map) leaves
the Child table of the fixture database unchanged. -/
theorem c10_witness :
    tget ((update fixMap fixDb "Parent"
        [("name", FVal.vstr "p1"), ("title", FVal.vstr "t2")]).toOption.getD
      fixDb) "Child" = tget fixDb "Child" := by
  have hup : update fixMap fixDb "Parent"
      [("name", FVal.vstr "p1"), ("title", FVal.vstr "t2")] =
      .ok ((update fixMap fixDb "Parent"
        [("name", FVal.vstr "p1"), ("title", FVal.vstr "t2")]).toOption.getD
      fixDb) := rfl
  exact c10_child_frame fixMap fixDb "Parent" parentSchema
    [("name", FVal.vstr "p1"), ("title", FVal.vstr "t2")] _ "Child" rfl rfl
    (by decide) (by decide) hup

/-- First-key lookup in the projection of a field-value map onto a list
of fields (the row written by `#insertOne`). -/
theorem rowGet_fieldProj (fvm : FieldValueMap) (fs : List Field) (k : String)
    (hk : k ∈ fs.map (fun f => f.fieldname)) :
    rowGet (fs.map (fun f => (f.fieldname, rowGetD fvm f.fieldname FVal.vnull))) k =
      some (rowGetD fvm k FVal.vnull) := by
  induction fs with
  | nil => cases hk
  | cons f fs ih =>
    simp only [List.map_cons]
    by_cases hf : f.fieldname = k
    · unfold rowGet
      rw [List.find?_cons_of_pos _ (by simp [hf])]
      simp [hf]
    · unfold rowGet
      rw [List.find?_cons_of_neg _ (by simp [hf])]
      have hk' : k ∈ fs.map (fun f => f.fieldname) := by
        simp only [List.map_cons] at hk
        rcases List.mem_cons.mp hk with h | h
        · exact absurd h.symm hf
        · exact h
      exact ih hk'

/-- First-key lookup in a SQL projection onto requested columns. -/
theorem rowGet_projectRow (flds : List String) (r : Row) (k : String)
    (hk : k ∈ flds) :
    rowGet (projectRow flds r) k = some (rowGetD r k FVal.vnull) := by
  induction flds with
  | nil => cases hk
  | cons f fs ih =>
    unfold projectRow
    simp only [List.map_cons]
    by_cases hf : f = k
    · unfold rowGet
      rw [List.find?_cons_of_pos _ (by simp [hf])]
      simp [hf]
    · unfold rowGet
      rw [List.find?_cons_of_neg _ (by simp [hf])]
      have hk' : k ∈ fs := by
        rcases List.mem_cons.mp hk with h | h
        · exact absurd h.symm hf
        · exact h
      exact ih hk'

/-- C4: insert followed by get round-trips. For a registered collection
schema with a truthy provided name, a successful insert stores the
projection of the map onto the schema's non-Table fields, returns the
input map unchanged, and a subsequent get of any non-Table columns
succeeds and reads back exactly the inserted value of every requested
schema field (absent map entries read back as NULL, the stored
default). -/
theorem c4_insert_get_round_trip (smap : SchemaMap) (db : DB) (S : String)
    (sc : Schema) (fvm fvm1 : FieldValueMap) (db2 : DB) (n : String)
    (hsc : lookupSchema smap S = some sc)
    (hsingle : sc.isSingle = false)
    (hn : rowGet fvm "name" = some (.vstr n))
    (hne : (n == "") = false)
    (hname : "name" ∈ (sc.fields.filter
      (fun g => !(g.fieldtype == FieldType.Table))).map (fun g => g.fieldname))
    (hT : ∀ g ∈ getTableFields sc,
      isNullish (rowGet fvm g.fieldname) = false → g.target.getD "" ≠ S)
    (hins : insert smap db S fvm = .ok (fvm1, db2)) :
    fvm1 = fvm ∧
    ∀ flds : List String,
      (∀ x ∈ flds, ∀ g ∈ getTableFields sc, g.fieldname ≠ x) →
      ∀ k ∈ flds,
        k ∈ (sc.fields.filter
          (fun g => !(g.fieldtype == FieldType.Table))).map (fun g => g.fieldname) →
        (get smap db2 S n (some flds)).map (fun m => rowGet m k) =
          Except.ok (some (rowGetD fvm k FVal.vnull)) := by
  unfold insert at hins
  simp only [hsc] at hins
  rw [if_neg (by simp [hsingle])] at hins
  cases hio : insertOne smap db S fvm with
  | error e =>
    simp only [hio] at hins
    exact absurd hins (by simp)
  | ok pr =>
    obtain ⟨fvm1a, db1⟩ := pr
    simp only [hio] at hins
    cases hch : insertOrUpdateChildren smap db1 S fvm1a false with
    | error e =>
      simp only [hch] at hins
      exact absurd hins (by simp)
    | ok db2a =>
      simp only [hch] at hins
      have hpr := (Except.ok.injEq _ _).mp hins
      have hfv : fvm1a = fvm1 := congrArg Prod.fst hpr
      have hdb : db2a = db2 := congrArg Prod.snd hpr
      have htr : truthyOpt (rowGet fvm "name") = true := by
        rw [hn]
        simp [truthyOpt, truthy, hne]
      unfold insertOne at hio
      simp only [hsc] at hio
      rw [if_pos htr] at hio
      simp only [] at hio
      cases htg : tget db S with
      | none =>
        simp only [htg] at hio
        exact absurd hio (by simp)
      | some t =>
        simp only [htg] at hio
        by_cases hdup : (t.rows.any (fun r =>
            sqlEqVal (rowGetD r "name" FVal.vnull)
              (rowGetD fvm "name" FVal.vnull))) = true
        · rw [if_pos hdup] at hio
          exact absurd hio (by simp)
        · rw [if_neg hdup] at hio
          have hpr2 := (Except.ok.injEq _ _).mp hio
          have hfv2 : fvm = fvm1a := congrArg Prod.fst hpr2
          have hdb1 : tset db S { t with rows := t.rows ++
              [(sc.fields.filter (fun f => !(f.fieldtype == FieldType.Table))).map
                (fun f => (f.fieldname, rowGetD fvm f.fieldname FVal.vnull))] } =
              db1 := congrArg Prod.snd hpr2
          unfold insertOrUpdateChildren at hch
          simp only [hsc] at hch
          rw [← hfv2] at hch
          have hframe : tget db2a S = tget db1 S :=
            tableFieldLoop_frame smap S (rowGetD fvm "name" FVal.vnull) fvm false
              (getTableFields sc) db1 db2a S hT hch
          have htS : tget db2 S = some { t with rows := t.rows ++
              [(sc.fields.filter (fun f => !(f.fieldtype == FieldType.Table))).map
                (fun f => (f.fieldname, rowGetD fvm f.fieldname FVal.vnull))] } := by
            rw [← hdb, hframe, ← hdb1, tget_tset, if_pos rfl]
          have hnd : rowGetD fvm "name" FVal.vnull = .vstr n := by
            unfold rowGetD
            rw [hn]
            rfl
          have hvmname : rowGet ((sc.fields.filter
              (fun f => !(f.fieldtype == FieldType.Table))).map
              (fun f => (f.fieldname, rowGetD fvm f.fieldname FVal.vnull))) "name" =
              some (.vstr n) := by
            rw [rowGet_fieldProj fvm _ "name" hname, hnd]
          have hvmnd : rowGetD ((sc.fields.filter
              (fun f => !(f.fieldtype == FieldType.Table))).map
              (fun f => (f.fieldname, rowGetD fvm f.fieldname FVal.vnull))) "name"
              FVal.vnull = .vstr n := by
            show (rowGet ((sc.fields.filter
              (fun f => !(f.fieldtype == FieldType.Table))).map
              (fun f => (f.fieldname, rowGetD fvm f.fieldname FVal.vnull))) "name").getD
              FVal.vnull = FVal.vstr n
            rw [hvmname]
            rfl
          have hnotany : (t.rows.any (fun r =>
              sqlEqVal (rowGetD r "name" FVal.vnull) (FVal.vstr n))) = false := by
            rw [← hnd]
            exact Bool.eq_false_iff.mpr hdup
          have hfind : (t.rows ++ [(sc.fields.filter
              (fun f => !(f.fieldtype == FieldType.Table))).map
              (fun f => (f.fieldname, rowGetD fvm f.fieldname FVal.vnull))]).find?
              (fun r => sqlEqVal (rowGetD r "name" FVal.vnull) (FVal.vstr n)) =
              some ((sc.fields.filter
                (fun f => !(f.fieldtype == FieldType.Table))).map
                (fun f => (f.fieldname, rowGetD fvm f.fieldname FVal.vnull))) := by
            rw [List.find?_append]
            have h1 : t.rows.find? (fun r =>
                sqlEqVal (rowGetD r "name" FVal.vnull) (FVal.vstr n)) = none := by
              rw [List.find?_eq_none]
              intro x hx hpx
              exact absurd (show (t.rows.any fun r =>
                  sqlEqVal (rowGetD r "name" FVal.vnull) (FVal.vstr n)) = true from
                List.any_eq_true.mpr ⟨x, hx, hpx⟩) (by simp [hnotany])
            rw [h1, Option.none_or]
            rw [List.find?_cons_of_pos _ (by rw [hvmnd]; simp [sqlEqVal])]
          constructor
          · exact (hfv2.trans hfv).symm
          · intro flds hflds k hk hkname
            have hntn : flds.filter (fun x =>
                !(((getTableFields sc).map (fun f => f.fieldname)).contains x)) =
                flds := by
              refine List.filter_eq_self.mpr ?_
              intro x hx
              cases hc : ((getTableFields sc).map (fun f => f.fieldname)).contains x
              · rfl
              · exfalso
                rcases List.mem_map.mp (List.mem_of_elem_eq_true hc) with ⟨g, hg, hgx⟩
                exact hflds x hx g hg hgx
            have hisE : flds.isEmpty = false := by
              cases flds with
              | nil => cases hk
              | cons a l => rfl
            have htfs : (getTableFields sc).filter
                (fun f => flds.contains f.fieldname) = [] := by
              refine List.filter_eq_nil_iff.mpr ?_
              intro g hg hcont
              exact hflds g.fieldname (List.mem_of_elem_eq_true hcont) g hg rfl
            have hgetOne : getOne db2 S n flds = .ok (some (projectRow flds
                ((sc.fields.filter (fun f => !(f.fieldtype == FieldType.Table))).map
                  (fun f => (f.fieldname, rowGetD fvm f.fieldname FVal.vnull))))) := by
              unfold getOne
              simp only [htS]
              rw [hfind]
              rfl
            have hvmk : rowGetD ((sc.fields.filter
                (fun f => !(f.fieldtype == FieldType.Table))).map
                (fun f => (f.fieldname, rowGetD fvm f.fieldname FVal.vnull))) k
                FVal.vnull = rowGetD fvm k FVal.vnull := by
              show (rowGet ((sc.fields.filter
                (fun f => !(f.fieldtype == FieldType.Table))).map
                (fun f => (f.fieldname, rowGetD fvm f.fieldname FVal.vnull))) k).getD
                FVal.vnull = rowGetD fvm k FVal.vnull
              rw [rowGet_fieldProj fvm _ k hkname]
              rfl
            unfold get
            simp only [hsc, Option.getD_some]
            rw [if_neg (by simp [hsingle, hne])]
            rw [if_neg (by simp [hsingle])]
            rw [hntn, htfs]
            rw [if_neg (by simp [hisE])]
            simp only [hgetOne, Option.getD_some]
            rw [if_pos (show (List.isEmpty ([] : List Field)) = true from rfl)]
            simp only [Except.map]
            rw [rowGet_projectRow flds _ k hk, hvmk]

/-- C4 witness: inserting Item i9 into the fixture database and reading
the status column back through get returns the inserted value. -/
theorem c4_witness :
    (insert fixMap fixDb "Item"
        [("name", FVal.vstr "i9"), ("status", FVal.vstr "New")]).map
      (fun pr => (get fixMap pr.2 "Item" "i9" (some ["status"])).map
        (fun m => rowGet m "status")) =
    Except.ok (Except.ok (some (FVal.vstr "New"))) := by
  have hins : insert fixMap fixDb "Item"
      [("name", FVal.vstr "i9"), ("status", FVal.vstr "New")] =
      .ok ((insert fixMap fixDb "Item"
        [("name", FVal.vstr "i9"), ("status", FVal.vstr "New")]).toOption.getD
        ([], fixDb)) := rfl
  have hmain := c4_insert_get_round_trip fixMap fixDb "Item" itemSchema
    [("name", FVal.vstr "i9"), ("status", FVal.vstr "New")]
    ((insert fixMap fixDb "Item"
      [("name", FVal.vstr "i9"), ("status", FVal.vstr "New")]).toOption.getD
      ([], fixDb)).1
    ((insert fixMap fixDb "Item"
      [("name", FVal.vstr "i9"), ("status", FVal.vstr "New")]).toOption.getD
      ([], fixDb)).2 "i9"
    rfl rfl rfl rfl (by decide) (by decide) hins
  rw [hins]
  exact congrArg Except.ok
    (hmain.2 ["status"] (by decide) "status" (by decide) (by decide))

/-! ## Assoc-list lemmas for the child reconciliation proof -/

theorem getD_eq_get_of_lt (l : List α) (d : α) (j : Nat) (h : j < l.length) :
    l.getD j d = l.get ⟨j, h⟩ := by
  unfold List.getD
  rw [List.get?_eq_getElem?, List.getElem?_eq_getElem h]
  rfl

theorem rowGet_eq_none_iff (r : Row) (k : String) :
    rowGet r k = none ↔ ∀ p ∈ r, (p.1 == k) = false := by
  constructor
  · intro h p hp
    unfold rowGet at h
    rcases hf : r.find? (fun p => p.1 == k) with _ | q
    · have := List.find?_eq_none.mp hf p hp
      simpa using this
    · rw [hf] at h
      cases h
  · intro h
    unfold rowGet
    rw [List.find?_eq_none.mpr (fun p hp => by simp [h p hp])]
    rfl

theorem rowGet_mem (r : Row) (k : String) (v : FVal)
    (h : rowGet r k = some v) : (k, v) ∈ r := by
  unfold rowGet at h
  rcases hf : r.find? (fun p => p.1 == k) with _ | q
  · rw [hf] at h
    cases h
  · rw [hf] at h
    have hq := List.find?_some hf
    have hmem := List.mem_of_find?_eq_some hf
    have hk : q.1 = k := by simpa using hq
    have hv : q.2 = v := by
      cases h
      rfl
    have : q = (k, v) := Prod.ext hk hv
    rw [← this]
    exact hmem

theorem mem_keys_setEntry (r : Row) (k : String) (v : FVal) (x : String)
    (h : x ∈ (setEntry r k v).map Prod.fst) : x ∈ r.map Prod.fst ∨ x = k := by
  induction r with
  | nil =>
    simp [setEntry] at h
    exact Or.inr h
  | cons p rest ih =>
    unfold setEntry at h
    by_cases hp : (p.1 == k) = true
    · rw [if_pos hp] at h
      simp only [List.map_cons] at h
      rcases List.mem_cons.mp h with h1 | h1
      · exact Or.inr h1
      · exact Or.inl (List.mem_cons_of_mem _ h1)
    · rw [if_neg hp] at h
      simp only [List.map_cons] at h
      rcases List.mem_cons.mp h with h1 | h1
      · exact Or.inl (h1 ▸ List.mem_cons_self _ _)
      · rcases ih h1 with h2 | h2
        · exact Or.inl (List.mem_cons_of_mem _ h2)
        · exact Or.inr h2

theorem nodup_keys_setEntry (r : Row) (k : String) (v : FVal)
    (h : (r.map Prod.fst).Nodup) : ((setEntry r k v).map Prod.fst).Nodup := by
  induction r with
  | nil => simp [setEntry]
  | cons p rest ih =>
    simp only [List.map_cons, List.nodup_cons] at h
    unfold setEntry
    by_cases hp : (p.1 == k) = true
    · rw [if_pos hp]
      simp only [List.map_cons, List.nodup_cons]
      have hk : p.1 = k := by simpa using hp
      exact ⟨hk ▸ h.1, h.2⟩
    · rw [if_neg hp]
      simp only [List.map_cons, List.nodup_cons]
      refine ⟨?_, ih h.2⟩
      intro hc
      rcases mem_keys_setEntry rest k v p.1 hc with h1 | h1
      · exact h.1 h1
      · exact hp (by simp [h1])

theorem rowGet_filter_key (r : Row) (pred : String → Bool) (k : String) :
    rowGet (r.filter (fun p => pred p.1)) k =
      if pred k then rowGet r k else none := by
  induction r with
  | nil => simp [rowGet]
  | cons p rest ih =>
    by_cases hp : (p.1 == k) = true
    · have hk : p.1 = k := by simpa using hp
      by_cases hpk : pred k = true
      · rw [if_pos hpk]
        rw [List.filter_cons, if_pos (by rw [hk]; exact hpk)]
        unfold rowGet
        simp only [List.find?, hp]
      · rw [if_neg hpk]
        rw [List.filter_cons, if_neg (by rw [hk]; simp [hpk])]
        rw [ih, if_neg hpk]
    · have hpf : (p.1 == k) = false := by simpa using hp
      rw [List.filter_cons]
      by_cases hppred : pred p.1 = true
      · rw [if_pos hppred]
        unfold rowGet
        simp only [List.find?, hpf]
        exact ih
      · rw [if_neg (by simp [hppred])]
        rw [ih]
        by_cases hpk : pred k = true
        · rw [if_pos hpk, if_pos hpk]
          unfold rowGet
          simp only [List.find?, hpf]
        · rw [if_neg hpk, if_neg hpk]

theorem rowGet_rowMerge_nodup (u : Row) (r : Row) (k : String)
    (hu : (u.map Prod.fst).Nodup) :
    rowGet (rowMerge r u) k =
      match rowGet u k with
      | some v => some v
      | none => rowGet r k := by
  induction u generalizing r with
  | nil => rfl
  | cons e u2 ih =>
    simp only [List.map_cons, List.nodup_cons] at hu
    show rowGet (rowMerge (setEntry r e.1 e.2) u2) k = _
    rw [ih _ hu.2]
    by_cases hk : (e.1 == k) = true
    · have hk' : e.1 = k := by simpa using hk
      have hu2 : rowGet u2 k = none := by
        rw [rowGet_eq_none_iff]
        intro p hp
        by_cases hc : (p.1 == k) = true
        · exfalso
          apply hu.1
          rw [hk']
          have hck : p.1 = k := by simpa using hc
          rw [← hck]
          exact List.mem_map_of_mem Prod.fst hp
        · simpa using hc
      rw [hu2]
      have hget : rowGet (e :: u2) k = some e.2 := by
        unfold rowGet
        simp only [List.find?, hk]
        rfl
      rw [hget]
      rw [rowGet_setEntry, if_pos hk']
    · have hkf : (e.1 == k) = false := by simpa using hk
      have hget : rowGet (e :: u2) k = rowGet u2 k := by
        unfold rowGet
        simp only [List.find?, hkf]
      rw [hget, rowGet_setEntry, if_neg (by simpa using hk)]

theorem prepareChild_truthy (S : String) (pn : FVal) (c : FieldValueMap)
    (tf : Field) (i : Nat) (db : DB)
    (htr : truthyOpt (rowGet c "name") = true)
    (hidx : isNullish (rowGet c "idx") = true) :
    prepareChild S pn c tf i db = (stampChild S pn tf i c, db) := by
  unfold prepareChild
  rw [if_pos htr]
  have h3 : rowGet (setEntry (setEntry (setEntry c "parent" pn)
      "parentSchemaName" (.vstr S)) "parentFieldname" (.vstr tf.fieldname))
      "idx" = rowGet c "idx" := by
    rw [rowGet_setEntry, rowGet_setEntry, rowGet_setEntry]
    simp
  simp only []
  rw [h3, if_pos hidx]
  rfl

theorem stampChild_name (S : String) (pn : FVal) (tf : Field) (i : Nat)
    (c : FieldValueMap) :
    rowGet (stampChild S pn tf i c) "name" = rowGet c "name" := by
  unfold stampChild
  rw [rowGet_setEntry, rowGet_setEntry, rowGet_setEntry, rowGet_setEntry]
  simp

theorem stampChild_parent (S : String) (pn : FVal) (tf : Field) (i : Nat)
    (c : FieldValueMap) :
    rowGet (stampChild S pn tf i c) "parent" = some pn := by
  unfold stampChild
  rw [rowGet_setEntry, rowGet_setEntry, rowGet_setEntry, rowGet_setEntry]
  simp

theorem stampChild_idx (S : String) (pn : FVal) (tf : Field) (i : Nat)
    (c : FieldValueMap) :
    rowGet (stampChild S pn tf i c) "idx" = some (.vint i) := by
  unfold stampChild
  rw [rowGet_setEntry]
  simp

theorem stampChild_keys (S : String) (pn : FVal) (tf : Field) (i : Nat)
    (c : FieldValueMap) (h : (c.map Prod.fst).Nodup) :
    ((stampChild S pn tf i c).map Prod.fst).Nodup := by
  unfold stampChild
  exact nodup_keys_setEntry _ _ _ (nodup_keys_setEntry _ _ _
    (nodup_keys_setEntry _ _ _ (nodup_keys_setEntry _ _ _ h)))

theorem rowPasses_lit (k : String) (v : FVal) (r : Row) :
    rowPasses [(k, QFilterVal.lit v)] r =
      sqlEqVal (rowGetD r k .vnull) v := by
  show (sqlEqVal (rowGetD r k .vnull) v && true) = _
  rw [Bool.and_true]

theorem getAll_children_eval (smap : SchemaMap) (db : DB) (T : String)
    (tsc : Schema) (t : Table) (pnv : FVal)
    (hsct : lookupSchema smap T = some tsc)
    (ht : tget db T = some t) :
    getAll smap db T
      { fields := ["*"], filters := [("parent", .lit pnv)],
        orderBy := some "idx", order := "asc" } =
      .ok (insSortBy (rowLe "idx" "asc")
        (t.rows.filter (fun r => sqlEqVal (rowGetD r "parent" .vnull) pnv))) := by
  unfold getAll
  simp only [hsct, ht]
  show Except.ok (insSortBy (rowLe "idx" "asc")
      (t.rows.filter (rowPasses [("parent", QFilterVal.lit pnv)]))) = _
  rw [show t.rows.filter (rowPasses [("parent", QFilterVal.lit pnv)]) =
    t.rows.filter (fun r => sqlEqVal (rowGetD r "parent" .vnull) pnv) from
      List.filter_congr (fun r _ => rowPasses_lit "parent" pnv r)]

theorem rowGet_updateMap (cm : Row) (tsc : Schema) (k : String) :
    rowGet ((rowDrop cm "name").filter
      (fun p => !((getTableFieldNames tsc).contains p.1))) k =
      if ((getTableFieldNames tsc).contains k) = false ∧ (k == "name") = false
      then rowGet cm k else none := by
  have h1 := rowGet_filter_key (rowDrop cm "name")
    (fun x => !((getTableFieldNames tsc).contains x)) k
  have h2 := rowGet_filter_key cm (fun x => !(x == "name")) k
  rw [show ((rowDrop cm "name").filter
      (fun p => !((getTableFieldNames tsc).contains p.1))) =
      ((rowDrop cm "name").filter
        (fun p => (fun x => !((getTableFieldNames tsc).contains x)) p.1)) from rfl]
  rw [h1]
  rw [show rowDrop cm "name" =
      cm.filter (fun p => (fun x => !(x == "name")) p.1) from rfl]
  rw [h2]
  by_cases hc : ((getTableFieldNames tsc).contains k) = false
  · by_cases hn : (k == "name") = false
    · rw [if_pos (by simpa using hc), if_pos (by simp [hn]), if_pos ⟨hc, hn⟩]
    · rw [if_pos (by simpa using hc), if_neg (by simp at hn; simp [hn]),
        if_neg (fun hh => hn hh.2)]
  · rw [if_neg (by simp at hc; simp [hc]), if_neg (fun hh => hc hh.1)]

theorem insertOne_child_spec (smap : SchemaMap) (db : DB) (T : String)
    (tsc : Schema) (t : Table) (cm : FieldValueMap) (m : String)
    (hsct : lookupSchema smap T = some tsc)
    (ht : tget db T = some t)
    (hcn : rowGet cm "name" = some (.vstr m))
    (hm : (m == "") = false)
    (hnohit : ∀ r ∈ t.rows,
      sqlEqVal (rowGetD r "name" FVal.vnull) (.vstr m) = false) :
    insertOne smap db T cm = .ok (cm, tset db T { t with rows := t.rows ++
      [(tsc.fields.filter (fun g => !(g.fieldtype == FieldType.Table))).map
        (fun g => (g.fieldname, rowGetD cm g.fieldname FVal.vnull))] }) := by
  have htr : truthyOpt (rowGet cm "name") = true := by
    rw [hcn]
    simp [truthyOpt, truthy, hm]
  have hnd : rowGetD cm "name" FVal.vnull = FVal.vstr m := by
    unfold rowGetD
    rw [hcn]
    rfl
  unfold insertOne
  simp only [hsct]
  rw [if_pos htr]
  simp only [ht]
  have hanyf : (t.rows.any (fun r => sqlEqVal (rowGetD r "name" FVal.vnull)
      (rowGetD cm "name" FVal.vnull))) = false := by
    rw [hnd]
    exact List.any_eq_false.mpr (fun r hr => by simp [hnohit r hr])
  rw [if_neg (by simp [hanyf])]

theorem updateOne_child_spec (smap : SchemaMap) (db : DB) (T : String)
    (tsc : Schema) (t : Table) (cm : FieldValueMap) (m : String) (pv : FVal)
    (hsct : lookupSchema smap T = some tsc)
    (ht : tget db T = some t)
    (hcn : rowGet cm "name" = some (.vstr m))
    (hpar : rowGet cm "parent" = some pv)
    (hpnt : ((getTableFieldNames tsc).contains "parent") = false) :
    updateOne smap db T cm = .ok (tset db T
      { t with
        rows := t.rows.map (fun r =>
          if sqlEqVal (rowGetD r "name" FVal.vnull) (.vstr m) then
            rowMerge r ((rowDrop cm "name").filter
              (fun p => !((getTableFieldNames tsc).contains p.1)))
          else r) }) := by
  have hnd : rowGetD cm "name" FVal.vnull = FVal.vstr m := by
    unfold rowGetD
    rw [hcn]
    rfl
  have hmem1 : ("parent", pv) ∈ cm := rowGet_mem _ _ _ hpar
  have hmem2 : ("parent", pv) ∈ rowDrop cm "name" :=
    List.mem_filter.mpr ⟨hmem1, by simp⟩
  have hmem3 : ("parent", pv) ∈ (rowDrop cm "name").filter
      (fun p => !((getTableFieldNames tsc).contains p.1)) :=
    List.mem_filter.mpr ⟨hmem2, by simpa using hpnt⟩
  have hne : ((rowDrop cm "name").filter
      (fun p => !((getTableFieldNames tsc).contains p.1))).isEmpty = false := by
    cases hl : (rowDrop cm "name").filter
        (fun p => !((getTableFieldNames tsc).contains p.1)) with
    | nil =>
      rw [hl] at hmem3
      cases hmem3
    | cons a l => rfl
  unfold updateOne
  simp only [hsct]
  rw [if_neg (by rw [hne]; simp)]
  simp only [ht]
  rw [hnd]

theorem existsRow_by_name (smap : SchemaMap) (db : DB) (T : String)
    (tsc : Schema) (t : Table) (m : String)
    (hsct : lookupSchema smap T = some tsc)
    (htsingle : tsc.isSingle = false)
    (ht : tget db T = some t) :
    existsRow smap db T (some (.vstr m)) =
      .ok (!(t.rows.filter (fun r =>
        sqlEqVal (rowGetD r "name" FVal.vnull) (.vstr m))).isEmpty) := by
  unfold existsRow
  simp only [hsct]
  rw [if_neg (by simp [htsingle])]
  simp only [ht]

theorem childLoop_reconcile (smap : SchemaMap) (P : String) (pn : FVal)
    (tf : Field) (T : String) (tsc : Schema)
    (htgt : tf.target = some T)
    (hsct : lookupSchema smap T = some tsc)
    (htsingle : tsc.isSingle = false)
    (hTname : "name" ∈ (tsc.fields.filter
      (fun g => !(g.fieldtype == FieldType.Table))).map (fun g => g.fieldname))
    (hTparent : "parent" ∈ (tsc.fields.filter
      (fun g => !(g.fieldtype == FieldType.Table))).map (fun g => g.fieldname))
    (hTidx : "idx" ∈ (tsc.fields.filter
      (fun g => !(g.fieldtype == FieldType.Table))).map (fun g => g.fieldname))
    (hpnt : ((getTableFieldNames tsc).contains "parent") = false)
    (hidxt : ((getTableFieldNames tsc).contains "idx") = false)
    (cs : List FieldValueMap) (added : List FVal) (db : DB) (t : Table)
    (res : List FVal × DB)
    (hcs : ∀ c ∈ cs, isStrName (rowGet c "name") = true ∧
      truthyOpt (rowGet c "name") = true ∧
      isNullish (rowGet c "idx") = true ∧ (c.map Prod.fst).Nodup)
    (hcsnd : (cs.map (fun c => rowGetD c "name" FVal.vnull)).Nodup)
    (ht : tget db T = some t)
    (hstr : ∀ r ∈ t.rows, isStrName (rowGet r "name") = true)
    (hnames : (t.rows.map (fun r => rowGetD r "name" FVal.vnull)).Nodup)
    (h : childLoop smap P pn tf true cs added db = .ok res) :
    ∃ t', tget res.2 T = some t' ∧
      res.1 = added ++ cs.map (fun c => rowGetD c "name" FVal.vnull) ∧
      ((t'.rows.map (fun r => rowGetD r "name" FVal.vnull)).Nodup) ∧
      (∀ r ∈ t'.rows, isStrName (rowGet r "name") = true) ∧
      (∀ j, (hj : j < cs.length) → ∃ r, r ∈ t'.rows ∧
        rowGetD r "name" FVal.vnull =
          rowGetD (cs.get ⟨j, hj⟩) "name" FVal.vnull ∧
        rowGetD r "parent" FVal.vnull = pn ∧
        rowGetD r "idx" FVal.vnull = .vint (added.length + j)) ∧
      (∀ r ∈ t.rows,
        (rowGetD r "name" FVal.vnull ∉
          cs.map (fun c => rowGetD c "name" FVal.vnull)) → r ∈ t'.rows) := by
  induction cs generalizing added db t res with
  | nil =>
    unfold childLoop at h
    have hres : (added, db) = res := (Except.ok.injEq _ _).mp h
    refine ⟨t, ?_, ?_, hnames, hstr, ?_, ?_⟩
    · rw [← hres]
      exact ht
    · rw [← hres]
      simp
    · intro j hj
      cases hj
    · intro r hr _
      exact hr
  | cons c cs ih =>
    obtain ⟨hstrc, htrc, hnidx, hkeys⟩ := hcs c (List.mem_cons_self c cs)
    obtain ⟨m, hgn⟩ : ∃ m, rowGet c "name" = some (.vstr m) := by
      rcases hc : rowGet c "name" with _ | v
      · rw [hc] at hstrc
        cases hstrc
      · cases v with
        | vstr s => exact ⟨s, rfl⟩
        | vnull => rw [hc] at hstrc; cases hstrc
        | vint i => rw [hc] at hstrc; cases hstrc
        | vbool b => rw [hc] at hstrc; cases hstrc
        | vlist l => rw [hc] at hstrc; cases hstrc
    have hm : (m == "") = false := by
      rw [hgn] at htrc
      simpa [truthyOpt, truthy] using htrc
    have hcmn : rowGet (stampChild P pn tf added.length c) "name" =
        some (.vstr m) := by
      rw [stampChild_name, hgn]
    have hcmnd : rowGetD (stampChild P pn tf added.length c) "name"
        FVal.vnull = .vstr m := by
      unfold rowGetD
      rw [hcmn]
      rfl
    have hcnd : rowGetD c "name" FVal.vnull = .vstr m := by
      unfold rowGetD
      rw [hgn]
      rfl
    have hcmp : rowGet (stampChild P pn tf added.length c) "parent" =
        some pn := stampChild_parent _ _ _ _ _
    have hcmi : rowGet (stampChild P pn tf added.length c) "idx" =
        some (.vint added.length) := stampChild_idx _ _ _ _ _
    rw [List.map_cons] at hcsnd
    have hmtail : FVal.vstr m ∉
        cs.map (fun c => rowGetD c "name" FVal.vnull) := by
      have h2 := (List.nodup_cons.mp hcsnd).1
      rw [hcnd] at h2
      exact h2
    unfold childLoop at h
    simp only [] at h
    rw [prepareChild_truthy P pn c tf added.length db htrc hnidx] at h
    simp only [htgt, Option.getD_some] at h
    rw [stampChild_name P pn tf added.length c] at h
    rw [hgn] at h
    rw [existsRow_by_name smap db T tsc t m hsct htsingle ht] at h
    simp only [] at h
    by_cases hhit : (t.rows.filter (fun r =>
        sqlEqVal (rowGetD r "name" FVal.vnull) (FVal.vstr m))).isEmpty = true
    · -- no existing row: insert path
      have hnohit : ∀ r ∈ t.rows,
          sqlEqVal (rowGetD r "name" FVal.vnull) (.vstr m) = false := by
        intro r hr
        have hnil := List.isEmpty_iff.mp hhit
        have := List.filter_eq_nil_iff.mp hnil r hr
        simpa using this
      simp only [hhit, Bool.not_true, Bool.and_false] at h
      rw [if_neg (by simp)] at h
      rw [insertOne_child_spec smap db T tsc t
        (stampChild P pn tf added.length c) m hsct ht hcmn hm hnohit] at h
      simp only [] at h
      rw [hcmnd] at h
      set nr : Row := (tsc.fields.filter
        (fun g => !(g.fieldtype == FieldType.Table))).map
        (fun g => (g.fieldname, rowGetD (stampChild P pn tf added.length c)
          g.fieldname FVal.vnull)) with hnr
      set t1 : Table := { t with rows := t.rows ++ [nr] } with hdt1
      have ht1 : tget (tset db T t1) T = some t1 := by
        rw [tget_tset, if_pos rfl]
      have hnewname : rowGet nr "name" = some (.vstr m) := by
        rw [hnr, rowGet_fieldProj _ _ _ hTname, hcmnd]
      have hnewnd : rowGetD nr "name" FVal.vnull = .vstr m := by
        show (rowGet nr "name").getD FVal.vnull = FVal.vstr m
        rw [hnewname]
        rfl
      have hnewpar : rowGetD nr "parent" FVal.vnull = pn := by
        show (rowGet nr "parent").getD FVal.vnull = pn
        rw [hnr, rowGet_fieldProj _ _ _ hTparent]
        show rowGetD (stampChild P pn tf added.length c) "parent" FVal.vnull = pn
        show (rowGet (stampChild P pn tf added.length c) "parent").getD
          FVal.vnull = pn
        rw [hcmp]
        rfl
      have hnewidx : rowGetD nr "idx" FVal.vnull = .vint added.length := by
        show (rowGet nr "idx").getD FVal.vnull = FVal.vint added.length
        rw [hnr, rowGet_fieldProj _ _ _ hTidx]
        show rowGetD (stampChild P pn tf added.length c) "idx" FVal.vnull =
          FVal.vint added.length
        show (rowGet (stampChild P pn tf added.length c) "idx").getD
          FVal.vnull = FVal.vint added.length
        rw [hcmi]
        rfl
      have hstr1 : ∀ r ∈ t1.rows, isStrName (rowGet r "name") = true := by
        intro r hr
        rcases List.mem_append.mp hr with h1 | h1
        · exact hstr r h1
        · rcases List.mem_singleton.mp h1 with rfl
          rw [hnewname]
          rfl
      have hnames1 : (t1.rows.map
          (fun r => rowGetD r "name" FVal.vnull)).Nodup := by
        show ((t.rows ++ [nr]).map (fun r => rowGetD r "name" FVal.vnull)).Nodup
        rw [List.map_append]
        refine List.Nodup.append hnames (by simp) ?_
        intro x hx hy
        simp only [List.map_cons, List.map_nil] at hy
        rcases List.mem_singleton.mp hy with rfl
        rw [hnewnd] at hx
        rcases List.mem_map.mp hx with ⟨r, hr, hrx⟩
        have hcon := hnohit r hr
        rw [hrx] at hcon
        simp [sqlEqVal] at hcon
      obtain ⟨t', htg', hres1, hnd', hstr', hprof', hpres'⟩ :=
        ih (added ++ [FVal.vstr m]) (tset db T t1) t1 res
          (fun c2 hc2 => hcs c2 (List.mem_cons_of_mem _ hc2))
          (List.nodup_cons.mp hcsnd).2 ht1 hstr1 hnames1 h
      refine ⟨t', htg', ?_, hnd', hstr', ?_, ?_⟩
      · rw [hres1, List.map_cons, hcnd]
        simp
      · intro j hj
        cases j with
        | zero =>
          have hmemnr : nr ∈ t1.rows :=
            List.mem_append.mpr (Or.inr (List.mem_singleton.mpr rfl))
          have hsurv := hpres' nr hmemnr (by rw [hnewnd]; exact hmtail)
          refine ⟨nr, hsurv, ?_, hnewpar, ?_⟩
          · rw [hnewnd]
            exact hcnd.symm
          · rw [hnewidx]
            norm_num
        | succ j =>
          obtain ⟨r, hrmem, hrn, hrp, hri⟩ := hprof' j (by
            have := hj
            simp only [List.length_cons] at this
            omega)
          refine ⟨r, hrmem, hrn, hrp, ?_⟩
          rw [hri]
          congr 1
          simp only [List.length_append, List.length_cons, List.length_nil]
          omega
      · intro r hr hnot
        refine hpres' r (List.mem_append.mpr (Or.inl hr)) ?_
        intro hmem
        apply hnot
        rw [List.map_cons]
        exact List.mem_cons_of_mem _ hmem
    · -- an existing row carries the name: update path
      have hhitf : (t.rows.filter (fun r =>
          sqlEqVal (rowGetD r "name" FVal.vnull)
            (FVal.vstr m))).isEmpty = false := Bool.eq_false_iff.mpr hhit
      simp only [hhitf, Bool.not_false, Bool.and_true] at h
      rw [if_pos trivial] at h
      rw [updateOne_child_spec smap db T tsc t
        (stampChild P pn tf added.length c) m pn hsct ht hcmn hcmp hpnt] at h
      simp only [] at h
      rw [hcmnd] at h
      set u : Row := (rowDrop (stampChild P pn tf added.length c) "name").filter
        (fun p => !((getTableFieldNames tsc).contains p.1)) with hu
      set t1 : Table := { t with rows := t.rows.map (fun r =>
        if sqlEqVal (rowGetD r "name" FVal.vnull) (FVal.vstr m) then
          rowMerge r u
        else r) } with hdt1
      have humnd : (u.map Prod.fst).Nodup := by
        rw [hu]
        exact (((List.filter_sublist _).trans (List.filter_sublist _)).map
          Prod.fst).nodup (stampChild_keys P pn tf added.length c hkeys)
      have humname : rowGet u "name" = none := by
        rw [hu, rowGet_updateMap, if_neg (fun hh => by simpa using hh.2)]
      have humpar : rowGet u "parent" = some pn := by
        rw [hu, rowGet_updateMap, if_pos ⟨hpnt, by decide⟩]
        exact hcmp
      have humidx : rowGet u "idx" = some (.vint added.length) := by
        rw [hu, rowGet_updateMap, if_pos ⟨hidxt, by decide⟩]
        exact hcmi
      have hupdname : ∀ r : Row, rowGet (if sqlEqVal
          (rowGetD r "name" FVal.vnull) (FVal.vstr m) then rowMerge r u
          else r) "name" = rowGet r "name" := by
        intro r
        by_cases hr : sqlEqVal (rowGetD r "name" FVal.vnull)
            (FVal.vstr m) = true
        · rw [if_pos hr, rowGet_rowMerge_nodup _ _ _ humnd, humname]
        · rw [if_neg hr]
      have hupdnd : ∀ r : Row, rowGetD (if sqlEqVal
          (rowGetD r "name" FVal.vnull) (FVal.vstr m) then rowMerge r u
          else r) "name" FVal.vnull = rowGetD r "name" FVal.vnull := by
        intro r
        show (rowGet _ "name").getD FVal.vnull = (rowGet r "name").getD FVal.vnull
        rw [hupdname r]
      have hnames1 : (t1.rows.map
          (fun r => rowGetD r "name" FVal.vnull)).Nodup := by
        show ((t.rows.map _).map (fun r => rowGetD r "name" FVal.vnull)).Nodup
        rw [List.map_map]
        have hcongr : t.rows.map ((fun r => rowGetD r "name" FVal.vnull) ∘
            (fun r => if sqlEqVal (rowGetD r "name" FVal.vnull)
              (FVal.vstr m) then rowMerge r u else r)) =
            t.rows.map (fun r => rowGetD r "name" FVal.vnull) :=
          List.map_congr_left (fun r _ => hupdnd r)
        rw [hcongr]
        exact hnames
      have hstr1 : ∀ r ∈ t1.rows, isStrName (rowGet r "name") = true := by
        intro r hr
        rcases List.mem_map.mp hr with ⟨r0, hr0, hrr⟩
        rw [← hrr, hupdname r0]
        exact hstr r0 hr0
      have ht1 : tget (tset db T t1) T = some t1 := by
        rw [tget_tset, if_pos rfl]
      obtain ⟨r0, hr0mem, hr0eq⟩ : ∃ r0, r0 ∈ t.rows ∧ sqlEqVal
          (rowGetD r0 "name" FVal.vnull) (FVal.vstr m) = true := by
        cases hfl : t.rows.filter (fun r =>
            sqlEqVal (rowGetD r "name" FVal.vnull) (FVal.vstr m)) with
        | nil =>
          rw [List.isEmpty_iff.mpr hfl] at hhitf
          cases hhitf
        | cons a l =>
          have ha : a ∈ t.rows.filter (fun r =>
              sqlEqVal (rowGetD r "name" FVal.vnull) (FVal.vstr m)) := by
            rw [hfl]
            exact List.mem_cons_self a l
          exact ⟨a, (List.mem_filter.mp ha).1, (List.mem_filter.mp ha).2⟩
      have hr0nd : rowGetD r0 "name" FVal.vnull = FVal.vstr m := by
        have hsr0 := hstr r0 hr0mem
        rcases hv0 : rowGet r0 "name" with _ | v
        · rw [hv0] at hsr0
          cases hsr0
        · cases v with
          | vstr s =>
            have hgd : rowGetD r0 "name" FVal.vnull = FVal.vstr s := by
              show (rowGet r0 "name").getD FVal.vnull = FVal.vstr s
              rw [hv0]
              rfl
            rw [hgd] at hr0eq ⊢
            have : (s == m) = true := by simpa [sqlEqVal] using hr0eq
            have : s = m := by simpa using this
            rw [this]
          | vnull => rw [hv0] at hsr0; cases hsr0
          | vint i => rw [hv0] at hsr0; cases hsr0
          | vbool b => rw [hv0] at hsr0; cases hsr0
          | vlist l2 => rw [hv0] at hsr0; cases hsr0
      have hmrg : rowMerge r0 u ∈ t1.rows := by
        refine List.mem_map.mpr ⟨r0, hr0mem, ?_⟩
        rw [if_pos hr0eq]
      have hmrgnd : rowGetD (rowMerge r0 u) "name" FVal.vnull = FVal.vstr m := by
        show (rowGet (rowMerge r0 u) "name").getD FVal.vnull = FVal.vstr m
        rw [rowGet_rowMerge_nodup _ _ _ humnd, humname]
        show (rowGet r0 "name").getD FVal.vnull = FVal.vstr m
        exact hr0nd
      have hmrgpar : rowGetD (rowMerge r0 u) "parent" FVal.vnull = pn := by
        show (rowGet (rowMerge r0 u) "parent").getD FVal.vnull = pn
        rw [rowGet_rowMerge_nodup _ _ _ humnd, humpar]
        rfl
      have hmrgidx : rowGetD (rowMerge r0 u) "idx" FVal.vnull =
          FVal.vint added.length := by
        show (rowGet (rowMerge r0 u) "idx").getD FVal.vnull =
          FVal.vint added.length
        rw [rowGet_rowMerge_nodup _ _ _ humnd, humidx]
        rfl
      obtain ⟨t', htg', hres1, hnd', hstr', hprof', hpres'⟩ :=
        ih (added ++ [FVal.vstr m]) (tset db T t1) t1 res
          (fun c2 hc2 => hcs c2 (List.mem_cons_of_mem _ hc2))
          (List.nodup_cons.mp hcsnd).2 ht1 hstr1 hnames1 h
      refine ⟨t', htg', ?_, hnd', hstr', ?_, ?_⟩
      · rw [hres1, List.map_cons, hcnd]
        simp
      · intro j hj
        cases j with
        | zero =>
          have hsurv := hpres' (rowMerge r0 u) hmrg
            (by rw [hmrgnd]; exact hmtail)
          refine ⟨rowMerge r0 u, hsurv, ?_, hmrgpar, ?_⟩
          · rw [hmrgnd]
            exact hcnd.symm
          · rw [hmrgidx]
            norm_num
        | succ j =>
          obtain ⟨r, hrmem, hrn, hrp, hri⟩ := hprof' j (by
            have := hj
            simp only [List.length_cons] at this
            omega)
          refine ⟨r, hrmem, hrn, hrp, ?_⟩
          rw [hri]
          congr 1
          simp only [List.length_append, List.length_cons, List.length_nil]
          omega
      · intro r hr hnot
        have hne : sqlEqVal (rowGetD r "name" FVal.vnull)
            (FVal.vstr m) = false := by
          have hsr := hstr r hr
          rcases hv0 : rowGet r "name" with _ | v
          · rw [hv0] at hsr
            cases hsr
          · cases v with
            | vstr s =>
              have hgd : rowGetD r "name" FVal.vnull = FVal.vstr s := by
                show (rowGet r "name").getD FVal.vnull = FVal.vstr s
                rw [hv0]
                rfl
              rw [hgd]
              have hsm : s ≠ m := by
                intro hh
                apply hnot
                rw [List.map_cons, hcnd]
                rw [hgd, hh]
                exact List.mem_cons_self _ _
              simpa [sqlEqVal] using hsm
            | vnull => rw [hv0] at hsr; cases hsr
            | vint i => rw [hv0] at hsr; cases hsr
            | vbool b => rw [hv0] at hsr; cases hsr
            | vlist l2 => rw [hv0] at hsr; cases hsr
        have hrid : r ∈ t1.rows := by
          refine List.mem_map.mpr ⟨r, hr, ?_⟩
          rw [if_neg (by rw [hne]; simp)]
        refine hpres' r hrid ?_
        intro hmem
        apply hnot
        rw [List.map_cons]
        exact List.mem_cons_of_mem _ hmem

theorem keyLe_vint (x y : Int) :
    keyLe (.vint x) (.vint y) = true ↔ x ≤ y := by
  have hs : strLeB (fstr (.vint x)) (fstr (.vint y)) = true := rfl
  unfold keyLe
  rw [hs]
  simp [frank, fint]
  omega

theorem pairwise_lt_get_add (js : List Nat) (hpw : js.Pairwise (· < ·)) :
    ∀ (i j : Nat) (hi : i < js.length) (hj : j < js.length), i ≤ j →
      js.get ⟨i, hi⟩ + (j - i) ≤ js.get ⟨j, hj⟩ := by
  induction js with
  | nil =>
    intro i j hi hj hij
    cases hi
  | cons a t iht =>
    intro i j hi hj hij
    cases i with
    | zero =>
      cases j with
      | zero => simp
      | succ j0 =>
        have hj0 : j0 < t.length := by
          simpa using hj
        have hmem : t.get ⟨j0, hj0⟩ ∈ t := List.get_mem t _ hj0
        have hlt : a < t.get ⟨j0, hj0⟩ :=
          (List.pairwise_cons.mp hpw).1 _ hmem
        show a + (j0 + 1 - 0) ≤ t.get ⟨j0, hj0⟩
        have h0t : 0 < t.length := by omega
        have hstep := iht (List.pairwise_cons.mp hpw).2 0 j0 h0t hj0
          (Nat.zero_le _)
        have hab : a < t.get ⟨0, h0t⟩ :=
          (List.pairwise_cons.mp hpw).1 _ (List.get_mem t _ h0t)
        omega
    | succ i0 =>
      cases j with
      | zero => omega
      | succ j0 =>
        have hi0 : i0 < t.length := by simpa using hi
        have hj0 : j0 < t.length := by simpa using hj
        have := iht (List.pairwise_cons.mp hpw).2 i0 j0 hi0 hj0 (by omega)
        show t.get ⟨i0, hi0⟩ + (j0 + 1 - (i0 + 1)) ≤ t.get ⟨j0, hj0⟩
        omega

theorem pairwise_lt_get_eq (js : List Nat) (hpw : js.Pairwise (· < ·))
    (hbd : ∀ x ∈ js, x < js.length) :
    ∀ (j : Nat) (hj : j < js.length), js.get ⟨j, hj⟩ = j := by
  intro j hj
  have hlow := pairwise_lt_get_add js hpw 0 j (by omega) hj (Nat.zero_le _)
  have hlast : js.length - 1 < js.length := by omega
  have hhigh := pairwise_lt_get_add js hpw j (js.length - 1) hj hlast (by omega)
  have hb := hbd (js.get ⟨js.length - 1, hlast⟩) (List.get_mem js _ hlast)
  omega

theorem sorted_idx_get (l : List Row)
    (hsorted : l.Pairwise (fun a b => rowLe "idx" "asc" a b = true))
    (hnd : l.Nodup)
    (hidx : ∀ r ∈ l, ∃ j : Nat, j < l.length ∧
      rowGetD r "idx" FVal.vnull = FVal.vint j)
    (hinj : ∀ a ∈ l, ∀ b ∈ l,
      rowGetD a "idx" FVal.vnull = rowGetD b "idx" FVal.vnull → a = b) :
    ∀ (j : Nat) (hj : j < l.length),
      rowGetD (l.get ⟨j, hj⟩) "idx" FVal.vnull = FVal.vint j := by
  have hpw : (l.map (fun r =>
      (fint (rowGetD r "idx" FVal.vnull)).toNat)).Pairwise (· < ·) := by
    rw [List.pairwise_map]
    refine List.Pairwise.imp_of_mem ?_ (hsorted.and hnd)
    intro a b ha hb hab
    obtain ⟨ja, hja, haj⟩ := hidx a ha
    obtain ⟨jb, hjb, hbj⟩ := hidx b hb
    rw [haj, hbj]
    have hle : rowLe "idx" "asc" a b = true := hab.1
    unfold rowLe at hle
    rw [if_pos (show (("asc" : String) == "asc") = true from rfl)] at hle
    rw [haj, hbj] at hle
    have hlein := (keyLe_vint _ _).mp hle
    have hne : ja ≠ jb := by
      intro hh
      apply hab.2
      apply hinj a ha b hb
      rw [haj, hbj, hh]
    simp only [fint, Int.toNat_ofNat]
    omega
  have hbd : ∀ x ∈ l.map (fun r =>
      (fint (rowGetD r "idx" FVal.vnull)).toNat), x <
        (l.map (fun r => (fint (rowGetD r "idx" FVal.vnull)).toNat)).length := by
    intro x hx
    rcases List.mem_map.mp hx with ⟨r, hr, hrx⟩
    obtain ⟨j, hj, hjr⟩ := hidx r hr
    rw [← hrx, hjr]
    simpa using hj
  intro j hj
  have hj2 : j < (l.map (fun r =>
      (fint (rowGetD r "idx" FVal.vnull)).toNat)).length := by simpa using hj
  have hq := pairwise_lt_get_eq _ hpw hbd j hj2
  have hmap : (l.map (fun r => (fint (rowGetD r "idx" FVal.vnull)).toNat)).get
      ⟨j, hj2⟩ = (fint (rowGetD (l.get ⟨j, hj⟩) "idx" FVal.vnull)).toNat := by
    show (l.map (fun r => (fint (rowGetD r "idx" FVal.vnull)).toNat))[j] = _
    rw [List.getElem_map]
    rfl
  obtain ⟨jr, hjr, hjrow⟩ := hidx (l.get ⟨j, hj⟩) (List.get_mem l _ hj)
  rw [hjrow]
  rw [hmap, hjrow] at hq
  simp only [fint, Int.toNat_ofNat] at hq
  rw [hq]

theorem strName_cases (r : Row) (h : isStrName (rowGet r "name") = true) :
    ∃ s, rowGet r "name" = some (.vstr s) ∧
      rowGetD r "name" FVal.vnull = FVal.vstr s := by
  rcases hg : rowGet r "name" with _ | v
  · rw [hg] at h
    cases h
  · cases v with
    | vstr s =>
      refine ⟨s, rfl, ?_⟩
      show (rowGet r "name").getD FVal.vnull = FVal.vstr s
      rw [hg]
      rfl
    | vnull => rw [hg] at h; cases h
    | vint i => rw [hg] at h; cases h
    | vbool b => rw [hg] at h; cases h
    | vlist l2 => rw [hg] at h; cases h

/-- C5: full-set reconciliation of a child-table field through update,
and the ordering law of the list returned by get. -/
theorem c5_full_set_reconciliation (smap : SchemaMap) (db : DB) (P : String)
    (sc : Schema) (tf : Field) (T : String) (tsc : Schema)
    (fvm : FieldValueMap) (n : String) (cs : List FieldValueMap)
    (dbF : DB) (t : Table)
    (hsc : lookupSchema smap P = some sc)
    (hsingle : sc.isSingle = false)
    (htfl : getTableFields sc = [tf])
    (htgt : tf.target = some T)
    (hTP : T ≠ P)
    (hsct : lookupSchema smap T = some tsc)
    (htsingle : tsc.isSingle = false)
    (hTname : "name" ∈ (tsc.fields.filter
      (fun g => !(g.fieldtype == FieldType.Table))).map (fun g => g.fieldname))
    (hTparent : "parent" ∈ (tsc.fields.filter
      (fun g => !(g.fieldtype == FieldType.Table))).map (fun g => g.fieldname))
    (hTidx : "idx" ∈ (tsc.fields.filter
      (fun g => !(g.fieldtype == FieldType.Table))).map (fun g => g.fieldname))
    (hpnt : ((getTableFieldNames tsc).contains "parent") = false)
    (hidxt : ((getTableFieldNames tsc).contains "idx") = false)
    (hfn : rowGet fvm "name" = some (.vstr n))
    (hn : (n == "") = false)
    (hv : rowGet fvm tf.fieldname = some (.vlist cs))
    (hcs : ∀ c ∈ cs, isStrName (rowGet c "name") = true ∧
      truthyOpt (rowGet c "name") = true ∧
      isNullish (rowGet c "idx") = true ∧ (c.map Prod.fst).Nodup)
    (hcsnd : (cs.map (fun c => rowGetD c "name" FVal.vnull)).Nodup)
    (ht : tget db T = some t)
    (hstr : ∀ r ∈ t.rows, isStrName (rowGet r "name") = true)
    (hnames : (t.rows.map (fun r => rowGetD r "name" FVal.vnull)).Nodup)
    (h : update smap db P fvm = .ok dbF) :
    (tget dbF T).isSome = true ∧
    get smap dbF P n (some [tf.fieldname]) = .ok [(tf.fieldname,
      FVal.vlist (insSortBy (rowLe "idx" "asc")
        (((tget dbF T).getD { cols := [], fks := [], rows := [] }).rows.filter
          (fun r => sqlEqVal (rowGetD r "parent" FVal.vnull) (.vstr n)))))] ∧
    (insSortBy (rowLe "idx" "asc")
      (((tget dbF T).getD { cols := [], fks := [], rows := [] }).rows.filter
        (fun r => sqlEqVal (rowGetD r "parent" FVal.vnull)
          (.vstr n)))).length = cs.length ∧
    (∀ (j : Nat) (hj : j < (insSortBy (rowLe "idx" "asc")
        (((tget dbF T).getD { cols := [], fks := [], rows := [] }).rows.filter
          (fun r => sqlEqVal (rowGetD r "parent" FVal.vnull)
            (.vstr n)))).length) (hj2 : j < cs.length),
      rowGetD ((insSortBy (rowLe "idx" "asc")
        (((tget dbF T).getD { cols := [], fks := [], rows := [] }).rows.filter
          (fun r => sqlEqVal (rowGetD r "parent" FVal.vnull)
            (.vstr n)))).get ⟨j, hj⟩) "name" FVal.vnull =
        rowGetD (cs.get ⟨j, hj2⟩) "name" FVal.vnull ∧
      rowGetD ((insSortBy (rowLe "idx" "asc")
        (((tget dbF T).getD { cols := [], fks := [], rows := [] }).rows.filter
          (fun r => sqlEqVal (rowGetD r "parent" FVal.vnull)
            (.vstr n)))).get ⟨j, hj⟩) "idx" FVal.vnull = FVal.vint j ∧
      rowGetD ((insSortBy (rowLe "idx" "asc")
        (((tget dbF T).getD { cols := [], fks := [], rows := [] }).rows.filter
          (fun r => sqlEqVal (rowGetD r "parent" FVal.vnull)
            (.vstr n)))).get ⟨j, hj⟩) "parent" FVal.vnull = .vstr n) ∧
    ((((tget dbF T).getD { cols := [], fks := [], rows := [] }).rows.filter
      (fun r => sqlEqVal (rowGetD r "parent" FVal.vnull) (.vstr n))).map
      (fun r => rowGetD r "name" FVal.vnull)).Perm
      (cs.map (fun c => rowGetD c "name" FVal.vnull)) := by
  unfold update at h
  simp only [hsc] at h
  rw [if_neg (by simp [hsingle])] at h
  cases hup : updateOne smap db P fvm with
  | error e =>
    simp only [hup] at h
    exact absurd h (by simp)
  | ok db1 =>
    simp only [hup] at h
    unfold insertOrUpdateChildren at h
    simp only [hsc] at h
    rw [htfl] at h
    have hpnv : rowGetD fvm "name" FVal.vnull = .vstr n := by
      show (rowGet fvm "name").getD FVal.vnull = FVal.vstr n
      rw [hfn]
      rfl
    rw [hpnv] at h
    unfold tableFieldLoop at h
    simp only [] at h
    rw [hv] at h
    rw [if_neg (by simp [isNullish])] at h
    simp only [] at h
    have ht1 : tget db1 T = some t := by
      rw [updateOne_frame smap db P fvm db1 hup T hTP]
      exact ht
    cases hcl : childLoop smap P (.vstr n) tf true cs [] db1 with
    | error e =>
      simp only [hcl] at h
      exact absurd h (by simp)
    | ok pr =>
      obtain ⟨added1, db2⟩ := pr
      simp only [hcl] at h
      obtain ⟨t', htg', hres1, hnd', hstr', hprof', hpres'⟩ :=
        childLoop_reconcile smap P (.vstr n) tf T tsc htgt hsct htsingle
          hTname hTparent hTidx hpnt hidxt cs [] db1 t (added1, db2)
          hcs hcsnd ht1 hstr hnames hcl
      have hadded : added1 = cs.map (fun c => rowGetD c "name" FVal.vnull) := by
        simpa using hres1
      have hdel : runDeleteOtherChildren tf (.vstr n) added1 db2 = .ok (tset db2 T
          { t' with rows := t'.rows.filter (fun r =>
            !(sqlEqVal (rowGetD r "parent" FVal.vnull) (.vstr n) &&
              notInB (rowGetD r "name" FVal.vnull) added1)) }) := by
        unfold runDeleteOtherChildren
        simp only [htgt, Option.getD_some]
        show (match tget db2 T with
          | none => Except.error DbErr.notFound
          | some t2 => Except.ok (tset db2 T { t2 with
              rows := t2.rows.filter (fun r =>
                !(sqlEqVal (rowGetD r "parent" FVal.vnull) (.vstr n) &&
                  notInB (rowGetD r "name" FVal.vnull) added1)) })) = _
        rw [htg']
      simp only [hdel] at h
      simp only [tableFieldLoop] at h
      have hdbF : tset db2 T { t' with rows := t'.rows.filter (fun r =>
          !(sqlEqVal (rowGetD r "parent" FVal.vnull) (.vstr n) &&
            notInB (rowGetD r "name" FVal.vnull) added1)) } = dbF :=
        (Except.ok.injEq _ _).mp h
      have htF : tget dbF T = some { t' with rows := t'.rows.filter (fun r =>
          !(sqlEqVal (rowGetD r "parent" FVal.vnull) (.vstr n) &&
            notInB (rowGetD r "name" FVal.vnull) added1)) } := by
        rw [← hdbF, tget_tset, if_pos rfl]
      have huniq : ∀ a ∈ t'.rows, ∀ b ∈ t'.rows,
          rowGetD a "name" FVal.vnull = rowGetD b "name" FVal.vnull → a = b :=
        fun a ha b hb hh => List.inj_on_of_nodup_map hnd' ha hb hh
      have hcsn2 : ∀ c2 ∈ cs, ∃ mc,
          rowGetD c2 "name" FVal.vnull = FVal.vstr mc := by
        intro c2 hc2
        obtain ⟨s2, _, hgd⟩ := strName_cases c2 (hcs c2 hc2).1
        exact ⟨s2, hgd⟩
      have haddv : ∀ a ∈ added1, ∃ ma, a = FVal.vstr ma := by
        intro a ha
        rw [hadded] at ha
        rcases List.mem_map.mp ha with ⟨c2, hc2, hrc⟩
        obtain ⟨mc, hmc⟩ := hcsn2 c2 hc2
        exact ⟨mc, by rw [← hrc, hmc]⟩
      -- the profile row of position j, with its index normalised
      have hprofN : ∀ (j : Nat) (hj : j < cs.length), ∃ r, r ∈ t'.rows ∧
          rowGetD r "name" FVal.vnull =
            rowGetD (cs.get ⟨j, hj⟩) "name" FVal.vnull ∧
          rowGetD r "parent" FVal.vnull = .vstr n ∧
          rowGetD r "idx" FVal.vnull = FVal.vint j := by
        intro j hj
        obtain ⟨r, hrmem, hrn, hrp, hri⟩ := hprof' j hj
        refine ⟨r, hrmem, hrn, hrp, ?_⟩
        rw [hri]
        congr 1
        simp
      -- keep predicate holds for profile rows
      have hkeepProf : ∀ (j : Nat) (hj : j < cs.length), ∀ r,
          rowGetD r "name" FVal.vnull =
            rowGetD (cs.get ⟨j, hj⟩) "name" FVal.vnull →
          rowGetD r "parent" FVal.vnull = .vstr n →
          (!(sqlEqVal (rowGetD r "parent" FVal.vnull) (.vstr n) &&
            notInB (rowGetD r "name" FVal.vnull) added1)) = true := by
        intro j hj r hrn hrp
        obtain ⟨mj, hmj⟩ := hcsn2 (cs.get ⟨j, hj⟩) (List.get_mem cs _ hj)
        have hmemadd : FVal.vstr mj ∈ added1 := by
          rw [hadded, ← hmj]
          exact List.mem_map_of_mem _ (List.get_mem cs _ hj)
        have hni : notInB (FVal.vstr mj) added1 = false := by
          show (if added1.any (fun a => sqlEqVal (.vstr mj) a) then false
            else !(added1.any (fun a => isVNull a))) = false
          rw [if_pos (List.any_eq_true.mpr
            ⟨FVal.vstr mj, hmemadd, by simp [sqlEqVal]⟩)]
        rw [hrn, hmj, hrp, hni]
        simp
      -- every kept row with this parent is one of the profile rows
      have hB : ∀ r, r ∈ t'.rows →
          (!(sqlEqVal (rowGetD r "parent" FVal.vnull) (.vstr n) &&
            notInB (rowGetD r "name" FVal.vnull) added1)) = true →
          sqlEqVal (rowGetD r "parent" FVal.vnull) (.vstr n) = true →
          ∃ jf : Fin cs.length,
            rowGetD r "name" FVal.vnull = rowGetD (cs.get jf) "name" FVal.vnull ∧
            rowGetD r "idx" FVal.vnull = FVal.vint jf.1 ∧
            rowGetD r "parent" FVal.vnull = .vstr n := by
        intro r hrmem hkeep hpe
        obtain ⟨s, _, hsd⟩ := strName_cases r (hstr' r hrmem)
        have hni : notInB (rowGetD r "name" FVal.vnull) added1 = false := by
          rw [hpe] at hkeep
          cases hq : notInB (rowGetD r "name" FVal.vnull) added1
          · rfl
          · rw [hq] at hkeep
            cases hkeep
        rw [hsd] at hni
        have hany : (added1.any (fun a => sqlEqVal (.vstr s) a)) = true := by
          cases hq : added1.any (fun a => sqlEqVal (.vstr s) a)
          · exfalso
            have hform : notInB (FVal.vstr s) added1 =
                !(added1.any (fun a => isVNull a)) := by
              show (if added1.any (fun a => sqlEqVal (.vstr s) a) then false
                else !(added1.any (fun a => isVNull a))) = _
              rw [if_neg (by rw [hq]; simp)]
            rw [hform] at hni
            have : (added1.any (fun a => isVNull a)) = true := by
              cases hq2 : added1.any (fun a => isVNull a)
              · rw [hq2] at hni
                cases hni
              · rfl
            rcases List.any_eq_true.mp this with ⟨a, ha, hva⟩
            obtain ⟨ma, hma⟩ := haddv a ha
            rw [hma] at hva
            cases hva
          · rfl
        rcases List.any_eq_true.mp hany with ⟨a, ha, hsa⟩
        rw [hadded] at ha
        rcases List.mem_map.mp ha with ⟨c2, hc2, hrc⟩
        rcases List.mem_iff_get.mp hc2 with ⟨jf, hjf⟩
        obtain ⟨mc, hmc⟩ := hcsn2 c2 hc2
        have hsm : s = mc := by
          rw [← hrc, hmc] at hsa
          simpa [sqlEqVal] using hsa
        have hnameeq : rowGetD r "name" FVal.vnull =
            rowGetD (cs.get jf) "name" FVal.vnull := by
          rw [hsd, hjf, hmc, hsm]
        obtain ⟨rj, hrjmem, hrjn, hrjp, hrji⟩ := hprofN jf.1 jf.2
        have hreq : r = rj := by
          apply huniq r hrmem rj hrjmem
          rw [hnameeq, hrjn]
        refine ⟨jf, hnameeq, ?_, by rw [hreq]; exact hrjp⟩
        rw [hreq, hrji]
      set keepB : Row → Bool := fun r =>
        !(sqlEqVal (rowGetD r "parent" FVal.vnull) (.vstr n) &&
          notInB (rowGetD r "name" FVal.vnull) added1) with hkeepBdef
      set peB : Row → Bool := fun r =>
        sqlEqVal (rowGetD r "parent" FVal.vnull) (.vstr n) with hpeBdef
      set l0 : List Row := (t'.rows.filter keepB).filter peB with hl0def
      have hmeml0 : ∀ r, r ∈ l0 ↔
          (r ∈ t'.rows ∧ keepB r = true ∧ peB r = true) := by
        intro r
        constructor
        · intro hr
          have h1 := List.mem_filter.mp hr
          have h2 := List.mem_filter.mp h1.1
          exact ⟨h2.1, h2.2, h1.2⟩
        · intro hh
          exact List.mem_filter.mpr ⟨List.mem_filter.mpr ⟨hh.1, hh.2.1⟩, hh.2.2⟩
      have hl0sub : l0.Sublist t'.rows :=
        (List.filter_sublist _).trans (List.filter_sublist _)
      have hl0names : (l0.map (fun r => rowGetD r "name" FVal.vnull)).Nodup :=
        ((hl0sub.map _)).nodup hnd'
      have hl0nd : l0.Nodup := hl0names.of_map _
      have hA : ∀ (j : Nat) (hj : j < cs.length), ∃ r, r ∈ l0 ∧
          rowGetD r "name" FVal.vnull =
            rowGetD (cs.get ⟨j, hj⟩) "name" FVal.vnull ∧
          rowGetD r "parent" FVal.vnull = .vstr n ∧
          rowGetD r "idx" FVal.vnull = FVal.vint j := by
        intro j hj
        obtain ⟨r, hrm, hrn, hrp, hri⟩ := hprofN j hj
        refine ⟨r, ?_, hrn, hrp, hri⟩
        refine (hmeml0 r).mpr ⟨hrm, ?_, ?_⟩
        · exact hkeepProf j hj r hrn hrp
        · show sqlEqVal (rowGetD r "parent" FVal.vnull) (.vstr n) = true
          rw [hrp]
          simp [sqlEqVal]
      have hBl0 : ∀ r ∈ l0, ∃ jf : Fin cs.length,
          rowGetD r "name" FVal.vnull =
            rowGetD (cs.get jf) "name" FVal.vnull ∧
          rowGetD r "idx" FVal.vnull = FVal.vint jf.1 ∧
          rowGetD r "parent" FVal.vnull = .vstr n := by
        intro r hr
        obtain ⟨h1, h2, h3⟩ := (hmeml0 r).mp hr
        obtain ⟨jf, hn1, hn2, hn3⟩ := hB r h1 h2 h3
        exact ⟨jf, hn1, hn2, hn3⟩
      have hsub1 : l0.map (fun r => rowGetD r "name" FVal.vnull) ⊆
          cs.map (fun c => rowGetD c "name" FVal.vnull) := by
        intro x hx
        rcases List.mem_map.mp hx with ⟨r, hr, hrx⟩
        obtain ⟨jf, hn1, _, _⟩ := hBl0 r hr
        rw [← hrx, hn1]
        exact List.mem_map_of_mem _ (List.get_mem cs _ jf.2)
      have hsub2 : cs.map (fun c => rowGetD c "name" FVal.vnull) ⊆
          l0.map (fun r => rowGetD r "name" FVal.vnull) := by
        intro x hx
        rcases List.mem_map.mp hx with ⟨c2, hc2, hrc⟩
        rcases List.mem_iff_get.mp hc2 with ⟨jf, hjf⟩
        obtain ⟨r, hrl0, hrn, _, _⟩ := hA jf.1 jf.2
        refine List.mem_map.mpr ⟨r, hrl0, ?_⟩
        rw [hrn, ← hrc, ← hjf]
      have hlen0 : l0.length = cs.length := by
        have e1 := (List.subperm_of_subset hl0names hsub1).length_le
        have e2 := (List.subperm_of_subset hcsnd hsub2).length_le
        rw [List.length_map, List.length_map] at e1 e2
        omega
      have hperm : (insSortBy (rowLe "idx" "asc") l0).Perm l0 := insSortBy_perm _ _
      have hsorted : (insSortBy (rowLe "idx" "asc") l0).Pairwise
          (fun a b => rowLe "idx" "asc" a b = true) :=
        pairwise_insSortBy _ (fun a b => rowLe_asc_total "idx" a b)
          (fun a b c2 => rowLe_asc_trans "idx" a b c2) l0
      have hlnd : (insSortBy (rowLe "idx" "asc") l0).Nodup :=
        hperm.nodup_iff.mpr hl0nd
      have hllen : (insSortBy (rowLe "idx" "asc") l0).length = cs.length :=
        hperm.length_eq.trans hlen0
      have hBl : ∀ r ∈ insSortBy (rowLe "idx" "asc") l0, ∃ jf : Fin cs.length,
          rowGetD r "name" FVal.vnull =
            rowGetD (cs.get jf) "name" FVal.vnull ∧
          rowGetD r "idx" FVal.vnull = FVal.vint jf.1 ∧
          rowGetD r "parent" FVal.vnull = .vstr n :=
        fun r hr => hBl0 r (hperm.mem_iff.mp hr)
      have hidxl : ∀ r ∈ insSortBy (rowLe "idx" "asc") l0, ∃ j : Nat,
          j < (insSortBy (rowLe "idx" "asc") l0).length ∧
          rowGetD r "idx" FVal.vnull = FVal.vint j := by
        intro r hr
        obtain ⟨jf, _, hji, _⟩ := hBl r hr
        exact ⟨jf.1, by rw [hllen]; exact jf.2, hji⟩
      have hinjl : ∀ a ∈ insSortBy (rowLe "idx" "asc") l0,
          ∀ b ∈ insSortBy (rowLe "idx" "asc") l0,
          rowGetD a "idx" FVal.vnull = rowGetD b "idx" FVal.vnull → a = b := by
        intro a ha b hb hab
        obtain ⟨ja, hjan, hjai, _⟩ := hBl a ha
        obtain ⟨jb, hjbn, hjbi, _⟩ := hBl b hb
        rw [hjai, hjbi] at hab
        have hj12 : (ja.1 : Int) = jb.1 := by
          simpa using hab
        have hja : ja = jb := by
          apply Fin.ext
          omega
        have hamem : a ∈ t'.rows := hl0sub.subset (hperm.mem_iff.mp ha)
        have hbmem : b ∈ t'.rows := hl0sub.subset (hperm.mem_iff.mp hb)
        apply huniq a hamem b hbmem
        rw [hjan, hjbn, hja]
      have hpos := sorted_idx_get (insSortBy (rowLe "idx" "asc") l0)
        hsorted hlnd hidxl hinjl
      have hposfull : ∀ (j : Nat)
          (hj : j < (insSortBy (rowLe "idx" "asc") l0).length)
          (hj2 : j < cs.length),
          rowGetD ((insSortBy (rowLe "idx" "asc") l0).get ⟨j, hj⟩) "name"
            FVal.vnull = rowGetD (cs.get ⟨j, hj2⟩) "name" FVal.vnull ∧
          rowGetD ((insSortBy (rowLe "idx" "asc") l0).get ⟨j, hj⟩) "idx"
            FVal.vnull = FVal.vint j ∧
          rowGetD ((insSortBy (rowLe "idx" "asc") l0).get ⟨j, hj⟩) "parent"
            FVal.vnull = .vstr n := by
        intro j hj hj2
        obtain ⟨jf, hjn, hji, hjp⟩ := hBl _ (List.get_mem _ _ hj)
        have h5 : FVal.vint (jf.1 : Int) = FVal.vint (j : Int) :=
          hji.symm.trans (hpos j hj)
        have h6 : (jf.1 : Int) = (j : Int) := FVal.vint.inj h5
        have hjeq : jf = ⟨j, hj2⟩ := by
          apply Fin.ext
          show jf.1 = j
          omega
        refine ⟨?_, hpos j hj, hjp⟩
        rw [hjn, hjeq]
      have hmapeq : (insSortBy (rowLe "idx" "asc") l0).map
          (fun r => rowGetD r "name" FVal.vnull) =
          cs.map (fun c => rowGetD c "name" FVal.vnull) := by
        apply List.ext_get
        · rw [List.length_map, List.length_map, hllen]
        · intro i h1 h2
          have hi1 : i < (insSortBy (rowLe "idx" "asc") l0).length := by
            rw [List.length_map] at h1
            exact h1
          have hi2 : i < cs.length := by
            rw [List.length_map] at h2
            exact h2
          have hg1 : ((insSortBy (rowLe "idx" "asc") l0).map
              (fun r => rowGetD r "name" FVal.vnull)).get ⟨i, h1⟩ =
              rowGetD ((insSortBy (rowLe "idx" "asc") l0).get ⟨i, hi1⟩)
                "name" FVal.vnull := by
            show ((insSortBy (rowLe "idx" "asc") l0).map
              (fun r => rowGetD r "name" FVal.vnull))[i] = _
            rw [List.getElem_map]
            rfl
          have hg2 : (cs.map (fun c => rowGetD c "name" FVal.vnull)).get
              ⟨i, h2⟩ = rowGetD (cs.get ⟨i, hi2⟩) "name" FVal.vnull := by
            show (cs.map (fun c => rowGetD c "name" FVal.vnull))[i] = _
            rw [List.getElem_map]
            rfl
          rw [hg1, hg2]
          exact (hposfull i hi1 hi2).1
      have hpermnames : (l0.map (fun r => rowGetD r "name" FVal.vnull)).Perm
          (cs.map (fun c => rowGetD c "name" FVal.vnull)) :=
        hmapeq ▸ (hperm.map _).symm
      have hget : get smap dbF P n (some [tf.fieldname]) =
          .ok [(tf.fieldname, FVal.vlist (insSortBy (rowLe "idx" "asc") l0))] := by
        unfold get
        simp only [hsc, Option.getD_some]
        rw [if_neg (by simp [hsingle, hn])]
        rw [if_neg (by simp [hsingle])]
        rw [htfl]
        rw [show ([tf].filter (fun f =>
            [tf.fieldname].contains f.fieldname)) = [tf] from by simp]
        rw [show ([tf.fieldname].filter (fun x =>
            !(([tf].map (fun f => f.fieldname)).contains x))) =
            ([] : List String) from by simp]
        rw [if_pos (show (List.isEmpty ([] : List String)) = true from rfl)]
        simp only []
        rw [if_neg (show ¬((List.isEmpty ([tf] : List Field)) = true) from
          by simp)]
        unfold loadChildren
        simp only [htgt, Option.getD_some]
        rw [getAll_children_eval smap dbF T tsc _ (.vstr n) hsct htF]
        simp only []
        unfold loadChildren
        rfl
      rw [htF]
      simp only [Option.getD_some]
      refine ⟨rfl, ?_, ?_, ?_, ?_⟩
      · exact hget
      · exact hllen
      · intro j hj hj2
        exact hposfull j hj hj2
      · exact hpermnames



/-- C5 witness: updating Parent p1 with the single child list [b]
leaves exactly one child row for p1 (the old child olda is deleted),
and get returns that one-element list. -/
theorem c5_witness :
    update fixMap fixDb "Parent" c5fvm = .ok c5dbF ∧
    get fixMap c5dbF "Parent" "p1" (some ["kids"]) =
      .ok [("kids", FVal.vlist c5kidsList)] ∧
    c5kidsList.length = 1 ∧
    ((((tget c5dbF "Child").getD { cols := [], fks := [], rows := [] }).rows.filter
      (fun r => sqlEqVal (rowGetD r "parent" FVal.vnull) (.vstr "p1"))).map
      (fun r => rowGetD r "name" FVal.vnull)).Perm
      ([[("name", FVal.vstr "b")]].map
        (fun c => rowGetD c "name" FVal.vnull)) := by
  have h : update fixMap fixDb "Parent" c5fvm = .ok c5dbF := rfl
  have hmain := c5_full_set_reconciliation fixMap fixDb "Parent" parentSchema
    kidsField "Child" childSchema c5fvm "p1" [[("name", FVal.vstr "b")]]
    c5dbF fixChildTable rfl rfl rfl rfl (by decide) rfl rfl
    (by decide) (by decide) (by decide) (by decide) (by decide)
    rfl (by decide) rfl
    (by decide)
    (by simp)
    rfl
    (by decide)
    (by rw [show fixChildTable.rows.map (fun r => rowGetD r "name" FVal.vnull) =
          [FVal.vstr "olda"] from rfl]
        simp)
    h
  exact ⟨h, hmain.2.1, hmain.2.2.1, hmain.2.2.2.2⟩

/-! ## Migration idempotence lemmas -/

theorem columnDiff_buildCols (sc : Schema) :
    columnDiff sc (buildCols sc) = ⟨[], []⟩ := by
  unfold columnDiff
  congr 1
  · refine List.filter_eq_nil_iff.mpr ?_
    intro f hf hcond
    have h1 : hasDbType f.fieldtype = true := by
      cases hq : hasDbType f.fieldtype
      · rw [hq] at hcond
        cases hcond
      · rfl
    have h2 : ((buildCols sc).contains f.fieldname) = false := by
      cases hq : (buildCols sc).contains f.fieldname
      · rfl
      · rw [h1, hq] at hcond
        cases hcond
    have hmem : f.fieldname ∈ buildCols sc := by
      unfold buildCols
      refine List.mem_filterMap.mpr ⟨f, hf, ?_⟩
      rw [if_neg (by simp [hasDbType] at h1; simp [h1]), if_pos h1]
    have hc2 : ((buildCols sc).contains f.fieldname) = true :=
      List.elem_eq_true_of_mem hmem
    rw [hc2] at h2
    cases h2
  · refine List.filter_eq_nil_iff.mpr ?_
    intro c hc hcond
    rcases List.mem_filterMap.mp hc with ⟨f, hf, hfc⟩
    have hcn : f.fieldname = c := by
      by_cases h1 : (f.fieldtype == FieldType.Table) = true
      · rw [if_pos h1] at hfc
        cases hfc
      · rw [if_neg h1] at hfc
        by_cases h2 : hasDbType f.fieldtype = true
        · rw [if_pos h2] at hfc
          exact Option.some_inj.mp hfc
        · rw [if_neg h2] at hfc
          cases hfc
    have hmem : c ∈ sc.fields.map (fun f => f.fieldname) :=
      hcn ▸ List.mem_map_of_mem _ hf
    have hc2 : (((sc.fields.map (fun f => f.fieldname)).contains c)) = true :=
      List.elem_eq_true_of_mem hmem
    rw [hc2] at hcond
    cases hcond

theorem newFK_buildFks (sc : Schema)
    (hLinks : ∀ f ∈ sc.fields, f.fieldtype = FieldType.Link →
      truthyTarget f.target = true) :
    newFKfields sc (buildFks sc) = [] := by
  unfold newFKfields
  refine List.filter_eq_nil_iff.mpr ?_
  intro f hf hcond
  have h1 : (f.fieldtype == FieldType.Link) = true := by
    cases hq : f.fieldtype == FieldType.Link
    · rw [hq] at hcond
      cases hcond
    · rfl
  have h1' : f.fieldtype = FieldType.Link := by simpa using h1
  have h2 : ((buildFks sc).contains f.fieldname) = false := by
    cases hq : (buildFks sc).contains f.fieldname
    · rfl
    · rw [h1, hq] at hcond
      cases hcond
  have hmem : f.fieldname ∈ buildFks sc := by
    unfold buildFks
    refine List.mem_filterMap.mpr ⟨f, hf, ?_⟩
    rw [if_pos (by rw [h1, hLinks f hf h1']; rfl)]
  have hc2 : ((buildFks sc).contains f.fieldname) = true :=
    List.elem_eq_true_of_mem hmem
  rw [hc2] at h2
  cases h2

theorem columnDiff_after_add (sc : Schema) (cols : List String)
    (hrem : (columnDiff sc cols).removed = []) :
    columnDiff sc (cols ++
      (columnDiff sc cols).added.map (fun f => f.fieldname)) = ⟨[], []⟩ := by
  have hrem' : cols.filter (fun c =>
      !((sc.fields.map (fun f => f.fieldname)).contains c)) = [] := hrem
  have heta : columnDiff sc (cols ++
      (columnDiff sc cols).added.map (fun f => f.fieldname)) =
      ⟨(columnDiff sc (cols ++
        (columnDiff sc cols).added.map (fun f => f.fieldname))).added,
       (columnDiff sc (cols ++
        (columnDiff sc cols).added.map (fun f => f.fieldname))).removed⟩ := rfl
  rw [heta]
  have h311 : (columnDiff sc (cols ++
      (columnDiff sc cols).added.map (fun f => f.fieldname))).added = [] := by
    show sc.fields.filter (fun f => hasDbType f.fieldtype &&
      !((cols ++ (columnDiff sc cols).added.map
        (fun f => f.fieldname)).contains f.fieldname)) = []
    refine List.filter_eq_nil_iff.mpr ?_
    intro f hf hcond
    have h1 : hasDbType f.fieldtype = true := by
      cases hq : hasDbType f.fieldtype
      · rw [hq] at hcond
        cases hcond
      · rfl
    have h2 : ((cols ++ (columnDiff sc cols).added.map
        (fun f => f.fieldname)).contains f.fieldname) = false := by
      cases hq : (cols ++ (columnDiff sc cols).added.map
          (fun f => f.fieldname)).contains f.fieldname
      · rfl
      · rw [h1, hq] at hcond
        cases hcond
    by_cases hin : f.fieldname ∈ cols
    · have hc2 : ((cols ++ (columnDiff sc cols).added.map
          (fun f => f.fieldname)).contains f.fieldname) = true :=
        List.elem_eq_true_of_mem (List.mem_append_left _ hin)
      rw [hc2] at h2
      cases h2
    · have hmem : f ∈ (columnDiff sc cols).added := by
        show f ∈ sc.fields.filter _
        refine List.mem_filter.mpr ⟨hf, ?_⟩
        show (hasDbType f.fieldtype && !(cols.contains f.fieldname)) = true
        have hc0 : (cols.contains f.fieldname) = false := by
          cases hq2 : cols.contains f.fieldname
          · rfl
          · exact absurd (List.mem_of_elem_eq_true hq2) hin
        rw [h1, hc0]
        rfl
      have hthis : f.fieldname ∈ (columnDiff sc cols).added.map
          (fun f => f.fieldname) := List.mem_map_of_mem _ hmem
      have hc2 : ((cols ++ (columnDiff sc cols).added.map
          (fun f => f.fieldname)).contains f.fieldname) = true :=
        List.elem_eq_true_of_mem (List.mem_append_right _ hthis)
      rw [hc2] at h2
      cases h2
  have h312 : (columnDiff sc (cols ++
      (columnDiff sc cols).added.map (fun f => f.fieldname))).removed = [] := by
    show (cols ++ (columnDiff sc cols).added.map
      (fun f => f.fieldname)).filter (fun c =>
        !((sc.fields.map (fun f => f.fieldname)).contains c)) = []
    rw [List.filter_append, hrem', List.nil_append]
    refine List.filter_eq_nil_iff.mpr ?_
    intro c hc hcond
    rcases List.mem_map.mp hc with ⟨f, hfadded, hfc⟩
    have hfmem : f ∈ sc.fields := (List.mem_filter.mp hfadded).1
    have hmem : c ∈ sc.fields.map (fun f => f.fieldname) :=
      hfc ▸ List.mem_map_of_mem _ hfmem
    have hc2 : (((sc.fields.map (fun f => f.fieldname)).contains c)) = true :=
      List.elem_eq_true_of_mem hmem
    rw [hc2] at hcond
    cases hcond
  rw [h311, h312]

theorem append_ne_self (p s : String) (hp : p.length ≠ 0) : p ++ s ≠ s := by
  intro hh
  have hlen : (p ++ s).length = s.length := congrArg String.length hh
  rw [String.length_append] at hlen
  omega

theorem createTableE_inv (smap : SchemaMap) (s tname : String) (sc : Schema)
    (db db' : DB)
    (hsc : lookupSchema smap s = some sc)
    (h : createTableE smap s tname db = .ok db') :
    db' = tset db tname
      { cols := buildCols sc, fks := buildFks sc, rows := [] } := by
  unfold createTableE at h
  simp only [hsc] at h
  split at h
  · exact absurd h (by simp)
  · split at h
    · exact ((Except.ok.injEq _ _).mp h).symm
    · exact absurd h (by simp)

theorem prestige_inv (smap : SchemaMap) (s : String) (sc : Schema)
    (rows : List Row) (db db' : DB)
    (hsc : lookupSchema smap s = some sc)
    (h : prestigeTheTable smap s rows db = .ok db') :
    tget db' s = some
      { cols := buildCols sc, fks := buildFks sc,
        rows := prestigeCopy rows } ∧
    (∀ tb, tb ≠ s → tb ≠ "__" ++ s → tget db' tb = tget db tb) := by
  unfold prestigeTheTable at h
  simp only [] at h
  cases hc : createTableE smap s ("__" ++ s) (tdrop db ("__" ++ s)) with
  | error e =>
    rw [hc] at h
    cases h
  | ok db2 =>
    simp only [hc] at h
    have hdb2 := createTableE_inv smap s ("__" ++ s) sc _ db2 hsc hc
    have htmp : tget db2 ("__" ++ s) = some
        { cols := buildCols sc, fks := buildFks sc,
          rows := ([] : List Row) } := by
      rw [hdb2, tget_tset, if_pos rfl]
    simp only [htmp] at h
    have hren := trename_spec (tdrop (tset db2 ("__" ++ s)
        { cols := buildCols sc, fks := buildFks sc, rows := [] ++ prestigeCopy rows }) s)
        ("__" ++ s) s
        { cols := buildCols sc, fks := buildFks sc, rows := [] ++ prestigeCopy rows } (by
        rw [tget_tdrop,
          if_neg (fun hh => append_ne_self "__" s (by decide) hh.symm),
          tget_tset, if_pos rfl])
    rw [hren] at h
    have hfin := (Except.ok.injEq _ _).mp h
    constructor
    · rw [← hfin, tget_tset, if_pos rfl]
      rfl
    · intro tb htb1 htb2
      rw [← hfin, tget_tset, if_neg (fun hh => htb1 hh.symm),
        tget_tdrop, if_neg (fun hh => htb2 hh.symm),
        tget_tdrop, if_neg (fun hh => htb1 hh.symm),
        tget_tset, if_neg (fun hh => htb2 hh.symm)]
      rw [hdb2, tget_tset, if_neg (fun hh => htb2 hh.symm),
        tget_tdrop, if_neg (fun hh => htb2 hh.symm)]

theorem addFK_inv (smap : SchemaMap) (s : String) (sc : Schema)
    (db db' : DB)
    (hsc : lookupSchema smap s = some sc)
    (h : addForeignKeysM smap s db = .ok db') :
    (∃ rows2, tget db' s = some
      { cols := buildCols sc, fks := buildFks sc, rows := rows2 }) ∧
    (∀ tb, tb ≠ s → tb ≠ "TEMP" ++ s → tget db' tb = tget db tb) := by
  unfold addForeignKeysM at h
  simp only [] at h
  cases hc : createTableE smap s ("TEMP" ++ s) db with
  | error e =>
    rw [hc] at h
    cases h
  | ok db1 =>
    simp only [hc] at h
    have hdb1 := createTableE_inv smap s ("TEMP" ++ s) sc _ db1 hsc hc
    cases hold : tget db1 s with
    | none =>
      simp only [hold] at h
      exact absurd h (by simp)
    | some told =>
      cases htmp : tget db1 ("TEMP" ++ s) with
      | none =>
        simp only [hold, htmp] at h
        exact absurd h (by simp)
      | some tt =>
        simp only [hold, htmp] at h
        have hren := trename_spec (tdrop (tset db1 ("TEMP" ++ s)
            { tt with rows := tt.rows ++ told.rows }) s) ("TEMP" ++ s) s
            { tt with rows := tt.rows ++ told.rows } (by
          rw [tget_tdrop,
            if_neg (fun hh => append_ne_self "TEMP" s (by decide) hh.symm),
            tget_tset, if_pos rfl])
        rw [hren] at h
        have hfin := (Except.ok.injEq _ _).mp h
        have htteq : tt =
            { cols := buildCols sc, fks := buildFks sc,
              rows := ([] : List Row) } := by
          rw [hdb1, tget_tset, if_pos rfl] at htmp
          exact (Option.some_inj.mp htmp).symm
        constructor
        · refine ⟨tt.rows ++ told.rows, ?_⟩
          rw [← hfin, tget_tset, if_pos rfl]
          rw [htteq]
        · intro tb htb1 htb2
          rw [← hfin, tget_tset, if_neg (fun hh => htb1 hh.symm),
            tget_tdrop, if_neg (fun hh => htb2 hh.symm),
            tget_tdrop, if_neg (fun hh => htb1 hh.symm),
            tget_tset, if_neg (fun hh => htb2 hh.symm)]
          rw [hdb1, tget_tset, if_neg (fun hh => htb2 hh.symm)]

theorem removeColumns_inv (smap : SchemaMap) (s : String) (sc : Schema)
    (targetColumns : List String) (db db' : DB)
    (hsc : lookupSchema smap s = some sc)
    (h : removeColumnsM smap s targetColumns db = .ok db') :
    (∃ rows2, tget db' s = some
      { cols := buildCols sc, fks := buildFks sc, rows := rows2 }) ∧
    (∀ tb, tb ≠ s → tb ≠ "__" ++ s → tget db' tb = tget db tb) := by
  unfold removeColumnsM at h
  simp only [hsc] at h
  cases hga : getAll smap db s { fields := (sc.fields.filter
      (fun f => !(f.fieldtype == FieldType.Table))).map (fun f => f.fieldname) } with
  | error e =>
    simp only [hga] at h
    exact absurd h (by simp)
  | ok rows =>
    simp only [hga] at h
    obtain ⟨h1, h2⟩ := prestige_inv smap s sc rows db db' hsc h
    exact ⟨⟨prestigeCopy rows, h1⟩, h2⟩

theorem alterTable_inv (smap : SchemaMap) (k : String) (sc : Schema)
    (db db0 : DB) (m : Nat)
    (hsc : lookupSchema smap k = some sc)
    (hLinks : ∀ f ∈ sc.fields, f.fieldtype = FieldType.Link →
      truthyTarget f.target = true)
    (h : alterTable smap k db = .ok (db0, m)) :
    (∃ t1, tget db0 k = some t1 ∧ tableOK sc t1) ∧
    (∀ tb, tb ≠ k → tb ≠ "__" ++ k → tb ≠ "TEMP" ++ k →
      tget db0 tb = tget db tb) := by
  unfold alterTable at h
  simp only [hsc] at h
  cases ht : tget db k with
  | none =>
    simp only [ht] at h
    exact absurd h (by simp)
  | some t =>
    simp only [ht] at h
    have hdb1k : ∃ t1, tget (if (columnDiff sc t.cols).added.isEmpty = true
        then db else tset db k { t with cols := t.cols ++
          (columnDiff sc t.cols).added.map (fun f => f.fieldname) }) k =
        some t1 ∧ t1.fks = t.fks ∧
        ((columnDiff sc t.cols).removed = [] →
          columnDiff sc t1.cols = ⟨[], []⟩) := by
      by_cases had : (columnDiff sc t.cols).added.isEmpty = true
      · rw [if_pos had]
        refine ⟨t, ht, rfl, ?_⟩
        intro hrm
        have hadd : (columnDiff sc t.cols).added = [] :=
          List.isEmpty_iff.mp had
        have heta : columnDiff sc t.cols = ⟨(columnDiff sc t.cols).added,
          (columnDiff sc t.cols).removed⟩ := rfl
        rw [heta, hadd, hrm]
      · rw [if_neg had]
        refine ⟨{ t with cols := t.cols ++
          (columnDiff sc t.cols).added.map (fun f => f.fieldname) },
          by rw [tget_tset, if_pos rfl], rfl, ?_⟩
        intro hrm
        exact columnDiff_after_add sc t.cols hrm
    have hdb1fr : ∀ tb, tb ≠ k →
        tget (if (columnDiff sc t.cols).added.isEmpty = true
          then db else tset db k { t with cols := t.cols ++
            (columnDiff sc t.cols).added.map (fun f => f.fieldname) }) tb =
        tget db tb := by
      intro tb htb
      by_cases had : (columnDiff sc t.cols).added.isEmpty = true
      · rw [if_pos had]
      · rw [if_neg had, tget_tset, if_neg (fun hh => htb hh.symm)]
    obtain ⟨t1, ht1, ht1fks, ht1ok⟩ := hdb1k
    cases hmid : (if (columnDiff sc t.cols).removed.isEmpty = true then
        Except.ok (if (columnDiff sc t.cols).added.isEmpty = true
          then db else tset db k { t with cols := t.cols ++
            (columnDiff sc t.cols).added.map (fun f => f.fieldname) })
      else removeColumnsM smap k (columnDiff sc t.cols).removed
        (if (columnDiff sc t.cols).added.isEmpty = true
          then db else tset db k { t with cols := t.cols ++
            (columnDiff sc t.cols).added.map (fun f => f.fieldname) })) with
    | error e =>
      simp only [hmid] at h
      exact absurd h (by simp)
    | ok db2 =>
      simp only [hmid] at h
      have hstep2 : (∃ t2, tget db2 k = some t2 ∧
          ((newFKfields sc t.fks) = [] →
            (columnDiff sc t.cols).removed = [] → tableOK sc t2) ∧
          ((columnDiff sc t.cols).removed ≠ [] → tableOK sc t2)) ∧
          (∀ tb, tb ≠ k → tb ≠ "__" ++ k → tget db2 tb = tget db tb) := by
        by_cases hrm : (columnDiff sc t.cols).removed.isEmpty = true
        · rw [if_pos hrm] at hmid
          have hdb2 := (Except.ok.injEq _ _).mp hmid
          have hrm' : (columnDiff sc t.cols).removed = [] :=
            List.isEmpty_iff.mp hrm
          refine ⟨⟨t1, by rw [← hdb2]; exact ht1, ?_, ?_⟩, ?_⟩
          · intro hfk _
            exact ⟨ht1ok hrm', by rw [ht1fks]; exact hfk⟩
          · intro hc
            exact absurd hrm' hc
          · intro tb htb _
            rw [← hdb2]
            exact hdb1fr tb htb
        · rw [if_neg hrm] at hmid
          obtain ⟨⟨rows2, hr2⟩, hfr2⟩ := removeColumns_inv smap k sc
            (columnDiff sc t.cols).removed _ db2 hsc hmid
          refine ⟨⟨_, hr2, ?_, ?_⟩, ?_⟩
          · intro _ _
            exact ⟨columnDiff_buildCols sc, newFK_buildFks sc hLinks⟩
          · intro _
            exact ⟨columnDiff_buildCols sc, newFK_buildFks sc hLinks⟩
          · intro tb htb1 htb2
            rw [hfr2 tb htb1 htb2]
            exact hdb1fr tb htb1
      obtain ⟨⟨t2, ht2, ht2ok1, ht2ok2⟩, hfr2⟩ := hstep2
      cases hlast : (if (newFKfields sc t.fks).isEmpty = true then
          Except.ok db2 else addForeignKeysM smap k db2) with
      | error e =>
        simp only [hlast] at h
        exact absurd h (by simp)
      | ok db3 =>
        simp only [hlast] at h
        have hpair := (Except.ok.injEq _ _).mp h
        have hdb0 : db3 = db0 := congrArg Prod.fst hpair
        by_cases hfk : (newFKfields sc t.fks).isEmpty = true
        · rw [if_pos hfk] at hlast
          have hdb3 := (Except.ok.injEq _ _).mp hlast
          have hfk' : (newFKfields sc t.fks) = [] := List.isEmpty_iff.mp hfk
          constructor
          · refine ⟨t2, ?_, ?_⟩
            · rw [← hdb0, ← hdb3]
              exact ht2
            · by_cases hrm : (columnDiff sc t.cols).removed = []
              · exact ht2ok1 hfk' hrm
              · exact ht2ok2 hrm
          · intro tb htb1 htb2 htb3
            rw [← hdb0, ← hdb3]
            exact hfr2 tb htb1 htb2
        · rw [if_neg hfk] at hlast
          obtain ⟨⟨rows3, hr3⟩, hfr3⟩ := addFK_inv smap k sc db2 db3 hsc hlast
          constructor
          · refine ⟨_, by rw [← hdb0]; exact hr3, ?_⟩
            exact ⟨columnDiff_buildCols sc, newFK_buildFks sc hLinks⟩
          · intro tb htb1 htb2 htb3
            rw [← hdb0, hfr3 tb htb1 htb3]
            exact hfr2 tb htb1 htb2

theorem process_step_spec (smap : SchemaMap) (k : String) (sc : Schema)
    (db db0 : DB) (m : Nat)
    (hsc : lookupSchema smap k = some sc)
    (hLinks : ∀ f ∈ sc.fields, f.fieldtype = FieldType.Link →
      truthyTarget f.target = true)
    (h : processCollectionSchema smap k db = .ok (db0, m)) :
    (∃ t1, tget db0 k = some t1 ∧ tableOK sc t1) ∧
    (∀ tb, tb ≠ k → tb ≠ "__" ++ k → tb ≠ "TEMP" ++ k →
      tget db0 tb = tget db tb) := by
  unfold processCollectionSchema at h
  by_cases hex : (tget db k).isSome = true
  · rw [if_pos hex] at h
    exact alterTable_inv smap k sc db db0 m hsc hLinks h
  · rw [if_neg hex] at h
    cases hc : createTableE smap k k db with
    | error e =>
      simp only [hc] at h
      exact absurd h (by simp)
    | ok d =>
      simp only [hc] at h
      have hd := createTableE_inv smap k k sc db d hsc hc
      have hpair := (Except.ok.injEq _ _).mp h
      have hdb0 : d = db0 := congrArg Prod.fst hpair
      constructor
      · refine ⟨{ cols := buildCols sc, fks := buildFks sc, rows := [] },
          ?_, ?_⟩
        · rw [← hdb0, hd, tget_tset, if_pos rfl]
        · exact ⟨columnDiff_buildCols sc, newFK_buildFks sc hLinks⟩
      · intro tb htb1 _ _
        rw [← hdb0, hd, tget_tset, if_neg (fun hh => htb1 hh.symm)]

theorem alterTable_identity (smap : SchemaMap) (k : String) (sc : Schema)
    (db : DB) (t : Table)
    (hsc : lookupSchema smap k = some sc)
    (ht : tget db k = some t) (hok : tableOK sc t) :
    alterTable smap k db = .ok (db, 0) := by
  unfold alterTable
  simp only [hsc, ht]
  rw [hok.1, hok.2]
  rfl

theorem process_identity (smap : SchemaMap) (k : String) (sc : Schema)
    (db : DB) (t : Table)
    (hsc : lookupSchema smap k = some sc)
    (ht : tget db k = some t) (hok : tableOK sc t) :
    processCollectionSchema smap k db = .ok (db, 0) := by
  unfold processCollectionSchema
  rw [if_pos (show (tget db k).isSome = true by rw [ht]; rfl)]
  exact alterTable_identity smap k sc db t hsc ht hok

theorem tableLoop_establishes (smap : SchemaMap)
    (hassoc : ∀ p ∈ smap, lookupSchema smap p.1 = some p.2)
    (hLinks : ∀ p ∈ smap, ∀ f ∈ p.2.fields, f.fieldtype = FieldType.Link →
      truthyTarget f.target = true)
    (hnoclash : ∀ p ∈ smap, ∀ q ∈ smap, p.1 ≠ "__" ++ q.1 ∧ p.1 ≠ "TEMP" ++ q.1)
    (pending : List (String × Schema)) (db db' : DB) (n : Nat)
    (hsub : ∀ p ∈ pending, p ∈ smap)
    (hnd : (pending.map Prod.fst).Nodup)
    (h : tableLoop smap pending db = .ok (db', n)) :
    (∀ p ∈ pending, p.2.isSingle = false →
      ∃ t, tget db' p.1 = some t ∧ tableOK p.2 t) ∧
    (∀ tb, (∀ p ∈ pending, tb ≠ p.1 ∧ tb ≠ "__" ++ p.1 ∧ tb ≠ "TEMP" ++ p.1) →
      tget db' tb = tget db tb) ∧
    (∀ p ∈ pending, p.2.isSingle = false →
      (∀ t0, tget db p.1 = some t0 → tableOK p.2 t0 → tget db' p.1 = some t0) ∧
      (tget db p.1 = none →
        tget db' p.1 = some
          { cols := buildCols p.2, fks := buildFks p.2,
            rows := ([] : List Row) })) := by
  induction pending generalizing db n with
  | nil =>
    unfold tableLoop at h
    have hdb : db = db' := congrArg Prod.fst ((Except.ok.injEq _ _).mp h)
    subst hdb
    exact ⟨fun p hp => absurd hp (by simp), fun tb _ => rfl,
      fun p hp => absurd hp (by simp)⟩
  | cons p rest ih =>
    obtain ⟨k, sc⟩ := p
    have hp : (k, sc) ∈ smap := hsub _ (List.mem_cons_self _ _)
    have hsck : lookupSchema smap k = some sc := hassoc _ hp
    have hndc : k ∉ rest.map Prod.fst ∧ (rest.map Prod.fst).Nodup := by
      rw [List.map_cons] at hnd
      exact List.nodup_cons.mp hnd
    have hsubr : ∀ q ∈ rest, q ∈ smap :=
      fun q hq => hsub q (List.mem_cons_of_mem _ hq)
    unfold tableLoop at h
    simp only [hsck] at h
    by_cases hsingle : sc.isSingle = true
    · rw [if_pos hsingle] at h
      obtain ⟨ih1, ih2, ih3⟩ := ih db n hsubr hndc.2 h
      refine ⟨?_, ?_, ?_⟩
      · intro q hq hqs
        rcases List.mem_cons.mp hq with heq | hq2
        · subst heq
          exact absurd hsingle (by rw [hqs]; simp)
        · exact ih1 q hq2 hqs
      · intro tb htb
        exact ih2 tb (fun q hq => htb q (List.mem_cons_of_mem _ hq))
      · intro q hq hqs
        rcases List.mem_cons.mp hq with heq | hq2
        · subst heq
          exact absurd hsingle (by rw [hqs]; simp)
        · exact ih3 q hq2 hqs
    · rw [if_neg hsingle] at h
      cases hps : processCollectionSchema smap k db with
      | error e =>
        simp only [hps] at h
        exact absurd h (by simp)
      | ok pr =>
        obtain ⟨db0, m⟩ := pr
        simp only [hps] at h
        cases hrest : tableLoop smap rest db0 with
        | error e =>
          simp only [hrest] at h
          exact absurd h (by simp)
        | ok pr2 =>
          obtain ⟨db2, n2⟩ := pr2
          simp only [hrest] at h
          have hdb' : db2 = db' :=
            congrArg Prod.fst ((Except.ok.injEq _ _).mp h)
          subst hdb'
          obtain ⟨hstep, hframe0⟩ := process_step_spec smap k sc db db0 m
            hsck (hLinks _ hp) hps
          obtain ⟨ih1, ih2, ih3⟩ := ih db0 n2 hsubr hndc.2 hrest
          have hk_not_rest : ∀ q ∈ rest,
              k ≠ q.1 ∧ k ≠ "__" ++ q.1 ∧ k ≠ "TEMP" ++ q.1 := by
            intro q hq
            refine ⟨?_, (hnoclash _ hp _ (hsubr _ hq)).1,
              (hnoclash _ hp _ (hsubr _ hq)).2⟩
            intro heq
            exact hndc.1 (heq ▸ List.mem_map_of_mem Prod.fst hq)
          have hrest_frame : ∀ q ∈ rest, tget db0 q.1 = tget db q.1 := by
            intro q hq
            have hq1 : q.1 ≠ k := by
              intro heq
              exact hndc.1 (heq ▸ List.mem_map_of_mem Prod.fst hq)
            exact hframe0 q.1 hq1 (hnoclash _ (hsubr _ hq) _ hp).1
              (hnoclash _ (hsubr _ hq) _ hp).2
          have hkeep : tget db2 k = tget db0 k :=
            ih2 k hk_not_rest
          refine ⟨?_, ?_, ?_⟩
          · intro q hq hqs
            rcases List.mem_cons.mp hq with heq | hq2
            · subst heq
              obtain ⟨t1, ht1, htok⟩ := hstep
              exact ⟨t1, by rw [hkeep]; exact ht1, htok⟩
            · exact ih1 q hq2 hqs
          · intro tb htb
            have h1 := ih2 tb (fun q hq => htb q (List.mem_cons_of_mem _ hq))
            have h2 := hframe0 tb (htb _ (List.mem_cons_self _ _)).1
              (htb _ (List.mem_cons_self _ _)).2.1
              (htb _ (List.mem_cons_self _ _)).2.2
            rw [h1, h2]
          · intro q hq hqs
            rcases List.mem_cons.mp hq with heq | hq2
            · subst heq
              constructor
              · intro t0 ht0 ht0ok
                have hid := process_identity smap k sc db t0 hsck ht0 ht0ok
                rw [hid] at hps
                have hdb0 : db = db0 :=
                  congrArg Prod.fst ((Except.ok.injEq _ _).mp hps)
                rw [hkeep, ← hdb0]
                exact ht0
              · intro ht0
                unfold processCollectionSchema at hps
                rw [if_neg (show ¬(tget db k).isSome = true by
                  rw [ht0]; simp)] at hps
                cases hc : createTableE smap k k db with
                | error e =>
                  rw [hc] at hps
                  exact absurd hps (by simp)
                | ok d =>
                  rw [hc] at hps
                  have hd := createTableE_inv smap k k sc db d hsck hc
                  have hdb0 : d = db0 :=
                    congrArg Prod.fst ((Except.ok.injEq _ _).mp hps)
                  rw [hkeep, ← hdb0, hd, tget_tset, if_pos rfl]
            · obtain ⟨hc1, hc2⟩ := ih3 q hq2 hqs
              have hfr := hrest_frame q hq2
              constructor
              · intro t0 ht0 ht0ok
                exact hc1 t0 (by rw [hfr]; exact ht0) ht0ok
              · intro ht0
                exact hc2 (by rw [hfr]; exact ht0)

theorem tableLoop_stable (smap : SchemaMap) (pending : List (String × Schema))
    (db : DB)
    (hassoc : ∀ p ∈ pending, lookupSchema smap p.1 = some p.2)
    (hok : ∀ p ∈ pending, p.2.isSingle = false →
      ∃ t, tget db p.1 = some t ∧ tableOK p.2 t) :
    tableLoop smap pending db = .ok (db, 0) := by
  induction pending with
  | nil => rfl
  | cons p rest ih =>
    obtain ⟨k, sc⟩ := p
    have hsck : lookupSchema smap k = some sc :=
      hassoc _ (List.mem_cons_self _ _)
    unfold tableLoop
    simp only [hsck]
    by_cases hsingle : sc.isSingle = true
    · rw [if_pos hsingle]
      exact ih (fun q hq => hassoc q (List.mem_cons_of_mem _ hq))
        (fun q hq => hok q (List.mem_cons_of_mem _ hq))
    · rw [if_neg hsingle]
      obtain ⟨t, ht, htok⟩ := hok _ (List.mem_cons_self _ _)
        (Bool.eq_false_iff.mpr hsingle)
      have hid := process_identity smap k sc db t hsck ht htok
      have hih := ih (fun q hq => hassoc q (List.mem_cons_of_mem _ hq))
        (fun q hq => hok q (List.mem_cons_of_mem _ hq))
      simp only [hid, hih]

theorem svShape_refl (db : DB) : svShape db db :=
  ⟨fun _ _ => rfl, fun t ht => ⟨t.rows, by rw [ht]⟩⟩

theorem svShape_trans (db1 db2 db3 : DB) (h1 : svShape db1 db2)
    (h2 : svShape db2 db3) : svShape db1 db3 := by
  refine ⟨fun tb htb => by rw [h2.1 tb htb, h1.1 tb htb], ?_⟩
  intro t ht
  obtain ⟨r1, hr1⟩ := h1.2 t ht
  obtain ⟨r2, hr2⟩ := h2.2 _ hr1
  exact ⟨r2, hr2⟩

theorem svDocEq_refl (k : String) (db : DB) : svDocEq k db db := by
  intro t t' ht ht'
  rw [ht] at ht'
  rw [Option.some_inj.mp ht']

theorem svDocEq_trans (k : String) (db1 db2 db3 : DB) (h12 : svShape db1 db2)
    (d12 : svDocEq k db1 db2) (d23 : svDocEq k db2 db3) :
    svDocEq k db1 db3 := by
  intro t t' ht ht'
  obtain ⟨r1, hr1⟩ := h12.2 t ht
  rw [d23 _ t' hr1 ht', d12 t _ ht hr1]

theorem sqlEq_vstr_inv (w : FVal) (a : String)
    (h : sqlEqVal w (FVal.vstr a) = true) : w = FVal.vstr a := by
  cases w with
  | vstr b =>
    have hb : (b == a) = true := h
    rw [eq_of_beq hb]
  | vnull => exact Bool.noConfusion h
  | vint n => exact Bool.noConfusion h
  | vbool b => exact Bool.noConfusion h
  | vlist l => exact Bool.noConfusion h

theorem sqlEq_vstr_functional (w : FVal) (a b : String)
    (h1 : sqlEqVal w (FVal.vstr a) = true)
    (h2 : sqlEqVal w (FVal.vstr b) = true) : a = b := by
  rw [sqlEq_vstr_inv w a h1] at h2
  exact FVal.vstr.inj (sqlEq_vstr_inv _ _ h2)

theorem filter_map_eq_of_pred (g : Row → Row) (p : Row → Bool) (l : List Row)
    (h : ∀ r ∈ l, p (g r) = p r ∧ (p r = true → g r = r)) :
    (l.map g).filter p = l.filter p := by
  induction l with
  | nil => rfl
  | cons a rest ih =>
    obtain ⟨hp, hid⟩ := h a (List.mem_cons_self _ _)
    have ih' := ih (fun r hr => h r (List.mem_cons_of_mem _ hr))
    simp only [List.map_cons, List.filter_cons, hp]
    cases hc : p a
    · simp only [Bool.false_eq_true, if_false]
      exact ih'
    · simp only [if_true]
      rw [hid hc, ih']

theorem updateSingleValue_writes (db : DB) (s fn : String) (v : FVal)
    (db' : DB) (h : updateSingleValue db s fn v = .ok db') :
    svShape db db' ∧ ∀ k, k ≠ s → svDocEq k db db' := by
  unfold updateSingleValue at h
  cases ht : tget db "SingleValue" with
  | none =>
    simp only [ht] at h
    exact absurd h (by simp)
  | some t =>
    simp only [ht] at h
    by_cases hany : (t.rows.any (fun r =>
        sqlEqVal (rowGetD r "parent" .vnull) (.vstr s) &&
          sqlEqVal (rowGetD r "fieldname" .vnull) (.vstr fn))) = true
    · rw [if_pos hany] at h
      have hdb' := (Except.ok.injEq _ _).mp h
      have hget : tget db' "SingleValue" = some
          { t with rows := t.rows.map (fun r =>
            if sqlEqVal (rowGetD r "parent" .vnull) (.vstr s) &&
                sqlEqVal (rowGetD r "fieldname" .vnull) (.vstr fn) then
              rowMerge r [("value", v), ("modifiedBy", .vstr SYSTEMSTR),
                ("modified", .vstr NOWSTR)]
            else r) } := by
        rw [← hdb', tget_tset, if_pos rfl]
      refine ⟨⟨?_, ?_⟩, ?_⟩
      · intro tb htb
        rw [← hdb', tget_tset, if_neg (fun hh => htb hh.symm)]
      · intro t0 ht0
        rw [ht] at ht0
        rw [← Option.some_inj.mp ht0]
        exact ⟨_, hget⟩
      · intro k hk t0 t1 ht0 ht1
        rw [ht] at ht0
        have ht0' : t = t0 := Option.some_inj.mp ht0
        subst ht0'
        rw [hget] at ht1
        rw [← Option.some_inj.mp ht1]
        apply filter_map_eq_of_pred
        intro r hr
        constructor
        · by_cases hc : (sqlEqVal (rowGetD r "parent" .vnull) (.vstr s) &&
              sqlEqVal (rowGetD r "fieldname" .vnull) (.vstr fn)) = true
          · rw [if_pos hc]
            exact svParentPred_merge_upd k v r
          · rw [if_neg hc]
        · intro hpr
          rw [if_neg ?_]
          intro hc
          have hc2 := hc
          simp only [Bool.and_eq_true] at hc2
          have hpk : sqlEqVal (rowGetD r "parent" .vnull) (.vstr k) = true := hpr
          exact hk (sqlEq_vstr_functional _ _ _ hpk hc2.1)
    · rw [if_neg hany] at h
      have hdb' := (Except.ok.injEq _ _).mp h
      have hget : tget db' "SingleValue" = some
          { t with rows := t.rows ++ [metaRow ++
            [("parent", .vstr s), ("fieldname", .vstr fn), ("value", v),
             ("name", .vstr (getRandomString db.counter))]] } := by
        rw [← hdb']
        show tget (tset db "SingleValue" _) "SingleValue" = _
        rw [tget_tset, if_pos rfl]
      refine ⟨⟨?_, ?_⟩, ?_⟩
      · intro tb htb
        rw [← hdb']
        show tget (tset db "SingleValue" _) tb = tget db tb
        rw [tget_tset, if_neg (fun hh => htb hh.symm)]
      · intro t0 ht0
        rw [ht] at ht0
        rw [← Option.some_inj.mp ht0]
        exact ⟨_, hget⟩
      · intro k hk t0 t1 ht0 ht1
        rw [ht] at ht0
        have ht0' : t = t0 := Option.some_inj.mp ht0
        subst ht0'
        rw [hget] at ht1
        rw [← Option.some_inj.mp ht1]
        show (t.rows ++ [_]).filter (svParentPred k) = t.rows.filter _
        rw [List.filter_append]
        have hnew : svParentPred k (metaRow ++
            [("parent", .vstr s), ("fieldname", .vstr fn), ("value", v),
             ("name", .vstr (getRandomString db.counter))]) = false := by
          show sqlEqVal (rowGetD _ "parent" .vnull) (.vstr k) = false
          have hp : rowGetD (metaRow ++
              [("parent", .vstr s), ("fieldname", .vstr fn), ("value", v),
               ("name", .vstr (getRandomString db.counter))]) "parent" .vnull =
              .vstr s := rfl
          rw [hp]
          show (s == k) = false
          exact beq_eq_false_iff_ne.mpr (fun hh => hk hh.symm)
        rw [List.filter_cons, hnew]
        simp

theorem svWrites_refl (s : String) (db : DB) : svWrites s db db :=
  ⟨svShape_refl db, fun k _ => svDocEq_refl k db⟩

theorem svWrites_trans (s : String) (db1 db2 db3 : DB)
    (h1 : svWrites s db1 db2) (h2 : svWrites s db2 db3) :
    svWrites s db1 db3 :=
  ⟨svShape_trans _ _ _ h1.1 h2.1,
   fun k hk => svDocEq_trans k _ _ _ h1.1 (h1.2 k hk) (h2.2 k hk)⟩

theorem svWriteLoop_writes (s : String) (pairs : List (String × FVal))
    (db db' : DB) (h : svWriteLoop db s pairs = .ok db') :
    svWrites s db db' := by
  induction pairs generalizing db with
  | nil =>
    have hdb : db = db' := (Except.ok.injEq _ _).mp h
    subst hdb
    exact svWrites_refl s db
  | cons pr rest ih =>
    obtain ⟨fn, v⟩ := pr
    unfold svWriteLoop at h
    cases hu : updateSingleValue db s fn v with
    | error e =>
      simp only [hu] at h
      exact absurd h (by simp)
    | ok db1 =>
      simp only [hu] at h
      exact svWrites_trans s db db1 db'
        (updateSingleValue_writes db s fn v db1 hu) (ih db1 h)

theorem svFieldsLoop_writes (s : String) (fvm : FieldValueMap)
    (flds : List Field) (db db' : DB)
    (h : svFieldsLoop db s fvm flds = .ok db') :
    svWrites s db db' := by
  induction flds generalizing db with
  | nil =>
    have hdb : db = db' := (Except.ok.injEq _ _).mp h
    subst hdb
    exact svWrites_refl s db
  | cons f fs ih =>
    unfold svFieldsLoop at h
    cases hv : rowGet fvm f.fieldname with
    | none =>
      simp only [hv] at h
      exact ih db h
    | some v =>
      simp only [hv] at h
      cases hu : updateSingleValue db s f.fieldname v with
      | error e =>
        simp only [hu] at h
        exact absurd h (by simp)
      | ok db1 =>
        simp only [hu] at h
        exact svWrites_trans s db db1 db'
          (updateSingleValue_writes db s f.fieldname v db1 hu) (ih db1 h)

theorem updateNonExtant_writes (smap : SchemaMap) (s : String) (db db' : DB)
    (h : updateNonExtant smap db s = .ok db') : svWrites s db db' := by
  unfold updateNonExtant at h
  cases hsc : lookupSchema smap s with
  | none =>
    simp only [hsc] at h
    exact absurd h (by simp)
  | some sc =>
    cases ht : tget db "SingleValue" with
    | none =>
      simp only [hsc, ht] at h
      exact absurd h (by simp)
    | some t =>
      simp only [hsc, ht] at h
      exact svWriteLoop_writes s _ db db' h

theorem updateSingleValues_writes (smap : SchemaMap) (s : String)
    (fvm : FieldValueMap) (db db' : DB)
    (h : updateSingleValues smap db s fvm = .ok db') : svWrites s db db' := by
  unfold updateSingleValues at h
  cases hsc : lookupSchema smap s with
  | none =>
    simp only [hsc] at h
    exact absurd h (by simp)
  | some sc =>
    simp only [hsc] at h
    exact svFieldsLoop_writes s fvm sc.fields db db' h

theorem singleLoop_writes (smap : SchemaMap) (pending : List (String × Schema))
    (db db' : DB) (h : singleLoop smap pending db = .ok db') :
    svShape db db' ∧
    ∀ k, (∀ p ∈ pending, p.1 ≠ k) → svDocEq k db db' := by
  induction pending generalizing db with
  | nil =>
    have hdb : db = db' := (Except.ok.injEq _ _).mp h
    subst hdb
    exact ⟨svShape_refl db, fun k _ => svDocEq_refl k db⟩
  | cons p rest ih =>
    obtain ⟨k0, sc0⟩ := p
    unfold singleLoop at h
    cases hsc : lookupSchema smap k0 with
    | none =>
      simp only [hsc] at h
      exact absurd h (by simp)
    | some sc =>
      simp only [hsc] at h
      by_cases hsingle : sc.isSingle = true
      · rw [hsingle] at h
        simp only [Bool.not_true] at h
        rw [if_neg (by simp)] at h
        cases hex : singleExists db k0 with
        | error e =>
          simp only [hex] at h
          exact absurd h (by simp)
        | ok b =>
          simp only [hex] at h
          cases b with
          | true =>
            cases hu : updateNonExtant smap db k0 with
            | error e =>
              simp only [hu] at h
              exact absurd h (by simp)
            | ok db1 =>
              simp only [hu] at h
              have hw := updateNonExtant_writes smap k0 db db1 hu
              obtain ⟨ihs, ihd⟩ := ih db1 h
              refine ⟨svShape_trans _ _ _ hw.1 ihs, ?_⟩
              intro k hk
              have hk0 : k ≠ k0 :=
                fun heq => (hk _ (List.mem_cons_self _ _)) heq.symm
              exact svDocEq_trans k _ _ _ hw.1 (hw.2 k hk0)
                (ihd k (fun q hq => hk q (List.mem_cons_of_mem _ hq)))
          | false =>
            by_cases hall : (sc.fields.all (fun f => f.fdefault.isNone)) = true
            · rw [if_pos hall] at h
              obtain ⟨ihs, ihd⟩ := ih db h
              exact ⟨ihs, fun k hk =>
                ihd k (fun q hq => hk q (List.mem_cons_of_mem _ hq))⟩
            · rw [if_neg hall] at h
              cases hu : updateSingleValues smap db k0 (sc.fields.foldl
                  (fun acc f =>
                    match f.fdefault with
                    | some v => setEntry acc f.fieldname v
                    | none => acc) ([] : Row)) with
              | error e =>
                simp only [hu] at h
                exact absurd h (by simp)
              | ok db1 =>
                simp only [hu] at h
                have hw := updateSingleValues_writes smap k0 _ db db1 hu
                obtain ⟨ihs, ihd⟩ := ih db1 h
                refine ⟨svShape_trans _ _ _ hw.1 ihs, ?_⟩
                intro k hk
                have hk0 : k ≠ k0 :=
                  fun heq => (hk _ (List.mem_cons_self _ _)) heq.symm
                exact svDocEq_trans k _ _ _ hw.1 (hw.2 k hk0)
                  (ihd k (fun q hq => hk q (List.mem_cons_of_mem _ hq)))
      · have hsingle' : sc.isSingle = false := Bool.eq_false_iff.mpr hsingle
        rw [hsingle'] at h
        simp only [Bool.not_false] at h
        rw [if_pos trivial] at h
        obtain ⟨ihs, ihd⟩ := ih db h
        exact ⟨ihs, fun k hk =>
          ihd k (fun q hq => hk q (List.mem_cons_of_mem _ hq))⟩

theorem svKeyPred_absorb (k fn : String) (r : Row) :
    (svParentPred k r && svKeyPred k fn r) = svKeyPred k fn r := by
  unfold svKeyPred
  cases h : svParentPred k r
  · simp
  · simp

theorem svValue_docEq (k fn : String) (t t' : Table)
    (hd : t'.rows.filter (svParentPred k) = t.rows.filter (svParentPred k)) :
    svValue t' k fn = svValue t k fn := by
  unfold svValue
  have habs : ∀ l : List Row,
      l.find? (fun r => svParentPred k r && svKeyPred k fn r) =
      l.find? (svKeyPred k fn) :=
    fun l => find?_congr_mem l _ _ (fun r _ => svKeyPred_absorb k fn r)
  rw [← habs t'.rows, ← find?_filter_and, hd, find?_filter_and, habs t.rows]

theorem any_docEq (k : String) (t t' : Table)
    (hd : t'.rows.filter (svParentPred k) = t.rows.filter (svParentPred k)) :
    t'.rows.any (svParentPred k) = t.rows.any (svParentPred k) := by
  rw [← filter_not_isEmpty, ← filter_not_isEmpty, hd]

theorem svWf_docEq (k : String) (t t' : Table)
    (hd : t'.rows.filter (svParentPred k) = t.rows.filter (svParentPred k))
    (hwf : svWf t k) : svWf t' k := by
  obtain ⟨h1, h2⟩ := hwf
  constructor
  · intro r hr hp
    have hrf : r ∈ t'.rows.filter (svParentPred k) :=
      List.mem_filter.mpr ⟨hr, hp⟩
    rw [hd] at hrf
    obtain ⟨hr2, hp2⟩ := List.mem_filter.mp hrf
    exact h1 r hr2 hp2
  · show ((t'.rows.filter (svParentPred k)).map _).Nodup
    rw [hd]
    exact h2

theorem svStable_docEq (k : String) (sc : Schema) (t t' : Table)
    (hd : t'.rows.filter (svParentPred k) = t.rows.filter (svParentPred k))
    (hst : svStable t k sc) : svStable t' k sc := by
  rcases hst with ⟨ha, hv⟩ | ⟨ha, hn⟩
  · refine Or.inl ⟨by rw [any_docEq k t t' hd]; exact ha, ?_⟩
    intro f hf hdef
    rw [svValue_docEq k f.fieldname t t' hd]
    exact hv f hf hdef
  · exact Or.inr ⟨by rw [any_docEq k t t' hd]; exact ha, hn⟩

theorem svValue_isSome_any (t : Table) (k fn : String)
    (h : (svValue t k fn).isSome = true) :
    t.rows.any (svParentPred k) = true := by
  unfold svValue at h
  cases hf : t.rows.find? (svKeyPred k fn) with
  | none =>
    rw [hf] at h
    exact absurd h (by simp)
  | some r =>
    have hrm := List.mem_of_find?_eq_some hf
    have hrp := List.find?_some hf
    have hp : svParentPred k r = true := by
      unfold svKeyPred at hrp
      simp only [Bool.and_eq_true] at hrp
      exact hrp.1
    exact List.any_eq_true.mpr ⟨r, hrm, hp⟩

theorem svValue_isSome_contains (t : Table) (k fn : String)
    (h : (svValue t k fn).isSome = true) :
    (t.rows.filterMap (fun r =>
      if sqlEqVal (rowGetD r "parent" .vnull) (.vstr k) then
        match rowGet r "fieldname" with
        | some (.vstr fn2) => some fn2
        | _ => none
      else none)).contains fn = true := by
  unfold svValue at h
  cases hf : t.rows.find? (svKeyPred k fn) with
  | none =>
    rw [hf] at h
    exact absurd h (by simp)
  | some r =>
    have hrm := List.mem_of_find?_eq_some hf
    have hrp := List.find?_some hf
    unfold svKeyPred at hrp
    simp only [Bool.and_eq_true] at hrp
    obtain ⟨hp, hfld⟩ := hrp
    have hp' : sqlEqVal (rowGetD r "parent" .vnull) (.vstr k) = true := hp
    have hval : rowGetD r "fieldname" .vnull = .vstr fn :=
      sqlEq_vstr_inv _ fn hfld
    have hg : rowGet r "fieldname" = some (.vstr fn) := by
      cases hg0 : rowGet r "fieldname" with
      | none =>
        have : (FVal.vnull : FVal) = .vstr fn := by
          rw [← hval]
          show FVal.vnull = (rowGet r "fieldname").getD .vnull
          rw [hg0]
          rfl
        exact absurd this (by simp)
      | some w =>
        have hw : w = .vstr fn := by
          rw [← hval]
          show w = (rowGet r "fieldname").getD .vnull
          rw [hg0]
          rfl
        rw [hw]
    apply List.elem_eq_true_of_mem
    apply List.mem_filterMap.mpr
    refine ⟨r, hrm, ?_⟩
    rw [if_pos hp', hg]

theorem contains_svValue_isSome (t : Table) (k fn : String)
    (h : (t.rows.filterMap (fun r =>
      if sqlEqVal (rowGetD r "parent" .vnull) (.vstr k) then
        match rowGet r "fieldname" with
        | some (.vstr fn2) => some fn2
        | _ => none
      else none)).contains fn = true) :
    (svValue t k fn).isSome = true := by
  have hm := List.mem_of_elem_eq_true h
  obtain ⟨r, hrm, hr⟩ := List.mem_filterMap.mp hm
  by_cases hp : sqlEqVal (rowGetD r "parent" .vnull) (.vstr k) = true
  · rw [if_pos hp] at hr
    cases hg : rowGet r "fieldname" with
    | none =>
      rw [hg] at hr
      exact absurd hr (by simp)
    | some w =>
      rw [hg] at hr
      cases w with
      | vstr fn2 =>
        have hfn2 : fn2 = fn := Option.some_inj.mp hr
        subst hfn2
        have hkey : svKeyPred k fn2 r = true := by
          unfold svKeyPred
          rw [Bool.and_eq_true]
          refine ⟨hp, ?_⟩
          have hval : rowGetD r "fieldname" .vnull = .vstr fn2 := by
            show (rowGet r "fieldname").getD .vnull = _
            rw [hg]
            rfl
          rw [hval]
          show (fn2 == fn2) = true
          exact beq_self_eq_true fn2
        have hsome : (t.rows.find? (svKeyPred k fn2)).isSome = true := by
          rw [List.find?_isSome]
          exact ⟨r, hrm, hkey⟩
        unfold svValue
        cases hf : t.rows.find? (svKeyPred k fn2) with
        | none =>
          rw [hf] at hsome
          exact absurd hsome (by simp)
        | some r1 => rfl
      | vnull => exact absurd hr (by simp)
      | vint n => exact absurd hr (by simp)
      | vbool b => exact absurd hr (by simp)
      | vlist l => exact absurd hr (by simp)
  · rw [if_neg hp] at hr
    exact absurd hr (by simp)

theorem updateSingleValue_any_mono (db : DB) (s fn : String) (v : FVal)
    (db' : DB) (t t' : Table) (k : String)
    (h : updateSingleValue db s fn v = .ok db')
    (ht : tget db "SingleValue" = some t)
    (ht' : tget db' "SingleValue" = some t')
    (hany : t.rows.any (svParentPred k) = true) :
    t'.rows.any (svParentPred k) = true := by
  unfold updateSingleValue at h
  simp only [ht] at h
  obtain ⟨r0, hr0m, hr0⟩ := List.any_eq_true.mp hany
  by_cases hc : (t.rows.any (fun r =>
      sqlEqVal (rowGetD r "parent" .vnull) (.vstr s) &&
        sqlEqVal (rowGetD r "fieldname" .vnull) (.vstr fn))) = true
  · rw [if_pos hc] at h
    have hdb' := (Except.ok.injEq _ _).mp h
    have ht'2 : tget db' "SingleValue" = some
        { t with rows := t.rows.map (fun r =>
          if sqlEqVal (rowGetD r "parent" .vnull) (.vstr s) &&
              sqlEqVal (rowGetD r "fieldname" .vnull) (.vstr fn) then
            rowMerge r [("value", v), ("modifiedBy", .vstr SYSTEMSTR),
              ("modified", .vstr NOWSTR)]
          else r) } := by
      rw [← hdb', tget_tset, if_pos rfl]
    rw [ht'2] at ht'
    rw [← Option.some_inj.mp ht']
    apply List.any_eq_true.mpr
    refine ⟨_, List.mem_map_of_mem _ hr0m, ?_⟩
    by_cases hr0c : (sqlEqVal (rowGetD r0 "parent" .vnull) (.vstr s) &&
        sqlEqVal (rowGetD r0 "fieldname" .vnull) (.vstr fn)) = true
    · rw [if_pos hr0c, svParentPred_merge_upd]
      exact hr0
    · rw [if_neg hr0c]
      exact hr0
  · rw [if_neg hc] at h
    have hdb' := (Except.ok.injEq _ _).mp h
    have ht'2 : tget db' "SingleValue" = some
        { t with rows := t.rows ++ [metaRow ++
          [("parent", .vstr s), ("fieldname", .vstr fn), ("value", v),
           ("name", .vstr (getRandomString db.counter))]] } := by
      rw [← hdb']
      show tget (tset db "SingleValue" _) "SingleValue" = _
      rw [tget_tset, if_pos rfl]
    rw [ht'2] at ht'
    rw [← Option.some_inj.mp ht']
    show (t.rows ++ _).any (svParentPred k) = true
    rw [List.any_append, hany]
    rfl

theorem rowGet_fold_defaults_skip (flds : List Field) (acc : Row) (fn : String)
    (h : ∀ f ∈ flds, f.fieldname = fn → f.fdefault = none) :
    rowGet (flds.foldl (fun acc f =>
      match f.fdefault with
      | some v => setEntry acc f.fieldname v
      | none => acc) acc) fn = rowGet acc fn := by
  induction flds generalizing acc with
  | nil => rfl
  | cons g gs ih =>
    rw [List.foldl_cons]
    cases hd : g.fdefault with
    | none =>
      simp only [hd]
      exact ih acc (fun f hf => h f (List.mem_cons_of_mem _ hf))
    | some v =>
      simp only [hd]
      rw [ih _ (fun f hf => h f (List.mem_cons_of_mem _ hf))]
      rw [rowGet_setEntry]
      rw [if_neg ?_]
      intro heq
      have := h g (List.mem_cons_self _ _) heq
      rw [this] at hd
      exact Option.noConfusion hd

theorem rowGet_fold_defaults_hit (flds : List Field) (acc : Row) (f : Field)
    (v : FVal) (hmem : f ∈ flds) (hd : f.fdefault = some v)
    (hnd : (flds.map (fun g => g.fieldname)).Nodup) :
    rowGet (flds.foldl (fun acc g =>
      match g.fdefault with
      | some w => setEntry acc g.fieldname w
      | none => acc) acc) f.fieldname = some v := by
  induction flds generalizing acc with
  | nil => exact absurd hmem (by simp)
  | cons g gs ih =>
    have hndc : g.fieldname ∉ gs.map (fun q => q.fieldname) ∧
        (gs.map (fun q => q.fieldname)).Nodup := by
      rw [List.map_cons] at hnd
      exact List.nodup_cons.mp hnd
    rw [List.foldl_cons]
    rcases List.mem_cons.mp hmem with heq | hmem2
    · subst heq
      rw [hd]
      rw [rowGet_fold_defaults_skip gs _ f.fieldname ?_]
      · rw [rowGet_setEntry, if_pos rfl]
      · intro q hq heq
        exact absurd (heq ▸ List.mem_map_of_mem (fun z => z.fieldname) hq)
          hndc.1
    · cases hgd : g.fdefault with
      | none =>
        simp only [hgd]
        exact ih acc hmem2 hndc.2
      | some w =>
        simp only [hgd]
        exact ih _ hmem2 hndc.2

theorem rowGet_fold_defaults_none (flds : List Field) (f : Field)
    (hmem : f ∈ flds) (hd : f.fdefault = none)
    (hnd : (flds.map (fun g => g.fieldname)).Nodup) :
    rowGet (flds.foldl (fun acc g =>
      match g.fdefault with
      | some w => setEntry acc g.fieldname w
      | none => acc) ([] : Row)) f.fieldname = none := by
  rw [rowGet_fold_defaults_skip]
  · rfl
  · intro q hq heq
    have hqf : q = f := by
      have := List.inj_on_of_nodup_map hnd hq hmem
      exact this heq
    rw [hqf]
    exact hd

theorem svWriteLoop_spec (s : String) (pairs : List (String × FVal))
    (db : DB) (t : Table) (ht : tget db "SingleValue" = some t)
    (hnd : (pairs.map Prod.fst).Nodup) :
    ∃ db' t', svWriteLoop db s pairs = .ok db' ∧
      tget db' "SingleValue" = some t' ∧
      (∀ pr ∈ pairs, svValue t' s pr.1 = some pr.2) ∧
      (∀ fn, (∀ pr ∈ pairs, pr.1 ≠ fn) → svValue t' s fn = svValue t s fn) ∧
      (svWf t s → svWf t' s) ∧
      (t.rows.any (svParentPred s) = true →
        t'.rows.any (svParentPred s) = true) := by
  induction pairs generalizing db t with
  | nil =>
    exact ⟨db, t, rfl, ht, fun pr hpr => absurd hpr (by simp),
      fun fn _ => rfl, fun hw => hw, fun ha => ha⟩
  | cons pr rest ih =>
    obtain ⟨fn0, v0⟩ := pr
    have hndc : fn0 ∉ rest.map Prod.fst ∧ (rest.map Prod.fst).Nodup := by
      rw [List.map_cons] at hnd
      exact List.nodup_cons.mp hnd
    rcases updateSingleValue_spec db s fn0 v0 t ht with
      ⟨db1, t1, hupd, ht1, hfr1, hval1, hother1, hwf1⟩
    rcases ih db1 t1 ht1 hndc.2 with ⟨db', t', hloop, ht', hw, hu, hwf, hany⟩
    refine ⟨db', t', ?_, ht', ?_, ?_, ?_, ?_⟩
    · show svWriteLoop db s ((fn0, v0) :: rest) = .ok db'
      unfold svWriteLoop
      simp only [hupd]
      exact hloop
    · intro q hq
      rcases List.mem_cons.mp hq with heq | hq2
      · subst heq
        rw [hu fn0 (fun p2 hp2 heq2 =>
          hndc.1 (heq2 ▸ List.mem_map_of_mem Prod.fst hp2))]
        exact hval1
      · exact hw q hq2
    · intro fn hfn
      rw [hu fn (fun q hq => hfn q (List.mem_cons_of_mem _ hq))]
      exact hother1 s fn
        (fun hh => (hfn _ (List.mem_cons_self _ _)) hh.2.symm)
    · intro h0
      exact hwf (hwf1 h0)
    · intro h0
      exact hany (updateSingleValue_any_mono db s fn0 v0 db1 t t1 s
        hupd ht ht1 h0)

theorem nonExtant_fst_sublist (existing : List String) (flds : List Field) :
    ((flds.filterMap (fun f =>
      match f.fdefault with
      | some v => if existing.contains f.fieldname then none
        else some (f.fieldname, v)
      | none => none)).map Prod.fst).Sublist
      (flds.map (fun f => f.fieldname)) := by
  induction flds with
  | nil => simp
  | cons g gs ih =>
    cases hd : g.fdefault with
    | none =>
      simp only [List.filterMap_cons, hd]
      exact List.Sublist.cons _ ih
    | some v =>
      by_cases hc : existing.contains g.fieldname = true
      · simp only [List.filterMap_cons, hd, hc, if_true]
        exact List.Sublist.cons _ ih
      · have hc' : existing.contains g.fieldname = false :=
          Bool.eq_false_iff.mpr hc
        simp only [List.filterMap_cons, hd, hc', Bool.false_eq_true, if_false,
          List.map_cons]
        exact List.Sublist.cons₂ _ ih

theorem updateNonExtant_identity (smap : SchemaMap) (k : String) (sc : Schema)
    (db : DB) (t : Table)
    (hsc : lookupSchema smap k = some sc)
    (ht : tget db "SingleValue" = some t)
    (hst : ∀ f ∈ sc.fields, f.fdefault.isSome = true →
      (svValue t k f.fieldname).isSome = true) :
    updateNonExtant smap db k = .ok db := by
  unfold updateNonExtant
  simp only [hsc, ht]
  have hne : sc.fields.filterMap (fun f =>
      match f.fdefault with
      | some v => if (t.rows.filterMap (fun r =>
          if sqlEqVal (rowGetD r "parent" .vnull) (.vstr k) then
            match rowGet r "fieldname" with
            | some (.vstr fn) => some fn
            | _ => none
          else none)).contains f.fieldname then none
        else some (f.fieldname, v)
      | none => none) = [] := by
    rw [List.filterMap_eq_nil_iff]
    intro f hf
    cases hd : f.fdefault with
    | none => rfl
    | some v =>
      have hc := svValue_isSome_contains t k f.fieldname
        (hst f hf (by rw [hd]; rfl))
      simp only [hc]
      rw [if_pos trivial]
  rw [hne]
  rfl

theorem updateNonExtant_establishes (smap : SchemaMap) (k : String)
    (sc : Schema) (db db' : DB) (t : Table)
    (hsc : lookupSchema smap k = some sc)
    (ht : tget db "SingleValue" = some t)
    (hfn : (sc.fields.map (fun f => f.fieldname)).Nodup)
    (hwf : svWf t k)
    (hany : t.rows.any (svParentPred k) = true)
    (h : updateNonExtant smap db k = .ok db') :
    ∃ t', tget db' "SingleValue" = some t' ∧ svStable t' k sc ∧ svWf t' k := by
  unfold updateNonExtant at h
  simp only [hsc, ht] at h
  set ex := t.rows.filterMap (fun r =>
      if sqlEqVal (rowGetD r "parent" .vnull) (.vstr k) then
        match rowGet r "fieldname" with
        | some (.vstr fn) => some fn
        | _ => none
      else none) with hex
  set ne := sc.fields.filterMap (fun f =>
      match f.fdefault with
      | some v => if ex.contains f.fieldname then none
        else some (f.fieldname, v)
      | none => none) with hneod
  have hnd : (ne.map Prod.fst).Nodup := by
    rw [hneod, hex]
    exact (nonExtant_fst_sublist _ sc.fields).nodup hfn
  rcases svWriteLoop_spec k ne db t ht hnd with
    ⟨db2, t', hloop, ht', hwrt, hunt, hwfp, hanyp⟩
  have hdb2 : db2 = db' := by
    rw [hloop] at h
    exact (Except.ok.injEq _ _).mp h
  subst hdb2
  refine ⟨t', ht', Or.inl ⟨hanyp hany, ?_⟩, hwfp hwf⟩
  intro f hf hdef
  cases hd : f.fdefault with
  | none =>
    rw [hd] at hdef
    exact absurd hdef (by simp)
  | some v =>
    by_cases hc : ex.contains f.fieldname = true
    · have horig : (svValue t k f.fieldname).isSome = true :=
        contains_svValue_isSome t k f.fieldname (hex ▸ hc)
      have hpres : svValue t' k f.fieldname = svValue t k f.fieldname := by
        apply hunt
        intro pr hpr heq
        rw [hneod] at hpr
        obtain ⟨g, hg, hgr⟩ := List.mem_filterMap.mp hpr
        cases hgd : g.fdefault with
        | none =>
          simp only [hgd] at hgr
          exact absurd hgr (by simp)
        | some w =>
          simp only [hgd] at hgr
          by_cases hgc : ex.contains g.fieldname = true
          · rw [if_pos hgc] at hgr
            exact absurd hgr (by simp)
          · rw [if_neg hgc] at hgr
            have hpr1 : pr.1 = g.fieldname := by
              rw [← Option.some_inj.mp hgr]
            rw [hpr1] at heq
            rw [heq] at hgc
            exact hgc hc
      rw [hpres]
      exact horig
    · have hmem : (f.fieldname, v) ∈ ne := by
        rw [hneod]
        apply List.mem_filterMap.mpr
        refine ⟨f, hf, ?_⟩
        simp only [hd]
        rw [if_neg hc]
      rw [hwrt (f.fieldname, v) hmem]
      rfl

theorem updateSingleValues_establishes (smap : SchemaMap) (k : String)
    (sc : Schema) (db db' : DB) (t : Table)
    (hsc : lookupSchema smap k = some sc)
    (ht : tget db "SingleValue" = some t)
    (hfn : (sc.fields.map (fun f => f.fieldname)).Nodup)
    (hwf : svWf t k)
    (hnotall : ¬(sc.fields.all (fun f => f.fdefault.isNone)) = true)
    (h : updateSingleValues smap db k (sc.fields.foldl (fun acc f =>
      match f.fdefault with
      | some v => setEntry acc f.fieldname v
      | none => acc) ([] : Row)) = .ok db') :
    ∃ t', tget db' "SingleValue" = some t' ∧ svStable t' k sc ∧ svWf t' k := by
  unfold updateSingleValues at h
  simp only [hsc] at h
  rcases svFieldsLoop_spec k (sc.fields.foldl (fun acc f =>
      match f.fdefault with
      | some v => setEntry acc f.fieldname v
      | none => acc) ([] : Row)) sc.fields db t ht hfn with
    ⟨db2, t', hloop, ht', hfr, hw, hu, hwfp⟩
  have hdb2 : db2 = db' := by
    rw [hloop] at h
    exact (Except.ok.injEq _ _).mp h
  subst hdb2
  have hexf : ∃ f ∈ sc.fields, f.fdefault.isNone = false := by
    by_contra hno
    push_neg at hno
    apply hnotall
    apply List.all_eq_true.mpr
    intro f hf
    cases hb : f.fdefault.isNone with
    | false => exact absurd hb (hno f hf)
    | true => rfl
  obtain ⟨f0, hf0, hf0d⟩ := hexf
  have hv0 : ∃ v0, f0.fdefault = some v0 := by
    cases hfd : f0.fdefault with
    | none =>
      rw [hfd] at hf0d
      exact absurd hf0d (by simp)
    | some w => exact ⟨w, rfl⟩
  obtain ⟨v0, hv0⟩ := hv0
  have hget0 := rowGet_fold_defaults_hit sc.fields [] f0 v0 hf0 hv0 hfn
  have hval0 : svValue t' k f0.fieldname = some v0 := hw f0 hf0 v0 hget0
  have hany : t'.rows.any (svParentPred k) = true := by
    apply svValue_isSome_any t' k f0.fieldname
    rw [hval0]
    rfl
  refine ⟨t', ht', Or.inl ⟨hany, ?_⟩, hwfp hwf⟩
  intro f hf hdef
  cases hd : f.fdefault with
  | none =>
    rw [hd] at hdef
    exact absurd hdef (by simp)
  | some v =>
    have hget := rowGet_fold_defaults_hit sc.fields [] f v hf hd hfn
    rw [hw f hf v hget]
    rfl

theorem singles_head_transport (k0 : String) (sc0 : Schema) (smap : SchemaMap)
    (rest : List (String × Schema)) (db1 db' : DB) (t1 : Table)
    (hnotin : k0 ∉ rest.map Prod.fst)
    (ht1 : tget db1 "SingleValue" = some t1)
    (hst1 : svStable t1 k0 sc0) (hwf1 : svWf t1 k0)
    (h : singleLoop smap rest db1 = .ok db') :
    ∃ t', tget db' "SingleValue" = some t' ∧ svStable t' k0 sc0 ∧
      svWf t' k0 := by
  have hrestw := singleLoop_writes smap rest db1 db' h
  have hdoc : svDocEq k0 db1 db' := hrestw.2 k0
    (fun q2 hq2 heq2 => hnotin (heq2 ▸ List.mem_map_of_mem Prod.fst hq2))
  obtain ⟨rows2, hrows2⟩ := hrestw.1.2 t1 ht1
  have hfilter := hdoc t1 _ ht1 hrows2
  exact ⟨_, hrows2, svStable_docEq k0 sc0 t1 _ hfilter hst1,
    svWf_docEq k0 t1 _ hfilter hwf1⟩

theorem singleLoop_establishes (smap : SchemaMap)
    (pending : List (String × Schema)) (db db' : DB)
    (hassoc : ∀ p ∈ pending, lookupSchema smap p.1 = some p.2)
    (hnd : (pending.map Prod.fst).Nodup)
    (hfn : ∀ p ∈ pending, (p.2.fields.map (fun f => f.fieldname)).Nodup)
    (hwf : ∀ p ∈ pending, p.2.isSingle = true →
      ∀ t, tget db "SingleValue" = some t → svWf t p.1)
    (h : singleLoop smap pending db = .ok db') :
    ∀ p ∈ pending, p.2.isSingle = true →
      ∃ t', tget db' "SingleValue" = some t' ∧ svStable t' p.1 p.2 ∧
        svWf t' p.1 := by
  induction pending generalizing db with
  | nil =>
    intro p hp
    exact absurd hp (by simp)
  | cons p rest ih =>
    obtain ⟨k0, sc0⟩ := p
    have hsck : lookupSchema smap k0 = some sc0 :=
      hassoc _ (List.mem_cons_self _ _)
    have hndc : k0 ∉ rest.map Prod.fst ∧ (rest.map Prod.fst).Nodup := by
      rw [List.map_cons] at hnd
      exact List.nodup_cons.mp hnd
    have hassocr : ∀ q ∈ rest, lookupSchema smap q.1 = some q.2 :=
      fun q hq => hassoc q (List.mem_cons_of_mem _ hq)
    have hfnr : ∀ q ∈ rest, (q.2.fields.map (fun f => f.fieldname)).Nodup :=
      fun q hq => hfn q (List.mem_cons_of_mem _ hq)
    unfold singleLoop at h
    simp only [hsck] at h
    by_cases hsingle : sc0.isSingle = true
    · rw [hsingle] at h
      simp only [Bool.not_true] at h
      rw [if_neg (by simp)] at h
      cases hex : singleExists db k0 with
      | error e =>
        simp only [hex] at h
        exact absurd h (by simp)
      | ok b =>
        cases ht : tget db "SingleValue" with
        | none =>
          unfold singleExists at hex
          rw [ht] at hex
          exact absurd hex (by simp)
        | some t =>
          have hb : b = t.rows.any (svParentPred k0) := by
            unfold singleExists at hex
            rw [ht] at hex
            exact ((Except.ok.injEq _ _).mp hex).symm
          have hwfh : svWf t k0 :=
            hwf _ (List.mem_cons_self _ _) hsingle t ht
          cases b with
          | true =>
            simp only [hex] at h
            cases hu : updateNonExtant smap db k0 with
            | error e =>
              simp only [hu] at h
              exact absurd h (by simp)
            | ok db1 =>
              simp only [hu] at h
              have hanyt : t.rows.any (svParentPred k0) = true := hb.symm
              obtain ⟨t1, ht1, hst1, hwf1⟩ := updateNonExtant_establishes
                smap k0 sc0 db db1 t hsck ht
                (hfn _ (List.mem_cons_self _ _)) hwfh hanyt hu
              have hwr := updateNonExtant_writes smap k0 db db1 hu
              intro q hq hqs
              rcases List.mem_cons.mp hq with heq | hq2
              · subst heq
                exact singles_head_transport k0 sc0 smap rest db1 db' t1
                  hndc.1 ht1 hst1 hwf1 h
              · refine ih db1 hassocr hndc.2 hfnr ?_ h q hq2 hqs
                intro q2 hq2m hq2s t2 ht2
                have hq2ne : q2.1 ≠ k0 := fun heq2 =>
                  hndc.1 (heq2 ▸ List.mem_map_of_mem Prod.fst hq2m)
                have hfil := (hwr.2 q2.1 hq2ne) t t2 ht ht2
                exact svWf_docEq q2.1 t t2 hfil
                  (hwf q2 (List.mem_cons_of_mem _ hq2m) hq2s t ht)
          | false =>
            simp only [hex] at h
            have hanyf : t.rows.any (svParentPred k0) = false := hb.symm
            by_cases hall : (sc0.fields.all (fun f => f.fdefault.isNone)) = true
            · rw [if_pos hall] at h
              intro q hq hqs
              rcases List.mem_cons.mp hq with heq | hq2
              · subst heq
                exact singles_head_transport k0 sc0 smap rest db db' t
                  hndc.1 ht (Or.inr ⟨hanyf, hall⟩) hwfh h
              · exact ih db hassocr hndc.2 hfnr
                  (fun q2 hq2m hq2s t2 ht2 =>
                    hwf q2 (List.mem_cons_of_mem _ hq2m) hq2s t2 ht2)
                  h q hq2 hqs
            · rw [if_neg hall] at h
              cases hu : updateSingleValues smap db k0 (sc0.fields.foldl
                  (fun acc f =>
                    match f.fdefault with
                    | some v => setEntry acc f.fieldname v
                    | none => acc) ([] : Row)) with
              | error e =>
                simp only [hu] at h
                exact absurd h (by simp)
              | ok db1 =>
                simp only [hu] at h
                obtain ⟨t1, ht1, hst1, hwf1⟩ := updateSingleValues_establishes
                  smap k0 sc0 db db1 t hsck ht
                  (hfn _ (List.mem_cons_self _ _)) hwfh hall hu
                have hwr := updateSingleValues_writes smap k0 _ db db1 hu
                intro q hq hqs
                rcases List.mem_cons.mp hq with heq | hq2
                · subst heq
                  exact singles_head_transport k0 sc0 smap rest db1 db' t1
                    hndc.1 ht1 hst1 hwf1 h
                · refine ih db1 hassocr hndc.2 hfnr ?_ h q hq2 hqs
                  intro q2 hq2m hq2s t2 ht2
                  have hq2ne : q2.1 ≠ k0 := fun heq2 =>
                    hndc.1 (heq2 ▸ List.mem_map_of_mem Prod.fst hq2m)
                  have hfil := (hwr.2 q2.1 hq2ne) t t2 ht ht2
                  exact svWf_docEq q2.1 t t2 hfil
                    (hwf q2 (List.mem_cons_of_mem _ hq2m) hq2s t ht)
    · rw [Bool.eq_false_iff.mpr hsingle] at h
      simp only [Bool.not_false] at h
      rw [if_pos trivial] at h
      intro q hq hqs
      rcases List.mem_cons.mp hq with heq | hq2
      · subst heq
        exact absurd hqs hsingle
      · exact ih db hassocr hndc.2 hfnr
          (fun q2 hq2m hq2s t2 ht2 =>
            hwf q2 (List.mem_cons_of_mem _ hq2m) hq2s t2 ht2)
          h q hq2 hqs

theorem singleLoop_stable (smap : SchemaMap)
    (pending : List (String × Schema)) (db : DB)
    (hassoc : ∀ p ∈ pending, lookupSchema smap p.1 = some p.2)
    (hstab : ∀ p ∈ pending, p.2.isSingle = true →
      ∃ t, tget db "SingleValue" = some t ∧ svStable t p.1 p.2 ∧
        svWf t p.1) :
    singleLoop smap pending db = .ok db := by
  induction pending with
  | nil => rfl
  | cons p rest ih =>
    obtain ⟨k0, sc0⟩ := p
    have hsck : lookupSchema smap k0 = some sc0 :=
      hassoc _ (List.mem_cons_self _ _)
    have hassocr : ∀ q ∈ rest, lookupSchema smap q.1 = some q.2 :=
      fun q hq => hassoc q (List.mem_cons_of_mem _ hq)
    have hstabr : ∀ q ∈ rest, q.2.isSingle = true →
        ∃ t, tget db "SingleValue" = some t ∧ svStable t q.1 q.2 ∧
          svWf t q.1 :=
      fun q hq => hstab q (List.mem_cons_of_mem _ hq)
    unfold singleLoop
    simp only [hsck]
    by_cases hsingle : sc0.isSingle = true
    · rw [hsingle]
      simp only [Bool.not_true]
      rw [if_neg (by simp)]
      obtain ⟨t, ht, hst, hwf⟩ := hstab _ (List.mem_cons_self _ _) hsingle
      have hexeq : singleExists db k0 = .ok (t.rows.any (svParentPred k0)) := by
        unfold singleExists
        rw [ht]
        rfl
      rcases hst with ⟨hany, hvals⟩ | ⟨hany, hall⟩
      · simp only [hexeq, hany]
        simp only [updateNonExtant_identity smap k0 sc0 db t hsck ht hvals]
        exact ih hassocr hstabr
      · simp only [hexeq, hany]
        rw [if_pos hall]
        exact ih hassocr hstabr
    · rw [Bool.eq_false_iff.mpr hsingle]
      simp only [Bool.not_false]
      rw [if_pos trivial]
      exact ih hassocr hstabr

theorem svWf_empty (k : String) (cols fks : List String) :
    svWf { cols := cols, fks := fks, rows := ([] : List Row) } k :=
  ⟨fun r hr => absurd hr (by simp), List.nodup_nil⟩

/-- C9: for every schema map whose keys are unique, whose entries are
what lookup returns, whose Link fields carry truthy targets, whose
names do not collide with the migration's temporary sibling names, and
whose field names are per-schema unique, with the stored SingleValue
table initially well formed and in sync with its (non-singleton)
registered schema whenever singleton schemas exist: a successful
migrate run is idempotent. On the state it produces, every collection
table has an empty column diff and no new foreign keys, and a second
migrate run performs no rebuild (count 0) and leaves the database
identical. -/
theorem c9_migrate_idempotent (smap : SchemaMap) (db db1 : DB) (n1 : Nat)
    (hkeys : (smap.map Prod.fst).Nodup)
    (hassoc : ∀ p ∈ smap, lookupSchema smap p.1 = some p.2)
    (hLinks : ∀ p ∈ smap, ∀ f ∈ p.2.fields, f.fieldtype = FieldType.Link →
      truthyTarget f.target = true)
    (hnoclash : ∀ p ∈ smap, ∀ q ∈ smap,
      p.1 ≠ "__" ++ q.1 ∧ p.1 ≠ "TEMP" ++ q.1)
    (hfn : ∀ p ∈ smap, (p.2.fields.map (fun f => f.fieldname)).Nodup)
    (hsvk : (∃ p ∈ smap, p.2.isSingle = true) →
      ∃ svsc, ("SingleValue", svsc) ∈ smap ∧ svsc.isSingle = false)
    (hsvinit : ∀ t, tget db "SingleValue" = some t →
      (∀ p ∈ smap, p.2.isSingle = true → svWf t p.1) ∧
      (∀ svsc, ("SingleValue", svsc) ∈ smap → tableOK svsc t))
    (h : migrate smap db = .ok (db1, n1)) :
    migrate smap db1 = .ok (db1, 0) ∧
    (∀ p ∈ smap, p.2.isSingle = false →
      ∃ t, tget db1 p.1 = some t ∧ columnDiff p.2 t.cols = ⟨[], []⟩ ∧
        newFKfields p.2 t.fks = []) := by
  unfold migrate at h
  cases hTL : tableLoop smap smap db with
  | error e =>
    simp only [hTL] at h
    exact absurd h (by simp)
  | ok pr =>
    obtain ⟨db0, n0⟩ := pr
    simp only [hTL] at h
    cases hSL : singleLoop smap smap db0 with
    | error e =>
      simp only [hSL] at h
      exact absurd h (by simp)
    | ok db2 =>
      simp only [hSL] at h
      have hpr := (Except.ok.injEq _ _).mp h
      have hdb2 : db1 = db2 := (congrArg Prod.fst hpr).symm
      subst hdb2
      obtain ⟨hTL1, hTL2, hTL3⟩ := tableLoop_establishes smap hassoc hLinks
        hnoclash smap db db0 n0 (fun p hp => hp) hkeys hTL
      have hwf0 : ∀ p ∈ smap, p.2.isSingle = true →
          ∀ t0, tget db0 "SingleValue" = some t0 → svWf t0 p.1 := by
        intro p hp hps t0 ht0
        obtain ⟨svsc, hsvmem, hsvns⟩ := hsvk ⟨p, hp, hps⟩
        have hcl := hTL3 ("SingleValue", svsc) hsvmem hsvns
        cases hti : tget db "SingleValue" with
        | some tInit =>
          have hkeep := hcl.1 tInit hti ((hsvinit tInit hti).2 svsc hsvmem)
          rw [hkeep] at ht0
          rw [← Option.some_inj.mp ht0]
          exact (hsvinit tInit hti).1 p hp hps
        | none =>
          have hmade := hcl.2 hti
          rw [hmade] at ht0
          rw [← Option.some_inj.mp ht0]
          exact svWf_empty p.1 _ _
      have hSw := singleLoop_writes smap smap db0 db1 hSL
      have hS1 := singleLoop_establishes smap smap db0 db1 hassoc hkeys hfn
        hwf0 hSL
      have hok2 : ∀ p ∈ smap, p.2.isSingle = false →
          ∃ t, tget db1 p.1 = some t ∧ tableOK p.2 t := by
        intro p hp hps
        obtain ⟨t, htp, htok⟩ := hTL1 p hp hps
        by_cases hpv : p.1 = "SingleValue"
        · rw [hpv] at htp
          obtain ⟨rows1, hget⟩ := hSw.1.2 t htp
          rw [← hpv] at hget
          exact ⟨_, hget, htok⟩
        · have := hSw.1.1 p.1 hpv
          rw [htp] at this
          exact ⟨t, this, htok⟩
      have htab2 : tableLoop smap smap db1 = .ok (db1, 0) :=
        tableLoop_stable smap smap db1 hassoc hok2
      have hsing2 : singleLoop smap smap db1 = .ok db1 :=
        singleLoop_stable smap smap db1 hassoc hS1
      constructor
      · unfold migrate
        simp only [htab2, hsing2]
      · intro p hp hps
        obtain ⟨t, htp, htok⟩ := hok2 p hp hps
        exact ⟨t, htp, htok.1, htok.2⟩

theorem c9_witness :
    migrate fixMap fixDb = .ok (c9pair.1, c9pair.2) ∧
    migrate fixMap c9pair.1 = .ok (c9pair.1, 0) ∧
    (∀ p ∈ fixMap, p.2.isSingle = false →
      ∃ t, tget c9pair.1 p.1 = some t ∧ columnDiff p.2 t.cols = ⟨[], []⟩ ∧
        newFKfields p.2 t.fks = []) := by
  have h : migrate fixMap fixDb = .ok (c9pair.1, c9pair.2) := rfl
  have hres := c9_migrate_idempotent fixMap fixDb c9pair.1 c9pair.2
    (by decide)
    (by
      intro p hp
      simp only [fixMap, List.mem_cons, List.not_mem_nil, or_false] at hp
      rcases hp with rfl | rfl | rfl | rfl | rfl <;> rfl)
    (by
      intro p hp
      simp only [fixMap, List.mem_cons, List.not_mem_nil, or_false] at hp
      rcases hp with rfl | rfl | rfl | rfl | rfl <;> decide)
    (by
      intro p hp q hq
      simp only [fixMap, List.mem_cons, List.not_mem_nil, or_false] at hp hq
      rcases hp with rfl | rfl | rfl | rfl | rfl <;>
        rcases hq with rfl | rfl | rfl | rfl | rfl <;> decide)
    (by
      intro p hp
      simp only [fixMap, List.mem_cons, List.not_mem_nil, or_false] at hp
      rcases hp with rfl | rfl | rfl | rfl | rfl <;> decide)
    (fun _ => ⟨svSchema, by simp [fixMap], rfl⟩)
    (by
      intro t ht
      have ht2 : some fixSvTable = some t := ht
      rw [← Option.some_inj.mp ht2]
      constructor
      · intro p hp
        simp only [fixMap, List.mem_cons, List.not_mem_nil, or_false] at hp
        rcases hp with rfl | rfl | rfl | rfl | rfl
        · intro hps
          exact absurd hps (by decide)
        · intro hps
          exact absurd hps (by decide)
        · intro hps
          exact absurd hps (by decide)
        · intro hps
          exact absurd hps (by decide)
        · intro hps
          constructor
          · intro r hr hpr
            have hr' : r ∈ [fixSvRow] := hr
            have hre : r = fixSvRow := List.mem_singleton.mp hr'
            subst hre
            decide
          · decide
      · intro svsc hm
        simp only [fixMap, List.mem_cons, Prod.mk.injEq,
          List.not_mem_nil, or_false] at hm
        rcases hm with ⟨he, _⟩ | ⟨he, _⟩ | ⟨he, _⟩ | ⟨_, he⟩ | ⟨he, _⟩
        · exact absurd he (by decide)
        · exact absurd he (by decide)
        · exact absurd he (by decide)
        · rw [he]
          exact ⟨rfl, rfl⟩
        · exact absurd he (by decide))
    h
  exact ⟨h, hres.1, hres.2⟩

end Books